import Mathlib

/-!
# Noja: lowering of the AST to bytecode (`src/compiler/compile.c`)

A shallow embedding of `compile.c`: the AST, the instruction builder with its
forward-reference cells (`Promise`), the tuple flattener, the tree-walking
emitter `emit_instr_for_node` and the entry point `compile`.

Conventions of the embedding

* C `int` / `long long` values are `Int`.  The one sum of two `int` fields
  that the emitter computes, `func->body->offset + func->body->length`, is
  `int_add`, which wraps around modulo `2 ^ 32`; the other arithmetic only
  counts instructions and list items.
* A `double` literal is carried as its bit pattern (`Nat`); the compiler only
  copies it into an operand.
* A `Promise *` is the index of its cell in the arena; `NULL` is `none`.
  `Promise_Free`, which the emitter calls once a cell is resolved, leaves the
  resolved value to the operands that captured the cell and is not modelled.
* Every call that may allocate draws from one allocation budget `mem`: the
  call fails when the budget is exhausted.  Any call site can therefore be the
  first one that fails.
-/

namespace Noja

/-! ## Errors -/

/-- The format strings handed to `Error_Report`, with their arguments. -/
inductive ErrorMessage where
  /-- "Tuple outside of assignment or return statement" -/
  | tuple_outside
  /-- "Assigning to %d variables only 1 value" -/
  | assigning_to (count : Int)
  /-- "Assigning to something that it can't be assigned to" -/
  | not_assignable
  /-- "Break not inside a loop" -/
  | break_not_in_loop
  /-- "Static buffer is too small" -/
  | static_buffer_too_small
  /-- "No memory" -/
  | no_memory
  /-- Finalization met a forward reference that is not resolved exactly once. -/
  | unresolved_promise
  deriving DecidableEq, Repr

/-- The `Error` structure: empty, or filled out by `Error_Report`. -/
inductive Error where
  | unset
  | report (internal : Bool) (message : ErrorMessage)
  deriving DecidableEq, Repr

/-- Modelled from the spec: `Error_Report(error, internal, fmt, ...)`, which
fills the error structure out with the internal flag and the message. -/
def Error_Report (_error : Error) (internal : Bool) (message : ErrorMessage) : Error :=
  Error.report internal message

/-! ## Instructions -/

inductive Opcode where
  | OPCODE_NOT | OPCODE_POS | OPCODE_NEG
  | OPCODE_ADD | OPCODE_SUB | OPCODE_MUL | OPCODE_DIV
  | OPCODE_EQL | OPCODE_NQL | OPCODE_LSS | OPCODE_LEQ | OPCODE_GRT | OPCODE_GEQ
  | OPCODE_AND | OPCODE_OR
  | OPCODE_ASS | OPCODE_POP
  | OPCODE_CALL | OPCODE_SELECT | OPCODE_INSERT | OPCODE_INSERT2
  | OPCODE_PUSHINT | OPCODE_PUSHFLT | OPCODE_PUSHSTR | OPCODE_PUSHVAR
  | OPCODE_PUSHLST | OPCODE_PUSHMAP
  | OPCODE_PUSHNNE | OPCODE_PUSHTRU | OPCODE_PUSHFLS | OPCODE_PUSHFUN
  | OPCODE_RETURN
  | OPCODE_JUMP | OPCODE_JUMPIFNOTANDPOP | OPCODE_JUMPIFANDPOP
  deriving DecidableEq, Repr

/-- An operand: `OPTP_INT`, `OPTP_FLOAT`, `OPTP_STRING` or `OPTP_PROMISE`. -/
inductive Operand where
  | int (as_int : Int)
  | float (as_float : Nat)
  | string (as_string : String)
  | promise (as_promise : Nat)
  deriving DecidableEq, Repr

structure Instr where
  opcode : Opcode
  ops : List Operand
  offset : Int
  length : Int
  deriving DecidableEq, Repr

/-- Modelled from the spec: the forward-reference cell (`Promise`, whose
source is not in `compile.c`).  It is a write-once cell: `pending` until
`Promise_Resolve` writes it, `resolved v` after exactly one write, and
`broken` once it has been written a second time. -/
inductive Promise where
  | pending
  | resolved (value : Int)
  | broken
  deriving DecidableEq, Repr

/-- The state the emitter works on: the builder's instruction array, the
cells of the arena behind `ExeBuilder_GetAlloc`, the allocation budget and the
`Error` out-parameter. -/
structure Env where
  code : List Instr
  cells : List Promise
  mem : Nat
  error : Error
  deriving DecidableEq, Repr

/-- The `return 0` after an `Error_Report`. -/
def fail (exeb : Env) (internal : Bool) (message : ErrorMessage) : Bool × Env :=
  (false, { exeb with error := Error_Report exeb.error internal message })

/-- Modelled from the spec: `ExeBuilder_Append` (`append(opcode, operands,
source_span) -> index | Fails(OutOfMemory)`): the instruction becomes the last
one of the builder, or the call reports "No memory". -/
def ExeBuilder_Append (exeb : Env) (opcode : Opcode) (ops : List Operand)
    (offset length : Int) : Bool × Env :=
  match exeb.mem with
  | 0 => fail exeb true ErrorMessage.no_memory
  | m + 1 => (true, { exeb with code := exeb.code ++ [⟨opcode, ops, offset, length⟩], mem := m })

/-- Modelled from the spec: `ExeBuilder_InstrCount`, the index the next
appended instruction will occupy. -/
def ExeBuilder_InstrCount (exeb : Env) : Int :=
  exeb.code.length

/-- Modelled from the spec: `Promise_New` (`allocate(size) -> Cell |
Fails(OutOfMemory)`): a fresh pending cell of the arena, or `NULL`. -/
def Promise_New (exeb : Env) : Option Nat × Env :=
  match exeb.mem with
  | 0 => (none, exeb)
  | m + 1 => (some exeb.cells.length, { exeb with cells := exeb.cells ++ [Promise.pending], mem := m })

/-- One write to a cell. -/
def Promise.write (value : Int) : Promise → Promise
  | Promise.pending => Promise.resolved value
  | _ => Promise.broken

/-- Modelled from the spec: `Promise_Resolve` (`resolve(cell, value)`, which
writes the value once). -/
def Promise_Resolve (exeb : Env) (promise : Nat) (value : Int) : Env :=
  { exeb with cells := exeb.cells.modify (Promise.write value) promise }

/-! ## The AST -/

inductive NodeKind where
  | NODE_EXPR | NODE_BREAK | NODE_IFELSE | NODE_WHILE | NODE_DOWHILE
  | NODE_COMP | NODE_RETURN | NODE_FUNC | NODE_ARG
  deriving DecidableEq, Repr

/-- The `ExprKind` of an operator node that `exprkind_to_opcode` maps.
`EXPR_ASS` and `EXPR_PAIR` nodes and the other expression kinds are
constructors of `Node` of their own. -/
inductive OperKind where
  | EXPR_NOT | EXPR_POS | EXPR_NEG
  | EXPR_ADD | EXPR_SUB | EXPR_MUL | EXPR_DIV
  | EXPR_EQL | EXPR_NQL | EXPR_LSS | EXPR_LEQ | EXPR_GRT | EXPR_GEQ
  | EXPR_AND | EXPR_OR
  deriving DecidableEq, Repr

/-- An `ArgumentNode` of a function definition's `argv` chain. -/
structure ArgumentNode where
  offset : Int
  length : Int
  name : String
  deriving DecidableEq, Repr

/-- The AST.  Every node carries its source `offset` and `length`; a `next`
chain of siblings is a list.  `pair` and `ass` are the `OperExprNode`s of kind
`EXPR_PAIR` and `EXPR_ASS`, of which the code reads `head` and `head->next`;
the `keys` and `items` chains of a map, walked in lockstep, are a list of
pairs; `false_branch` may be `NULL`. -/
inductive Node where
  | oper (kind : OperKind) (offset length : Int) (head : List Node)
  | pair (offset length : Int) (left right : Node)
  | ass (offset length : Int) (lop rop : Node)
  | int (offset length : Int) (val : Int)
  | float (offset length : Int) (val : Nat)
  | string (offset length : Int) (val : String)
  | ident (offset length : Int) (val : String)
  | list (offset length : Int) (items : List Node) (itemc : Int)
  | map (offset length : Int) (entries : List (Node × Node)) (itemc : Int)
  | call (offset length : Int) (func : Node) (argv : List Node) (argc : Int)
  | select (offset length : Int) (set idx : Node)
  | none (offset length : Int)
  | true (offset length : Int)
  | false (offset length : Int)
  | brk (offset length : Int)
  | ifelse (offset length : Int) (condition true_branch : Node) (false_branch : Option Node)
  | while (offset length : Int) (condition body : Node)
  | dowhile (offset length : Int) (body condition : Node)
  | comp (offset length : Int) (head : List Node)
  | ret (offset length : Int) (val : Node)
  | func (offset length : Int) (name : String) (argv : List ArgumentNode) (argc : Int)
      (body : Node)

/-- The field `node->kind`. -/
def Node.kind : Node → NodeKind
  | Node.brk _ _ => NodeKind.NODE_BREAK
  | Node.ifelse _ _ _ _ _ => NodeKind.NODE_IFELSE
  | Node.while _ _ _ _ => NodeKind.NODE_WHILE
  | Node.dowhile _ _ _ _ => NodeKind.NODE_DOWHILE
  | Node.comp _ _ _ => NodeKind.NODE_COMP
  | Node.ret _ _ _ => NodeKind.NODE_RETURN
  | Node.func _ _ _ _ _ _ => NodeKind.NODE_FUNC
  | _ => NodeKind.NODE_EXPR

/-- The field `node->offset`. -/
def Node.offset : Node → Int
  | Node.oper _ o _ _ | Node.pair o _ _ _ | Node.ass o _ _ _ | Node.int o _ _
  | Node.float o _ _ | Node.string o _ _ | Node.ident o _ _ | Node.list o _ _ _
  | Node.map o _ _ _ | Node.call o _ _ _ _ | Node.select o _ _ _ | Node.none o _
  | Node.true o _ | Node.false o _ | Node.brk o _ | Node.ifelse o _ _ _ _
  | Node.while o _ _ _ | Node.dowhile o _ _ _ | Node.comp o _ _ | Node.ret o _ _
  | Node.func o _ _ _ _ _ => o

/-- The field `node->length`. -/
def Node.length : Node → Int
  | Node.oper _ _ l _ | Node.pair _ l _ _ | Node.ass _ l _ _ | Node.int _ l _
  | Node.float _ l _ | Node.string _ l _ | Node.ident _ l _ | Node.list _ l _ _
  | Node.map _ l _ _ | Node.call _ l _ _ _ | Node.select _ l _ _ | Node.none _ l
  | Node.true _ l | Node.false _ l | Node.brk _ l | Node.ifelse _ l _ _ _
  | Node.while _ l _ _ | Node.dowhile _ l _ _ | Node.comp _ l _ | Node.ret _ l _
  | Node.func _ l _ _ _ _ => l

/-! ## The emitter -/

def exprkind_to_opcode : OperKind → Opcode
  | OperKind.EXPR_NOT => Opcode.OPCODE_NOT
  | OperKind.EXPR_POS => Opcode.OPCODE_POS
  | OperKind.EXPR_NEG => Opcode.OPCODE_NEG
  | OperKind.EXPR_ADD => Opcode.OPCODE_ADD
  | OperKind.EXPR_SUB => Opcode.OPCODE_SUB
  | OperKind.EXPR_MUL => Opcode.OPCODE_MUL
  | OperKind.EXPR_DIV => Opcode.OPCODE_DIV
  | OperKind.EXPR_EQL => Opcode.OPCODE_EQL
  | OperKind.EXPR_NQL => Opcode.OPCODE_NQL
  | OperKind.EXPR_LSS => Opcode.OPCODE_LSS
  | OperKind.EXPR_LEQ => Opcode.OPCODE_LEQ
  | OperKind.EXPR_GRT => Opcode.OPCODE_GRT
  | OperKind.EXPR_GEQ => Opcode.OPCODE_GEQ
  | OperKind.EXPR_AND => Opcode.OPCODE_AND
  | OperKind.EXPR_OR => Opcode.OPCODE_OR

/-- `flatten_tuple_tree(root, tuple, max, &count, error)`: `count` is the
length of `tuple`. -/
def flatten_tuple_tree : Node → List Node → Nat → Error → Bool × List Node × Error
  | Node.pair _ _ left right, tuple, max, error =>
    match flatten_tuple_tree left tuple max error with
    | (true, tuple, error) => flatten_tuple_tree right tuple max error
    | (false, tuple, error) => (false, tuple, error)
  | root, tuple, max, error =>
    if max = tuple.length then
      (false, tuple, Error_Report error false ErrorMessage.static_buffer_too_small)
    else
      (true, tuple ++ [root], error)

/-- The sum of two `int` values as the compiled code computes it, in two's
complement: the sum modulo `2 ^ 32`, between `-2 ^ 31` and `2 ^ 31 - 1`. -/
def int_add (a b : Int) : Int :=
  (a + b + 2 ^ 31) % 2 ^ 32 - 2 ^ 31

/-- The type of `emit_instr_for_node`: builder (with the error structure),
node and `break_dest` to the returned flag and the state left behind. -/
abbrev Emitter := Env → Node → Option Nat → Bool × Env

/-- `if(!step) return 0;` followed by the rest of the function. -/
def andThen (step : Bool × Env) (rest : Env → Bool × Env) : Bool × Env :=
  match step with
  | (true, exeb) => rest exeb
  | (false, exeb) => (false, exeb)

/-- A loop that lowers the nodes of a chain one after the other. -/
def emit_each (rec : Emitter) (break_dest : Option Nat) : List Node → Env → Bool × Env
  | [], exeb => (true, exeb)
  | node :: next, exeb =>
    andThen (rec exeb node break_dest) fun exeb =>
    emit_each rec break_dest next exeb

def emit_instr_for_funccall (rec : Emitter) (exeb : Env) (func : Node) (argv : List Node)
    (argc : Int) (offset length : Int) (break_dest : Option Nat) (returns : Int) :
    Bool × Env :=
  andThen (emit_each rec break_dest argv exeb) fun exeb =>
  andThen (rec exeb func break_dest) fun exeb =>
  ExeBuilder_Append exeb Opcode.OPCODE_CALL [Operand.int argc, Operand.int returns] offset length

/-- The `POP 1` that discards the value of a statement that is an expression. -/
def pop_if_expr (exeb : Env) (stmt : Node) (offset : Int) : Bool × Env :=
  if stmt.kind = NodeKind.NODE_EXPR then
    ExeBuilder_Append exeb Opcode.OPCODE_POP [Operand.int 1] offset 0
  else
    (true, exeb)

/-- The store of one assignment target (the `switch(tuple_item->kind)`). -/
def emit_store (rec : Emitter) (break_dest : Option Nat) (exeb : Env) : Node → Bool × Env
  | Node.ident offset length name =>
    ExeBuilder_Append exeb Opcode.OPCODE_ASS [Operand.string name] offset length
  | Node.select offset length set idx =>
    andThen (rec exeb set break_dest) fun exeb =>
    andThen (rec exeb idx break_dest) fun exeb =>
    ExeBuilder_Append exeb Opcode.OPCODE_INSERT2 [] offset length
  | _ => fail exeb false ErrorMessage.not_assignable

/-- The loop `for(i = 0; i < count; i += 1)` over `tuple[count-i-1]`: `items`
are the targets still to be stored, last target first. -/
def emit_stores (rec : Emitter) (break_dest : Option Nat) (node_offset : Int) (count : Nat) :
    List Node → Nat → Env → Bool × Env
  | [], _, exeb => (true, exeb)
  | tuple_item :: items, i, exeb =>
    andThen (emit_store rec break_dest exeb tuple_item) fun exeb =>
    andThen (if i + 1 < count then
        ExeBuilder_Append exeb Opcode.OPCODE_POP [Operand.int 1] node_offset 0
      else (true, exeb)) fun exeb =>
    emit_stores rec break_dest node_offset count items (i + 1) exeb

/-- The loop over the items of a list literal. -/
def emit_list_items (rec : Emitter) (break_dest : Option Nat) :
    List Node → Int → Env → Bool × Env
  | [], _, exeb => (true, exeb)
  | item :: next, i, exeb =>
    andThen (ExeBuilder_Append exeb Opcode.OPCODE_PUSHINT [Operand.int i]
      item.offset item.length) fun exeb =>
    andThen (rec exeb item break_dest) fun exeb =>
    andThen (ExeBuilder_Append exeb Opcode.OPCODE_INSERT [] item.offset item.length) fun exeb =>
    emit_list_items rec break_dest next (i + 1) exeb

/-- The loop over the keys and items of a map literal. -/
def emit_map_items (rec : Emitter) (break_dest : Option Nat) :
    List (Node × Node) → Env → Bool × Env
  | [], exeb => (true, exeb)
  | (key, item) :: next, exeb =>
    andThen (rec exeb key break_dest) fun exeb =>
    andThen (rec exeb item break_dest) fun exeb =>
    andThen (ExeBuilder_Append exeb Opcode.OPCODE_INSERT [] item.offset item.length) fun exeb =>
    emit_map_items rec break_dest next exeb

/-- The loop over the statements of a compound block. -/
def emit_stmts (rec : Emitter) (break_dest : Option Nat) : List Node → Env → Bool × Env
  | [], exeb => (true, exeb)
  | stmt :: next, exeb =>
    andThen (rec exeb stmt break_dest) fun exeb =>
    andThen (pop_if_expr exeb stmt stmt.offset) fun exeb =>
    emit_stmts rec break_dest next exeb

/-- The loop over the declared arguments of a function definition. -/
def emit_args : List ArgumentNode → Env → Bool × Env
  | [], exeb => (true, exeb)
  | arg :: next, exeb =>
    andThen (ExeBuilder_Append exeb Opcode.OPCODE_ASS [Operand.string arg.name]
      arg.offset arg.length) fun exeb =>
    andThen (ExeBuilder_Append exeb Opcode.OPCODE_POP [Operand.int 1]
      arg.offset arg.length) fun exeb =>
    emit_args next exeb

/-- The body of `emit_instr_for_node`, with `rec` for its recursive calls. -/
def emit_body (rec : Emitter) : Emitter := fun exeb node break_dest =>
  match node with
  | Node.pair _ _ _ _ => fail exeb false ErrorMessage.tuple_outside
  | Node.oper kind offset length head =>
    andThen (emit_each rec break_dest head exeb) fun exeb =>
    ExeBuilder_Append exeb (exprkind_to_opcode kind) [] offset length
  | Node.ass offset _ lop rop =>
    match flatten_tuple_tree lop [] 32 exeb.error with
    | (false, _, error) => (false, { exeb with error := error })
    | (true, tuple, _) =>
      let count := tuple.length
      andThen
        (if count = 1 then rec exeb rop break_dest
         else
          match rop with
          | Node.call coffset clength func argv argc =>
            emit_instr_for_funccall rec exeb func argv argc coffset clength break_dest count
          | _ => fail exeb false (ErrorMessage.assigning_to count)) fun exeb =>
      emit_stores rec break_dest offset count tuple.reverse 0 exeb
  | Node.int offset length val =>
    ExeBuilder_Append exeb Opcode.OPCODE_PUSHINT [Operand.int val] offset length
  | Node.float offset length val =>
    ExeBuilder_Append exeb Opcode.OPCODE_PUSHFLT [Operand.float val] offset length
  | Node.string offset length val =>
    ExeBuilder_Append exeb Opcode.OPCODE_PUSHSTR [Operand.string val] offset length
  | Node.ident offset length val =>
    ExeBuilder_Append exeb Opcode.OPCODE_PUSHVAR [Operand.string val] offset length
  | Node.list offset length items itemc =>
    andThen (ExeBuilder_Append exeb Opcode.OPCODE_PUSHLST [Operand.int itemc]
      offset length) fun exeb =>
    emit_list_items rec break_dest items 0 exeb
  | Node.map offset length entries itemc =>
    andThen (ExeBuilder_Append exeb Opcode.OPCODE_PUSHMAP [Operand.int itemc]
      offset length) fun exeb =>
    emit_map_items rec break_dest entries exeb
  | Node.call offset length func argv argc =>
    emit_instr_for_funccall rec exeb func argv argc offset length break_dest 1
  | Node.select offset length set idx =>
    andThen (rec exeb set break_dest) fun exeb =>
    andThen (rec exeb idx break_dest) fun exeb =>
    ExeBuilder_Append exeb Opcode.OPCODE_SELECT [] offset length
  | Node.none offset length => ExeBuilder_Append exeb Opcode.OPCODE_PUSHNNE [] offset length
  | Node.true offset length => ExeBuilder_Append exeb Opcode.OPCODE_PUSHTRU [] offset length
  | Node.false offset length => ExeBuilder_Append exeb Opcode.OPCODE_PUSHFLS [] offset length
  | Node.brk offset length =>
    match break_dest with
    | Option.none => fail exeb false ErrorMessage.break_not_in_loop
    | some break_dest =>
      ExeBuilder_Append exeb Opcode.OPCODE_JUMP [Operand.promise break_dest] offset length
  | Node.ifelse offset length condition true_branch (some false_branch) =>
    andThen (rec exeb condition break_dest) fun exeb =>
    match Promise_New exeb with
    | (else_offset, exeb) =>
    match Promise_New exeb with
    | (done_offset, exeb) =>
    match else_offset, done_offset with
    | some else_offset, some done_offset =>
      andThen (ExeBuilder_Append exeb Opcode.OPCODE_JUMPIFNOTANDPOP
        [Operand.promise else_offset] offset length) fun exeb =>
      andThen (rec exeb true_branch break_dest) fun exeb =>
      andThen (pop_if_expr exeb true_branch true_branch.offset) fun exeb =>
      andThen (ExeBuilder_Append exeb Opcode.OPCODE_JUMP
        [Operand.promise done_offset] offset length) fun exeb =>
      let exeb := Promise_Resolve exeb else_offset (ExeBuilder_InstrCount exeb)
      andThen (rec exeb false_branch break_dest) fun exeb =>
      andThen (pop_if_expr exeb false_branch false_branch.offset) fun exeb =>
      (true, Promise_Resolve exeb done_offset (ExeBuilder_InstrCount exeb))
    | _, _ => fail exeb true ErrorMessage.no_memory
  | Node.ifelse offset length condition true_branch Option.none =>
    andThen (rec exeb condition break_dest) fun exeb =>
    match Promise_New exeb with
    | (some done_offset, exeb) =>
      andThen (ExeBuilder_Append exeb Opcode.OPCODE_JUMPIFNOTANDPOP
        [Operand.promise done_offset] offset length) fun exeb =>
      andThen (rec exeb true_branch break_dest) fun exeb =>
      andThen (pop_if_expr exeb true_branch true_branch.offset) fun exeb =>
      (true, Promise_Resolve exeb done_offset (ExeBuilder_InstrCount exeb))
    | (Option.none, exeb) => fail exeb true ErrorMessage.no_memory
  | Node.while offset length condition body =>
    match Promise_New exeb with
    | (start_offset, exeb) =>
    match Promise_New exeb with
    | (end_offset, exeb) =>
    match start_offset, end_offset with
    | some start_offset, some end_offset =>
      let exeb := Promise_Resolve exeb start_offset (ExeBuilder_InstrCount exeb)
      andThen (rec exeb condition break_dest) fun exeb =>
      andThen (ExeBuilder_Append exeb Opcode.OPCODE_JUMPIFNOTANDPOP
        [Operand.promise end_offset] condition.offset condition.length) fun exeb =>
      andThen (rec exeb body (some end_offset)) fun exeb =>
      andThen (pop_if_expr exeb body body.offset) fun exeb =>
      andThen (ExeBuilder_Append exeb Opcode.OPCODE_JUMP
        [Operand.promise start_offset] offset length) fun exeb =>
      (true, Promise_Resolve exeb end_offset (ExeBuilder_InstrCount exeb))
    | _, _ => fail exeb true ErrorMessage.no_memory
  | Node.dowhile _ _ body condition =>
    match Promise_New exeb with
    | (some end_offset, exeb) =>
      let start := ExeBuilder_InstrCount exeb
      andThen (rec exeb body (some end_offset)) fun exeb =>
      andThen (pop_if_expr exeb body body.offset) fun exeb =>
      andThen (rec exeb condition break_dest) fun exeb =>
      andThen (ExeBuilder_Append exeb Opcode.OPCODE_JUMPIFANDPOP
        [Operand.int start] condition.offset condition.length) fun exeb =>
      (true, Promise_Resolve exeb end_offset (ExeBuilder_InstrCount exeb))
    | (Option.none, exeb) => fail exeb true ErrorMessage.no_memory
  | Node.comp _ _ head => emit_stmts rec break_dest head exeb
  | Node.ret offset length val =>
    match flatten_tuple_tree val [] 32 exeb.error with
    | (false, _, error) => (false, { exeb with error := error })
    | (true, tuple, _) =>
      andThen (emit_each rec break_dest tuple exeb) fun exeb =>
      ExeBuilder_Append exeb Opcode.OPCODE_RETURN [Operand.int tuple.length] offset length
  | Node.func offset length name argv argc body =>
    match Promise_New exeb with
    | (func_index, exeb) =>
    match Promise_New exeb with
    | (jump_index, exeb) =>
    match func_index, jump_index with
    | some func_index, some jump_index =>
      andThen (ExeBuilder_Append exeb Opcode.OPCODE_PUSHFUN
        [Operand.promise func_index, Operand.int argc] offset length) fun exeb =>
      andThen (ExeBuilder_Append exeb Opcode.OPCODE_ASS
        [Operand.string name] offset length) fun exeb =>
      andThen (ExeBuilder_Append exeb Opcode.OPCODE_POP
        [Operand.int 1] offset length) fun exeb =>
      andThen (ExeBuilder_Append exeb Opcode.OPCODE_JUMP
        [Operand.promise jump_index] offset length) fun exeb =>
      let exeb := Promise_Resolve exeb func_index (ExeBuilder_InstrCount exeb)
      andThen (emit_args argv exeb) fun exeb =>
      andThen (rec exeb body Option.none) fun exeb =>
      andThen (pop_if_expr exeb body (int_add body.offset body.length)) fun exeb =>
      andThen (ExeBuilder_Append exeb Opcode.OPCODE_RETURN
        [Operand.int 0] body.offset 0) fun exeb =>
      (true, Promise_Resolve exeb jump_index (ExeBuilder_InstrCount exeb))
    | _, _ => fail exeb true ErrorMessage.no_memory

/-- The number of nodes of a tree: a bound on how deep the emitter recurses
into it. -/
def Node.size : Node → Nat
  | Node.oper _ _ _ head => size_chain head + 1
  | Node.pair _ _ left right => left.size + right.size + 1
  | Node.ass _ _ lop rop => lop.size + rop.size + 1
  | Node.int _ _ _ => 1
  | Node.float _ _ _ => 1
  | Node.string _ _ _ => 1
  | Node.ident _ _ _ => 1
  | Node.list _ _ items _ => size_chain items + 1
  | Node.map _ _ entries _ => size_entries entries + 1
  | Node.call _ _ callee argv _ => callee.size + size_chain argv + 1
  | Node.select _ _ set idx => set.size + idx.size + 1
  | Node.none _ _ => 1
  | Node.true _ _ => 1
  | Node.false _ _ => 1
  | Node.brk _ _ => 1
  | Node.ifelse _ _ condition true_branch (some false_branch) =>
    condition.size + true_branch.size + false_branch.size + 1
  | Node.ifelse _ _ condition true_branch Option.none => condition.size + true_branch.size + 1
  | Node.while _ _ condition body => condition.size + body.size + 1
  | Node.dowhile _ _ body condition => body.size + condition.size + 1
  | Node.comp _ _ head => size_chain head + 1
  | Node.ret _ _ val => val.size + 1
  | Node.func _ _ _ _ _ body => body.size + 1
where
  /-- The nodes of a chain of siblings. -/
  size_chain : List Node → Nat
    | [] => 0
    | node :: next => node.size + size_chain next
  /-- The nodes of the keys and items of a map. -/
  size_entries : List (Node × Node) → Nat
    | [] => 0
    | (key, item) :: next => key.size + item.size + size_entries next

/-- The recursion of `emit_instr_for_node`, at most `depth` calls deep.  The C
function recurses on the native stack; `emit_instr_for_node` below allows the
depth that the node can need, so the first case is never the answer (see
`emit_depth_irrelevant`). -/
def emit_depth : Nat → Emitter
  | 0 => fun exeb _ _ => (false, exeb)
  | depth + 1 => emit_body (emit_depth depth)

/-- `emit_instr_for_node(exeb, node, break_dest, error)`. -/
def emit_instr_for_node : Emitter := fun exeb node break_dest =>
  emit_depth node.size exeb node break_dest

/-! ## Finalization and the entry point -/

/-- The source text, of which the compiler reads the size. -/
structure Source where
  size : Int
  deriving DecidableEq, Repr

/-- Modelled from the spec: `Source_GetSize`, the size of the source text. -/
def Source_GetSize (src : Source) : Int :=
  src.size

structure AST where
  root : Node
  src : Source

/-- The finalized instruction array and the source it was compiled from. -/
structure Executable where
  code : List Instr
  src : Option Source
  deriving DecidableEq, Repr

/-- Modelled from the spec: `Executable_SetSource`, which attaches a copy of
the source to the executable. -/
def Executable_SetSource (exe : Executable) (src : Source) : Executable :=
  { exe with src := some src }

/-- The arena allocator: the cells allocated from it. -/
structure BPAlloc where
  cells : List Promise
  deriving DecidableEq, Repr

/-- Modelled from the spec: `BPAlloc_Init`, which creates the arena or
returns `NULL`. -/
def BPAlloc_Init (mem : Nat) : Option BPAlloc × Nat :=
  match mem with
  | 0 => (none, 0)
  | m + 1 => (some ⟨[]⟩, m)

/-- Modelled from the spec: `ExeBuilder_New`, an empty builder over the
arena, or `NULL`. -/
def ExeBuilder_New (alloc : BPAlloc) (mem : Nat) (error : Error) : Option Env :=
  match mem with
  | 0 => none
  | m + 1 => some ⟨[], alloc.cells, m, error⟩

/-- Modelled from the spec: the operand that finalization writes for an
operand of the builder, the resolved value of the cell in place of a forward
reference; none when the cell is not resolved exactly once. -/
def finalize_operand (cells : List Promise) : Operand → Option Operand
  | Operand.promise p =>
    match cells[p]? with
    | some (Promise.resolved value) => some (Operand.int value)
    | _ => none
  | op => some op

/-- Modelled from the spec: finalization of the operands of an instruction. -/
def finalize_operands (cells : List Promise) : List Operand → Option (List Operand)
  | [] => some []
  | op :: ops =>
    match finalize_operand cells op, finalize_operands cells ops with
    | some op, some ops => some (op :: ops)
    | _, _ => none

/-- Modelled from the spec: finalization of the instructions of the builder. -/
def finalize_code (cells : List Promise) : List Instr → Option (List Instr)
  | [] => some []
  | instr :: code =>
    match finalize_operands cells instr.ops, finalize_code cells code with
    | some ops, some code => some ({ instr with ops := ops } :: code)
    | _, _ => none

/-- Modelled from the spec: `ExeBuilder_Finalize` (`finalize() -> Executable |
Fails(IncompleteReference)`): it walks every operand and substitutes the
resolved value of the cell for a forward reference, and fails when a cell is
not resolved, or when the executable cannot be allocated. -/
def ExeBuilder_Finalize (exeb : Env) : Option Executable × Env :=
  match finalize_code exeb.cells exeb.code with
  | none => (none, (fail exeb true ErrorMessage.unresolved_promise).2)
  | some code =>
    match exeb.mem with
    | 0 => (none, (fail exeb true ErrorMessage.no_memory).2)
    | m + 1 => (some ⟨code, none⟩, { exeb with mem := m })

/-- `compile(ast, alloc, error)`; `mem` is the allocation budget of the call.
The result is the executable, or none for `NULL`, and the error structure. -/
def compile (ast : AST) (alloc : Option BPAlloc) (error : Error) (mem : Nat) :
    Option Executable × Error :=
  match (match alloc with
    | some alloc => (some alloc, mem)
    | none => BPAlloc_Init mem) with
  | (none, _) => (none, error)
  | (some alloc2, mem) =>
    match ExeBuilder_New alloc2 mem error with
    | none => (none, error)
    | some exeb =>
      match emit_instr_for_node exeb ast.root none with
      | (false, exeb) => (none, exeb.error)
      | (true, exeb) =>
        match ExeBuilder_Append exeb Opcode.OPCODE_RETURN [Operand.int 0]
          (Source_GetSize ast.src) 0 with
        | (false, exeb) => (none, exeb.error)
        | (true, exeb) =>
          match ExeBuilder_Finalize exeb with
          | (none, exeb) => (none, exeb.error)
          | (some exe, exeb) => (some (Executable_SetSource exe ast.src), exeb.error)

/-! ## Notions used by the statements -/

/-- The leaves of a tree of pairs, from left to right. -/
def Node.leaves : Node → List Node
  | Node.pair _ _ left right => left.leaves ++ right.leaves
  | node => [node]

/-- The instructions that the builder `exeb'` holds after those of `exeb`. -/
def emitted (exeb exeb' : Env) : List Instr :=
  exeb'.code.drop exeb.code.length

/-- The jump family of opcodes. -/
def Opcode.is_jump : Opcode → Bool
  | Opcode.OPCODE_JUMP => true
  | Opcode.OPCODE_JUMPIFNOTANDPOP => true
  | Opcode.OPCODE_JUMPIFANDPOP => true
  | _ => false

/-- What lowering may leave in an instruction appended while the builder grew
from `lo` to `hi` instructions and the arena from `klo` to `khi` cells: a
forward reference points to a cell allocated meanwhile or to one the caller
allows, and a jump has one operand, a forward reference or an index of the new
range. -/
def InstrOK (lo hi klo khi : Nat) (allowed : Nat → Prop) (instr : Instr) : Prop :=
  (∀ p, Operand.promise p ∈ instr.ops → (klo ≤ p ∧ p < khi) ∨ allowed p) ∧
  (instr.opcode.is_jump = true →
    (∃ p, instr.ops = [Operand.promise p]) ∨
    ∃ v : Nat, instr.ops = [Operand.int v] ∧ lo ≤ v ∧ v < hi)

/-- The state `exeb'` extends `exeb`: instructions were appended and cells
allocated, the earlier instructions and cells are as they were, every new cell
is resolved exactly once, to an index between the two instruction counts, and
every new instruction is `InstrOK`. -/
def Ext (allowed : Nat → Prop) (exeb exeb' : Env) : Prop :=
  ∃ d new, exeb'.code = exeb.code ++ d ∧ exeb'.cells = exeb.cells ++ new ∧
    (∀ c ∈ new, ∃ v : Nat, c = Promise.resolved v ∧
      exeb.code.length ≤ v ∧ v ≤ exeb.code.length + d.length) ∧
    (∀ i ∈ d, InstrOK exeb.code.length (exeb.code.length + d.length)
      exeb.cells.length (exeb.cells.length + new.length) allowed i)

/-- The cells that a lowering with `break_dest` may refer to besides its own. -/
def break_target (break_dest : Option Nat) : Nat → Prop :=
  fun p => break_dest = some p

/-- An emitter is sound when each of its successful calls is an extension
that refers to no cell of the caller but `break_dest`. -/
def Emitter.Sound (rec : Emitter) : Prop :=
  ∀ s node break_dest s', rec s node break_dest = (true, s') → Ext (break_target break_dest) s s'

/-- The lowering of a block, statement by statement: from `exeb` the
statements are lowered in source order with `break_dest`; a statement of kind
`NODE_EXPR` is followed by one appended `POP 1`, a statement of any other kind
by nothing; `exeb'` is the state reached and `code` the instructions emitted. -/
inductive BlockEmits (break_dest : Option Nat) : Env → List Node → Env → List Instr → Prop where
  | done (exeb : Env) : BlockEmits break_dest exeb [] exeb []
  | expr_stmt {exeb exeb1 exeb2 exeb' : Env} {stmt : Node} {next : List Node}
    {code : List Instr} :
    stmt.kind = NodeKind.NODE_EXPR →
    emit_instr_for_node exeb stmt break_dest = (true, exeb1) →
    ExeBuilder_Append exeb1 Opcode.OPCODE_POP [Operand.int 1] stmt.offset 0 = (true, exeb2) →
    BlockEmits break_dest exeb2 next exeb' code →
    BlockEmits break_dest exeb (stmt :: next) exeb'
      (emitted exeb exeb1 ++ [⟨Opcode.OPCODE_POP, [Operand.int 1], stmt.offset, 0⟩] ++ code)
  | other_stmt {exeb exeb1 exeb' : Env} {stmt : Node} {next : List Node} {code : List Instr} :
    stmt.kind ≠ NodeKind.NODE_EXPR →
    emit_instr_for_node exeb stmt break_dest = (true, exeb1) →
    BlockEmits break_dest exeb1 next exeb' code →
    BlockEmits break_dest exeb (stmt :: next) exeb' (emitted exeb exeb1 ++ code)

/-- The statement `stmt` is `node` itself or lies in it under compound blocks
and branches of if/else statements only. -/
inductive InBlock (stmt : Node) : Node → Prop where
  | here : InBlock stmt stmt
  | comp {offset length : Int} {head : List Node} {node : Node} :
    node ∈ head → InBlock stmt node → InBlock stmt (Node.comp offset length head)
  | true_branch {offset length : Int} {condition true_branch : Node}
    {false_branch : Option Node} :
    InBlock stmt true_branch →
    InBlock stmt (Node.ifelse offset length condition true_branch false_branch)
  | false_branch {offset length : Int} {condition true_branch false_branch : Node} :
    InBlock stmt false_branch →
    InBlock stmt (Node.ifelse offset length condition true_branch (some false_branch))

/-- `StrayBreak in_loop node`: the tree `node` holds a break statement that
no body of a while or do-while loop encloses within its function body, where
`in_loop` tells whether `node` itself stands in the body of a loop of its
function body. -/
inductive StrayBreak : Bool → Node → Prop where
  | brk {offset length : Int} : StrayBreak false (Node.brk offset length)
  | oper {b : Bool} {kind : OperKind} {offset length : Int} {head : List Node} {node : Node} :
    node ∈ head → StrayBreak b node → StrayBreak b (Node.oper kind offset length head)
  | pair_left {b : Bool} {offset length : Int} {left right : Node} :
    StrayBreak b left → StrayBreak b (Node.pair offset length left right)
  | pair_right {b : Bool} {offset length : Int} {left right : Node} :
    StrayBreak b right → StrayBreak b (Node.pair offset length left right)
  | ass_lop {b : Bool} {offset length : Int} {lop rop : Node} :
    StrayBreak b lop → StrayBreak b (Node.ass offset length lop rop)
  | ass_rop {b : Bool} {offset length : Int} {lop rop : Node} :
    StrayBreak b rop → StrayBreak b (Node.ass offset length lop rop)
  | list {b : Bool} {offset length itemc : Int} {items : List Node} {node : Node} :
    node ∈ items → StrayBreak b node → StrayBreak b (Node.list offset length items itemc)
  | map_key {b : Bool} {offset length itemc : Int} {entries : List (Node × Node)}
    {key item : Node} :
    (key, item) ∈ entries → StrayBreak b key →
    StrayBreak b (Node.map offset length entries itemc)
  | map_item {b : Bool} {offset length itemc : Int} {entries : List (Node × Node)}
    {key item : Node} :
    (key, item) ∈ entries → StrayBreak b item →
    StrayBreak b (Node.map offset length entries itemc)
  | call_func {b : Bool} {offset length argc : Int} {func : Node} {argv : List Node} :
    StrayBreak b func → StrayBreak b (Node.call offset length func argv argc)
  | call_arg {b : Bool} {offset length argc : Int} {func : Node} {argv : List Node}
    {node : Node} :
    node ∈ argv → StrayBreak b node → StrayBreak b (Node.call offset length func argv argc)
  | select_set {b : Bool} {offset length : Int} {set idx : Node} :
    StrayBreak b set → StrayBreak b (Node.select offset length set idx)
  | select_idx {b : Bool} {offset length : Int} {set idx : Node} :
    StrayBreak b idx → StrayBreak b (Node.select offset length set idx)
  | if_condition {b : Bool} {offset length : Int} {condition true_branch : Node}
    {false_branch : Option Node} :
    StrayBreak b condition →
    StrayBreak b (Node.ifelse offset length condition true_branch false_branch)
  | if_true {b : Bool} {offset length : Int} {condition true_branch : Node}
    {false_branch : Option Node} :
    StrayBreak b true_branch →
    StrayBreak b (Node.ifelse offset length condition true_branch false_branch)
  | if_false {b : Bool} {offset length : Int} {condition true_branch false_branch : Node} :
    StrayBreak b false_branch →
    StrayBreak b (Node.ifelse offset length condition true_branch (some false_branch))
  | while_condition {b : Bool} {offset length : Int} {condition body : Node} :
    StrayBreak b condition → StrayBreak b (Node.while offset length condition body)
  | while_body {b : Bool} {offset length : Int} {condition body : Node} :
    StrayBreak true body → StrayBreak b (Node.while offset length condition body)
  | dowhile_body {b : Bool} {offset length : Int} {condition body : Node} :
    StrayBreak true body → StrayBreak b (Node.dowhile offset length body condition)
  | dowhile_condition {b : Bool} {offset length : Int} {condition body : Node} :
    StrayBreak b condition → StrayBreak b (Node.dowhile offset length body condition)
  | comp {b : Bool} {offset length : Int} {head : List Node} {node : Node} :
    node ∈ head → StrayBreak b node → StrayBreak b (Node.comp offset length head)
  | ret {b : Bool} {offset length : Int} {val : Node} :
    StrayBreak b val → StrayBreak b (Node.ret offset length val)
  | func_body {b : Bool} {offset length argc : Int} {name : String}
    {argv : List ArgumentNode} {body : Node} :
    StrayBreak false body → StrayBreak b (Node.func offset length name argv argc body)

/-- The two instructions that bind one declared argument. -/
def arg_code (arg : ArgumentNode) : List Instr :=
  [⟨Opcode.OPCODE_ASS, [Operand.string arg.name], arg.offset, arg.length⟩,
   ⟨Opcode.OPCODE_POP, [Operand.int 1], arg.offset, arg.length⟩]

/-! ## Example programs -/

/-- An empty builder with room for 64 allocations. -/
def example_env : Env := ⟨[], [], 64, Error.unset⟩

/-- `while (true) { if (x) break; }` -/
def example_while : Node :=
  Node.while 0 29 (Node.true 7 4)
    (Node.comp 13 16 [Node.ifelse 15 13 (Node.ident 19 1 "x") (Node.brk 22 5) none])

/-- `do { if (x) break; } while (true);` -/
def example_dowhile : Node :=
  Node.dowhile 0 34 (Node.comp 3 16 [Node.ifelse 5 13 (Node.ident 9 1 "x") (Node.brk 12 5) none])
    (Node.true 27 4)

/-- `x = 1 + 2` -/
def example_assign : Node :=
  Node.ass 0 9 (Node.ident 0 1 "x")
    (Node.oper OperKind.EXPR_ADD 4 5 [Node.int 4 1 1, Node.int 8 1 2])

/-- `{ 1; return 2; }` -/
def example_block : Node :=
  Node.comp 0 16 [Node.int 2 1 1, Node.ret 5 9 (Node.int 12 1 2)]

/-- `a, b = 5` -/
def example_arity : Node :=
  Node.ass 0 8 (Node.pair 0 4 (Node.ident 0 1 "a") (Node.ident 3 1 "b")) (Node.int 7 1 5)

/-- `while (true) { fun f() { break; } }` -/
def example_stray : Node :=
  Node.while 0 35 (Node.true 7 4)
    (Node.comp 13 22 [Node.func 15 18 "f" [] 0 (Node.comp 23 10 [Node.brk 25 5])])

/-- `if (x) 3;` -/
def example_if : Node :=
  Node.ifelse 0 9 (Node.ident 4 1 "x") (Node.int 7 1 3) none

/-- `fun f(a) a;` -/
def example_func : Node :=
  Node.func 0 11 "f" [⟨6, 1, "a"⟩] 1 (Node.ident 9 1 "a")

/-- A tree of pairs with `n + 1` leaves, the identifiers `t`, nested to the
right: the left side of `t, t, ..., t = ...`. -/
def example_targets : Nat → Node
  | 0 => Node.ident 0 1 "t"
  | n + 1 => Node.pair 0 1 (Node.ident 0 1 "t") (example_targets n)

/-- What finalization leaves of an instruction: the opcode and the source span
are kept and the operands are finalized. -/
def Finalized (cells : List Promise) (instr instr' : Instr) : Prop :=
  instr'.opcode = instr.opcode ∧ instr'.offset = instr.offset ∧
    instr'.length = instr.length ∧ finalize_operands cells instr.ops = some instr'.ops

/-- The errors that lowering reports: a user error with one of its messages,
or the internal error "No memory". -/
def Error.is_user_or_no_memory : Error → Bool
  | Error.report false ErrorMessage.tuple_outside => true
  | Error.report false (ErrorMessage.assigning_to _) => true
  | Error.report false ErrorMessage.not_assignable => true
  | Error.report false ErrorMessage.break_not_in_loop => true
  | Error.report false ErrorMessage.static_buffer_too_small => true
  | Error.report true ErrorMessage.no_memory => true
  | _ => false

/-- `if (x) 1; else { y; }` -/
def example_ifelse : Node :=
  Node.ifelse 0 21 (Node.ident 4 1 "x") (Node.int 7 1 1)
    (some (Node.comp 15 6 [Node.ident 17 1 "y"]))

/-! ## The value stack (`utils/stack.c`) -/

/-- `struct xStack`: the capacity, the number of items, the reference count
and the slots of the flexible array `body`. A `void *` slot holds the value of
the pointer, 0 for `NULL`. -/
structure xStack where
  size : Nat
  used : Nat
  refs : Int
  body : List Nat
  deriving DecidableEq, Repr

/-- The stack objects of the heap, by address; a `Stack *` is the value of the
pointer, whose low bit marks a readonly copy. A function of the stack returns
none where the C code has no defined result: a failed `assert`, an access
through a pointer to no stack object or outside `body`, an overflow of `int`. -/
abbrev Heap := Nat → Option xStack

/-- Conversion of an integer to `unsigned int`. -/
def to_unsigned (i : Int) : Nat :=
  (i % 2 ^ 32).toNat

/-- Conversion of an `unsigned int` to `int`. -/
def to_int (x : Nat) : Int :=
  if x % 2 ^ 32 < 2 ^ 31 then ((x % 2 ^ 32 : Nat) : Int) else ((x % 2 ^ 32 : Nat) : Int) - 2 ^ 32

/-- The result of an `int` operation, none when it overflows. -/
def checked_int (i : Int) : Option Int :=
  if -2 ^ 31 ≤ i ∧ i < 2 ^ 31 then some i else none

def Stack_IsReadOnlyCopy (s : Nat) : Bool :=
  (s &&& 1) != 0

/-- `Stack_New(size)`; `block` is the pointer that `malloc` returns. The slots
of the new object are not initialised: the model fills them with 0. -/
def Stack_New (heap : Heap) (size : Int) (block : Nat) : Option (Nat × Heap) :=
  let size := if size < 0 then 1024 else size
  if block = 0 then
    some (0, heap)
  else if block % 8 ≠ 0 then
    none
  else
    some (block, Function.update heap block
      (some ⟨to_unsigned size, 0, 1, List.replicate (to_unsigned size) 0⟩))

def unmark (s : Nat) : Nat :=
  s &&& (2 ^ 64 - 2)

def Stack_Top (heap : Heap) (s : Nat) (n : Int) : Option (Nat × Heap) :=
  if ¬ n ≤ 0 then
    none
  else
    match heap (unmark s) with
    | none => none
    | some obj =>
      if obj.used = 0 then
        some (0, heap)
      else
        match (checked_int (to_int obj.used + n)).bind (fun x => checked_int (x - 1)) with
        | none => none
        | some x =>
          if x < 0 then
            some (0, heap)
          else
            match obj.body[to_unsigned ((to_unsigned ((obj.used : Int) + n) : Int) - 1)]? with
            | none => none
            | some item => some (item, heap)

def Stack_Pop (heap : Heap) (s : Nat) (n : Nat) : Option (Bool × Heap) :=
  if Stack_IsReadOnlyCopy s then
    some (false, heap)
  else
    match heap s with
    | none => none
    | some obj =>
      if obj.used < n then
        some (false, heap)
      else
        some (true, Function.update heap s
          (some { obj with used := to_unsigned ((obj.used : Int) - (n : Int)) }))

def Stack_Push (heap : Heap) (s : Nat) (item : Nat) : Option (Bool × Heap) :=
  if s = 0 then
    none
  else if item = 0 then
    none
  else if Stack_IsReadOnlyCopy s then
    some (false, heap)
  else
    match heap s with
    | none => none
    | some obj =>
      if obj.used = obj.size then
        some (false, heap)
      else if obj.used < obj.body.length then
        some (true, Function.update heap s
          (some { obj with body := obj.body.set obj.used item,
                           used := to_unsigned ((obj.used : Int) + 1) }))
      else
        none

def Stack_Copy (heap : Heap) (s : Nat) (readonly : Bool) : Option (Nat × Heap) :=
  match (if Stack_IsReadOnlyCopy s then (true, unmark s) else (readonly, s)) with
  | (readonly, s) =>
    match heap s with
    | none => none
    | some obj =>
      match checked_int (obj.refs + 1) with
      | none => none
      | some refs =>
        some (if readonly then s ||| 1 else s,
          Function.update heap s (some { obj with refs := refs }))

def Stack_Size (heap : Heap) (s : Nat) : Option Nat :=
  (heap (unmark s)).map (fun obj => obj.used)

def Stack_Capacity (heap : Heap) (s : Nat) : Option Nat :=
  (heap (unmark s)).map (fun obj => obj.size)

/-- The items of the stack, from the bottom to the top. -/
def xStack.items (obj : xStack) : List Nat :=
  obj.body.take obj.used

/-- What `Stack_New` establishes and `Stack_Push`, `Stack_Pop` and
`Stack_Copy` keep: the capacity is that of an `int`, the items fit the slots,
no item is `NULL`, and the object is referenced. -/
def xStack.Valid (obj : xStack) : Prop :=
  obj.size < 2 ^ 31 ∧ obj.used ≤ obj.size ∧ obj.body.length = obj.size ∧
    (∀ item ∈ obj.items, item ≠ 0) ∧ 1 ≤ obj.refs ∧ obj.refs < 2 ^ 31

instance (obj : xStack) : Decidable obj.Valid :=
  inferInstanceAs (Decidable (obj.size < 2 ^ 31 ∧ obj.used ≤ obj.size ∧
    obj.body.length = obj.size ∧ (∀ item ∈ obj.items, item ≠ 0) ∧ 1 ≤ obj.refs ∧
    obj.refs < 2 ^ 31))

/-- Pushes of the items of a list, in order, as long as they succeed. -/
def push_all (heap : Heap) (s : Nat) : List Nat → Option (Bool × Heap)
  | [] => some (true, heap)
  | item :: items =>
    match Stack_Push heap s item with
    | some (true, heap) => push_all heap s items
    | r => r

/-- A chain of copies, each made of the handle the copy before returned. -/
def copy_chain (heap : Heap) (s : Nat) : List Bool → Option (Nat × Heap)
  | [] => some (s, heap)
  | readonly :: flags =>
    match Stack_Copy heap s readonly with
    | none => none
    | some (s, heap) => copy_chain heap s flags

/-- A stack of capacity 4 that holds the items 7 and 9. -/
def example_stack : xStack :=
  ⟨4, 2, 1, [7, 9, 0, 0]⟩

/-- A heap with `example_stack` at the address 64. -/
def example_heap : Heap :=
  fun p => if p = 64 then some example_stack else none

/-- The lowering of a chain of nodes one after the other: from `exeb` the
nodes are lowered in order with `break_dest`; `exeb'` is the state reached and
`code` the instructions emitted, those of each node in turn. -/
inductive EachEmits (break_dest : Option Nat) : Env → List Node → Env → List Instr → Prop where
  | done (exeb : Env) : EachEmits break_dest exeb [] exeb []
  | step {exeb exeb1 exeb' : Env} {node : Node} {next : List Node} {code : List Instr} :
    emit_instr_for_node exeb node break_dest = (true, exeb1) →
    EachEmits break_dest exeb1 next exeb' code →
    EachEmits break_dest exeb (node :: next) exeb' (emitted exeb exeb1 ++ code)

/-- The lowering of the elements of a list literal from the index `i` on: each
element is lowered as `PUSHINT i`, its own instructions and `INSERT`. -/
inductive ListEmits (break_dest : Option Nat) :
    Env → List Node → Int → Env → List Instr → Prop where
  | done (exeb : Env) (i : Int) : ListEmits break_dest exeb [] i exeb []
  | step {exeb exeb1 exeb2 exeb3 exeb' : Env} {item : Node} {next : List Node} {i : Int}
    {code : List Instr} :
    ExeBuilder_Append exeb Opcode.OPCODE_PUSHINT [Operand.int i] item.offset item.length
      = (true, exeb1) →
    emit_instr_for_node exeb1 item break_dest = (true, exeb2) →
    ExeBuilder_Append exeb2 Opcode.OPCODE_INSERT [] item.offset item.length = (true, exeb3) →
    ListEmits break_dest exeb3 next (i + 1) exeb' code →
    ListEmits break_dest exeb (item :: next) i exeb'
      ([⟨Opcode.OPCODE_PUSHINT, [Operand.int i], item.offset, item.length⟩] ++
        emitted exeb1 exeb2 ++ [⟨Opcode.OPCODE_INSERT, [], item.offset, item.length⟩] ++ code)

/-- The lowering of the key/value pairs of a map literal: each pair is lowered
as the instructions of the key, those of the value and `INSERT`. -/
inductive MapEmits (break_dest : Option Nat) :
    Env → List (Node × Node) → Env → List Instr → Prop where
  | done (exeb : Env) : MapEmits break_dest exeb [] exeb []
  | step {exeb exeb1 exeb2 exeb3 exeb' : Env} {key item : Node} {next : List (Node × Node)}
    {code : List Instr} :
    emit_instr_for_node exeb key break_dest = (true, exeb1) →
    emit_instr_for_node exeb1 item break_dest = (true, exeb2) →
    ExeBuilder_Append exeb2 Opcode.OPCODE_INSERT [] item.offset item.length = (true, exeb3) →
    MapEmits break_dest exeb3 next exeb' code →
    MapEmits break_dest exeb ((key, item) :: next) exeb'
      (emitted exeb exeb1 ++ emitted exeb1 exeb2 ++
        [⟨Opcode.OPCODE_INSERT, [], item.offset, item.length⟩] ++ code)

/-- `return a, b` -/
def example_return : Node :=
  Node.ret 0 11 (Node.pair 7 4 (Node.ident 7 1 "a") (Node.ident 10 1 "b"))

/-- `f(1, x)` -/
def example_call : Node :=
  Node.call 0 7 (Node.ident 0 1 "f") [Node.int 2 1 1, Node.ident 5 1 "x"] 2

/-- `[7, x]` -/
def example_list : Node :=
  Node.list 0 6 [Node.int 1 1 7, Node.ident 4 1 "x"] 2

/-- `{"k": 1}` -/
def example_map : Node :=
  Node.map 0 8 [(Node.string 1 3 "k", Node.int 6 1 1)] 1

/-- `return f(), g();` -/
def example_return_calls : Node :=
  Node.ret 0 16 (Node.pair 7 9 (Node.call 7 3 (Node.ident 7 1 "f") [] 0)
    (Node.call 12 3 (Node.ident 12 1 "g") [] 0))

/-- The store of one assignment target: `ASS name` for an identifier; the
instructions of the receiver, those of the index and `INSERT2` for an
index-selection. -/
inductive StoreEmits (break_dest : Option Nat) : Env → Node → Env → List Instr → Prop where
  | ident {exeb exeb' : Env} {offset length : Int} {name : String} :
    ExeBuilder_Append exeb Opcode.OPCODE_ASS [Operand.string name] offset length
      = (true, exeb') →
    StoreEmits break_dest exeb (Node.ident offset length name) exeb'
      [⟨Opcode.OPCODE_ASS, [Operand.string name], offset, length⟩]
  | select {exeb exeb1 exeb2 exeb' : Env} {offset length : Int} {set idx : Node} :
    emit_instr_for_node exeb set break_dest = (true, exeb1) →
    emit_instr_for_node exeb1 idx break_dest = (true, exeb2) →
    ExeBuilder_Append exeb2 Opcode.OPCODE_INSERT2 [] offset length = (true, exeb') →
    StoreEmits break_dest exeb (Node.select offset length set idx) exeb'
      (emitted exeb exeb1 ++ emitted exeb1 exeb2 ++
        [⟨Opcode.OPCODE_INSERT2, [], offset, length⟩])

/-- The stores of the targets `items`, in the order listed, with a `POP 1`
(at the offset of the assignment) after every store except the last. -/
inductive StoresEmit (break_dest : Option Nat) (node_offset : Int) :
    Env → List Node → Env → List Instr → Prop where
  | last {exeb exeb' : Env} {item : Node} {code : List Instr} :
    StoreEmits break_dest exeb item exeb' code →
    StoresEmit break_dest node_offset exeb [item] exeb' code
  | more {exeb exeb1 exeb2 exeb' : Env} {item item2 : Node} {next : List Node}
    {code code2 : List Instr} :
    StoreEmits break_dest exeb item exeb1 code →
    ExeBuilder_Append exeb1 Opcode.OPCODE_POP [Operand.int 1] node_offset 0 = (true, exeb2) →
    StoresEmit break_dest node_offset exeb2 (item2 :: next) exeb' code2 →
    StoresEmit break_dest node_offset exeb (item :: item2 :: next) exeb'
      (code ++ [⟨Opcode.OPCODE_POP, [Operand.int 1], node_offset, 0⟩] ++ code2)

/-- The lowering of the right side `rop` of an assignment to `count` targets
(the `if(count == 1)` of `EXPR_ASS`). -/
def emit_rop (rec : Emitter) (exeb : Env) (rop : Node) (break_dest : Option Nat) (count : Nat) :
    Bool × Env :=
  if count = 1 then rec exeb rop break_dest
  else
    match rop with
    | Node.call coffset clength func argv argc =>
      emit_instr_for_funccall rec exeb func argv argc coffset clength break_dest count
    | _ => fail exeb false (ErrorMessage.assigning_to count)

/-- `a[0], b = f()` -/
def example_tuple_assign : Node :=
  Node.ass 0 13 (Node.pair 0 7 (Node.select 0 4 (Node.ident 0 1 "a") (Node.int 2 1 0))
    (Node.ident 6 1 "b")) (Node.call 10 3 (Node.ident 10 1 "f") [] 0)

/-- An assignment of `f()` to 33 targets, the identifiers `t`. -/
def example_wide_assign : Node :=
  Node.ass 0 1 (example_targets 32) (Node.call 0 3 (Node.ident 0 1 "f") [] 0)

/-- `StrayPair node`: lowering `node` meets a pair expression, that is, the
tree holds a pair anywhere but on the spine of pairs of the left side of an
assignment or of the value of a return statement.  The spine is skipped by
going from an assignment or a return statement to the leaves of that side;
every other operand, argument, element, branch and body is followed. -/
inductive StrayPair : Node → Prop where
  | pair {offset length : Int} {left right : Node} : StrayPair (Node.pair offset length left right)
  | oper {kind : OperKind} {offset length : Int} {head : List Node} {node : Node} :
    node ∈ head → StrayPair node → StrayPair (Node.oper kind offset length head)
  | ass_target {offset length : Int} {lop rop leaf : Node} :
    leaf ∈ lop.leaves → StrayPair leaf → StrayPair (Node.ass offset length lop rop)
  | ass_rop {offset length : Int} {lop rop : Node} :
    StrayPair rop → StrayPair (Node.ass offset length lop rop)
  | list {offset length itemc : Int} {items : List Node} {node : Node} :
    node ∈ items → StrayPair node → StrayPair (Node.list offset length items itemc)
  | map_key {offset length itemc : Int} {entries : List (Node × Node)} {key item : Node} :
    (key, item) ∈ entries → StrayPair key → StrayPair (Node.map offset length entries itemc)
  | map_item {offset length itemc : Int} {entries : List (Node × Node)} {key item : Node} :
    (key, item) ∈ entries → StrayPair item → StrayPair (Node.map offset length entries itemc)
  | call_func {offset length argc : Int} {func : Node} {argv : List Node} :
    StrayPair func → StrayPair (Node.call offset length func argv argc)
  | call_arg {offset length argc : Int} {func : Node} {argv : List Node} {node : Node} :
    node ∈ argv → StrayPair node → StrayPair (Node.call offset length func argv argc)
  | select_set {offset length : Int} {set idx : Node} :
    StrayPair set → StrayPair (Node.select offset length set idx)
  | select_idx {offset length : Int} {set idx : Node} :
    StrayPair idx → StrayPair (Node.select offset length set idx)
  | if_condition {offset length : Int} {condition true_branch : Node}
    {false_branch : Option Node} :
    StrayPair condition →
    StrayPair (Node.ifelse offset length condition true_branch false_branch)
  | if_true {offset length : Int} {condition true_branch : Node} {false_branch : Option Node} :
    StrayPair true_branch →
    StrayPair (Node.ifelse offset length condition true_branch false_branch)
  | if_false {offset length : Int} {condition true_branch false_branch : Node} :
    StrayPair false_branch →
    StrayPair (Node.ifelse offset length condition true_branch (some false_branch))
  | while_condition {offset length : Int} {condition body : Node} :
    StrayPair condition → StrayPair (Node.while offset length condition body)
  | while_body {offset length : Int} {condition body : Node} :
    StrayPair body → StrayPair (Node.while offset length condition body)
  | dowhile_body {offset length : Int} {condition body : Node} :
    StrayPair body → StrayPair (Node.dowhile offset length body condition)
  | dowhile_condition {offset length : Int} {condition body : Node} :
    StrayPair condition → StrayPair (Node.dowhile offset length body condition)
  | comp {offset length : Int} {head : List Node} {node : Node} :
    node ∈ head → StrayPair node → StrayPair (Node.comp offset length head)
  | ret_value {offset length : Int} {val leaf : Node} :
    leaf ∈ val.leaves → StrayPair leaf → StrayPair (Node.ret offset length val)
  | func_body {offset length argc : Int} {name : String} {argv : List ArgumentNode}
    {body : Node} :
    StrayPair body → StrayPair (Node.func offset length name argv argc body)

/-- `x = f((1, 2));` in a block: a pair as the argument of a call. -/
def example_stray_pair : Node :=
  Node.comp 0 16 [Node.ass 2 11 (Node.ident 2 1 "x")
    (Node.call 6 9 (Node.ident 6 1 "f") [Node.pair 9 4 (Node.int 9 1 1) (Node.int 12 1 2)] 1)]

/-- The cell as it is resolved `delta` positions further on. -/
def Promise.shift (delta : Int) : Promise → Promise
  | Promise.resolved value => Promise.resolved (value + delta)
  | cell => cell

/-- Two runs of the emitter, the first from the instruction count `p0` with
`ks` cells in the arena and the allocation budget `m0`, the second from the
instruction count `q0` with `kt` cells and the budget `n0`; `bd` is the
loop-exit cell that the caller supplies to both. -/
structure Runs where
  p0 : Nat
  q0 : Nat
  ks : Nat
  kt : Nat
  m0 : Nat
  n0 : Nat
  bd : Option Nat

/-- The distance `q0 - p0` between the two runs. -/
def Runs.delta (r : Runs) : Int :=
  (r.q0 : Int) - r.p0

/-- The cell `c` of the first run and the cell `d` of the second are the same
cell for the two runs: cells that the runs allocated themselves, of the same
rank (`c - ks = d - kt`), or the loop-exit cell that the caller supplied. -/
def CellRelocated (r : Runs) (c d : Nat) : Prop :=
  (r.ks ≤ c ∧ d + r.ks = c + r.kt) ∨ (d = c ∧ r.bd = some c)

/-- An operand of the first run and the operand in its place in the second:
equal integers, or integers `delta` apart when the operand is an instruction
index (`index`), equal floats, equal strings, forward references to the same
cell (`CellRelocated`). -/
def OperandRelocated (r : Runs) (index : Bool) : Operand → Operand → Prop
  | Operand.int v, Operand.int w => w = if index then v + r.delta else v
  | Operand.float a, Operand.float b => b = a
  | Operand.string a, Operand.string b => b = a
  | Operand.promise c, Operand.promise d => CellRelocated r c d
  | _, _ => False

/-- An instruction of the first run and the instruction in its place in the
second: the same opcode and source span, and operands that are
`OperandRelocated`; the integer operand of a `JUMPIFANDPOP`, the literal start
index of a do-while loop, is the one that is an instruction index. -/
def InstrRelocated (r : Runs) (i j : Instr) : Prop :=
  j.opcode = i.opcode ∧ j.offset = i.offset ∧ j.length = i.length ∧
    List.Forall₂ (OperandRelocated r (decide (i.opcode = Opcode.OPCODE_JUMPIFANDPOP)))
      i.ops j.ops

/-- The `break_dest` of a recursive call in the two runs: `NULL` in both, or
the same cell. -/
def BreakRelocated (r : Runs) : Option Nat → Option Nat → Prop
  | none, none => True
  | some c, some d => CellRelocated r c d
  | _, _ => False

/-- The states `s` and `t` reached by the two runs: the runs have made the
same number of allocations, allocated the same number of cells and appended
the same number of instructions; the instructions appended are
`InstrRelocated` one by one; and the cells allocated are the same up to the
distance `delta` of their resolved values. -/
def Relocated (r : Runs) (s t : Env) : Prop :=
  s.mem + r.n0 = t.mem + r.m0 ∧
    r.ks ≤ s.cells.length ∧ t.cells.length + r.ks = s.cells.length + r.kt ∧
    r.p0 ≤ s.code.length ∧ t.code.length + r.p0 = s.code.length + r.q0 ∧
    List.Forall₂ (InstrRelocated r) (s.code.drop r.p0) (t.code.drop r.q0) ∧
    ∀ j, t.cells[r.kt + j]? = (s.cells[r.ks + j]?).map (Promise.shift r.delta)

/-- A failure with the internal error "No memory". -/
def OutOfMemory (x : Bool × Env) : Prop :=
  x.1 = false ∧ x.2.error = Error.report true ErrorMessage.no_memory

/-- Two results of the emitter in the two runs: with equal budgets the flags
agree; when both succeed the states are `Relocated`; when only one succeeds
the other ran out of memory. -/
def RelocatedResult (r : Runs) (x y : Bool × Env) : Prop :=
  (r.m0 = r.n0 → x.1 = y.1) ∧
    (x.1 = true → y.1 = true → Relocated r x.2 y.2) ∧
    (x.1 = true → y.1 = false → OutOfMemory y) ∧
    (x.1 = false → y.1 = true → OutOfMemory x)

/-- An emitter whose calls in the two runs, from `Relocated` states and with
the same `break_dest`, have `RelocatedResult`s. -/
def Emitter.Relocates (rec : Emitter) : Prop :=
  ∀ r s t node bd_s bd_t, Relocated r s t → BreakRelocated r bd_s bd_t →
    RelocatedResult r (rec s node bd_s) (rec t node bd_t)

/-- A builder that holds one instruction, with one resolved cell in its arena
and room for 40 allocations. -/
def example_env_later : Env :=
  ⟨[⟨Opcode.OPCODE_PUSHNNE, [], 0, 4⟩], [Promise.resolved 0], 40, Error.unset⟩

/-- `if (x) break;` -/
def example_if_break : Node :=
  Node.ifelse 0 14 (Node.ident 4 1 "x") (Node.brk 7 5) none

/-- An operand `a` of the lowering that took the builder from `s` to `s'` and
the operand `b` in its place in the lowering of the same node that took the
builder from `t` to `t'`, both with `break_dest`: equal integers, or integers
that differ by the distance between the two starting positions when the
operand is an instruction index (`index`); equal floats; equal strings;
forward references either both to the cell `break_dest`, or to the cells that
the two lowerings allocated at the same rank, each resolved, to instruction
indices that differ by that distance. -/
def OperandMoved (s t s' t' : Env) (break_dest : Option Nat) (index : Bool) :
    Operand → Operand → Prop
  | Operand.int v, Operand.int w =>
    w = if index then v + ((t.code.length : Int) - s.code.length) else v
  | Operand.float a, Operand.float b => b = a
  | Operand.string a, Operand.string b => b = a
  | Operand.promise c, Operand.promise d =>
    (d = c ∧ break_dest = some c) ∨
      (s.cells.length ≤ c ∧ c < s'.cells.length ∧ d + s.cells.length = c + t.cells.length ∧
        ∃ v : Nat, s'.cells[c]? = some (Promise.resolved v) ∧
          t'.cells[d]? = some (Promise.resolved (v + ((t.code.length : Int) - s.code.length))))
  | _, _ => False

/-- An instruction of the first lowering and the instruction in its place in
the second: the same opcode and source span, and operands that are
`OperandMoved`; the integer operand of a `JUMPIFANDPOP`, the literal start
index of a do-while loop, is the one that is an instruction index. -/
def InstrMoved (s t s' t' : Env) (break_dest : Option Nat) (i j : Instr) : Prop :=
  j.opcode = i.opcode ∧ j.offset = i.offset ∧ j.length = i.length ∧
    List.Forall₂
      (OperandMoved s t s' t' break_dest (decide (i.opcode = Opcode.OPCODE_JUMPIFANDPOP)))
      i.ops j.ops

/-- A builder inside a loop: no instruction yet, the pending loop-exit cell
`0` in its arena and room for 64 allocations. -/
def example_env_loop : Env := ⟨[], [Promise.pending], 64, Error.unset⟩

/-- A builder inside the same loop further on: one instruction, a second cell
in its arena and room for 40 allocations. -/
def example_env_loop_later : Env :=
  ⟨[⟨Opcode.OPCODE_PUSHNNE, [], 0, 4⟩], [Promise.pending, Promise.resolved 0], 40, Error.unset⟩

/-! ## Elementary facts -/

theorem andThen_eq_true {step : Bool × Env} {rest : Env → Bool × Env} {s' : Env} :
    andThen step rest = (true, s') ↔ ∃ s1, step = (true, s1) ∧ rest s1 = (true, s') := by
  rcases step with ⟨b, s1⟩
  cases b <;> simp [andThen]

theorem andThen_fst_false {step : Bool × Env} {rest : Env → Bool × Env}
    (h : step.1 = false) : (andThen step rest).1 = false := by
  rcases step with ⟨b, s1⟩
  cases b <;> simp_all [andThen]

theorem andThen_fst_false_of_rest {step : Bool × Env} {rest : Env → Bool × Env}
    (h : ∀ s, (rest s).1 = false) : (andThen step rest).1 = false := by
  rcases step with ⟨b, s1⟩
  cases b <;> simp_all [andThen]

theorem ExeBuilder_Append_eq_true {s s' : Env} {opcode : Opcode} {ops : List Operand}
    {offset length : Int} :
    ExeBuilder_Append s opcode ops offset length = (true, s') ↔
      s.mem = s'.mem + 1 ∧ s'.code = s.code ++ [⟨opcode, ops, offset, length⟩] ∧
      s'.cells = s.cells ∧ s'.error = s.error := by
  rcases s with ⟨code, cells, mem, error⟩
  rcases s' with ⟨code', cells', mem', error'⟩
  cases mem <;> simp [ExeBuilder_Append, fail]
  constructor
  · rintro ⟨rfl, rfl, rfl, rfl⟩; simp
  · rintro ⟨rfl, rfl, rfl, rfl⟩; simp

theorem Node.size_pos (node : Node) : 0 < node.size := by
  cases node with
  | ifelse _ _ _ _ fb => cases fb <;> simp [Node.size]
  | _ => simp [Node.size]

theorem size_chain_mem {x : Node} {xs : List Node} (h : x ∈ xs) :
    x.size ≤ Node.size.size_chain xs := by
  induction xs with
  | nil => simp at h
  | cons y ys ih =>
    simp only [Node.size.size_chain]
    rcases List.mem_cons.1 h with rfl | h
    · omega
    · have := ih h; omega

theorem size_entries_mem {k v : Node} {es : List (Node × Node)} (h : (k, v) ∈ es) :
    k.size + v.size ≤ Node.size.size_entries es := by
  induction es with
  | nil => simp at h
  | cons y ys ih =>
    rcases y with ⟨a, b⟩
    simp only [Node.size.size_entries]
    rcases List.mem_cons.1 h with h | h
    · cases h; omega
    · have := ih h; omega

theorem leaves_size_aux (k : Nat) : ∀ (root : Node), root.size ≤ k →
    ∀ x ∈ root.leaves, x.size ≤ root.size := by
  induction k with
  | zero => intro root h; have := root.size_pos; omega
  | succ k ih =>
    intro root h x hx
    cases root with
    | pair o l a b =>
      simp only [Node.leaves, List.mem_append] at hx
      simp only [Node.size] at h ⊢
      rcases hx with hx | hx
      · have := ih a (by omega) x hx; omega
      · have := ih b (by omega) x hx; omega
    | _ => simp [Node.leaves] at hx; subst hx; exact Nat.le_refl _

theorem leaves_size {root x : Node} (h : x ∈ root.leaves) : x.size ≤ root.size :=
  leaves_size_aux root.size root (Nat.le_refl _) x h

theorem leaves_length_pos (k : Nat) : ∀ (root : Node), root.size ≤ k → 0 < root.leaves.length := by
  induction k with
  | zero => intro root h; have := root.size_pos; omega
  | succ k ih =>
    intro root h
    cases root with
    | pair o l a b =>
      simp only [Node.leaves, List.length_append]
      simp only [Node.size] at h
      have := ih a (by omega); omega
    | _ => simp [Node.leaves]

theorem flatten_tuple_tree_eq_aux (k : Nat) : ∀ (root : Node), root.size ≤ k →
    ∀ (tuple : List Node) (max : Nat) (error : Error), tuple.length ≤ max →
    flatten_tuple_tree root tuple max error =
      if tuple.length + root.leaves.length ≤ max then (true, tuple ++ root.leaves, error)
      else (false, tuple ++ root.leaves.take (max - tuple.length),
        Error_Report error false ErrorMessage.static_buffer_too_small) := by
  induction k with
  | zero => intro root h; have := root.size_pos; omega
  | succ k ih =>
    intro root h tuple max error hlen
    cases root with
    | pair o l a b =>
      simp only [Node.size] at h
      have hb := leaves_length_pos b.size b (Nat.le_refl _)
      simp only [flatten_tuple_tree, Node.leaves, List.length_append]
      rw [ih a (by omega) tuple max error hlen]
      by_cases h1 : tuple.length + a.leaves.length ≤ max
      · rw [if_pos h1]
        simp only
        rw [ih b (by omega) _ max error (by simpa using h1)]
        simp only [List.length_append, List.append_assoc, Nat.add_assoc]
        by_cases h2 : tuple.length + (a.leaves.length + b.leaves.length) ≤ max
        · rw [if_pos h2, if_pos h2]
        · rw [if_neg h2, if_neg h2]
          have e1 : List.take (max - tuple.length) (a.leaves ++ b.leaves) =
              a.leaves ++ List.take (max - (tuple.length + a.leaves.length)) b.leaves := by
            rw [List.take_append_eq_append_take, List.take_of_length_le (by omega)]
            congr 2
            omega
          rw [e1]
      · rw [if_neg h1, if_neg (by omega)]
        simp only
        congr 2
        rw [List.take_append_eq_append_take]
        have : max - tuple.length - a.leaves.length = 0 := by omega
        simp [this]
    | _ =>
      simp only [flatten_tuple_tree, Node.leaves, List.length_singleton]
      by_cases h1 : max = tuple.length
      · rw [if_pos h1, if_neg (by omega)]; simp [h1]
      · rw [if_neg h1, if_pos (by omega)]

theorem flatten_tuple_tree_eq (root : Node) (tuple : List Node) (max : Nat) (error : Error)
    (h : tuple.length ≤ max) :
    flatten_tuple_tree root tuple max error =
      if tuple.length + root.leaves.length ≤ max then (true, tuple ++ root.leaves, error)
      else (false, tuple ++ root.leaves.take (max - tuple.length),
        Error_Report error false ErrorMessage.static_buffer_too_small) :=
  flatten_tuple_tree_eq_aux root.size root (Nat.le_refl _) tuple max error h

/-! ## The depth bound is immaterial -/

theorem emit_each_congr {r1 r2 : Emitter} {xs : List Node}
    (h : ∀ x ∈ xs, ∀ s bd, r1 s x bd = r2 s x bd) (bd : Option Nat) (s : Env) :
    emit_each r1 bd xs s = emit_each r2 bd xs s := by
  induction xs generalizing s with
  | nil => rfl
  | cons y ys ih =>
    simp only [emit_each]
    rw [h y (List.mem_cons_self _ _)]
    congr 1
    funext s1
    exact ih (fun x hx => h x (List.mem_cons_of_mem _ hx)) s1

theorem emit_instr_for_funccall_congr {r1 r2 : Emitter} {func : Node} {argv : List Node}
    (hf : ∀ s bd, r1 s func bd = r2 s func bd)
    (h : ∀ x ∈ argv, ∀ s bd, r1 s x bd = r2 s x bd)
    (s : Env) (argc offset length : Int) (bd : Option Nat) (returns : Int) :
    emit_instr_for_funccall r1 s func argv argc offset length bd returns =
      emit_instr_for_funccall r2 s func argv argc offset length bd returns := by
  simp only [emit_instr_for_funccall]
  rw [emit_each_congr h]
  congr 1
  funext s1
  rw [hf]

theorem emit_store_congr {r1 r2 : Emitter} {item : Node}
    (h : ∀ x, x.size < item.size → ∀ s bd, r1 s x bd = r2 s x bd) (bd : Option Nat) (s : Env) :
    emit_store r1 bd s item = emit_store r2 bd s item := by
  cases item with
  | select o l set idx =>
    simp only [emit_store]
    rw [h set (by simp only [Node.size]; omega)]
    congr 1
    funext s1
    rw [h idx (by simp only [Node.size]; omega)]
  | _ => rfl

theorem emit_stores_congr {r1 r2 : Emitter} {items : List Node} {k : Nat}
    (h : ∀ x, x.size < k → ∀ s bd, r1 s x bd = r2 s x bd)
    (hk : ∀ item ∈ items, item.size ≤ k) (bd : Option Nat) (off : Int) (count i : Nat) (s : Env) :
    emit_stores r1 bd off count items i s = emit_stores r2 bd off count items i s := by
  induction items generalizing s i with
  | nil => rfl
  | cons y ys ih =>
    simp only [emit_stores]
    have hy := hk y (List.mem_cons_self _ _)
    rw [emit_store_congr (fun x hx => h x (by omega))]
    congr 1
    funext s1
    congr 1
    funext s2
    exact ih (fun x hx => hk x (List.mem_cons_of_mem _ hx)) _ s2

theorem emit_list_items_congr {r1 r2 : Emitter} {xs : List Node}
    (h : ∀ x ∈ xs, ∀ s bd, r1 s x bd = r2 s x bd) (bd : Option Nat) (i : Int) (s : Env) :
    emit_list_items r1 bd xs i s = emit_list_items r2 bd xs i s := by
  induction xs generalizing s i with
  | nil => rfl
  | cons y ys ih =>
    simp only [emit_list_items]
    congr 1
    funext s1
    rw [h y (List.mem_cons_self _ _)]
    congr 1
    funext s2
    congr 1
    funext s3
    exact ih (fun x hx => h x (List.mem_cons_of_mem _ hx)) _ s3

theorem emit_map_items_congr {r1 r2 : Emitter} {es : List (Node × Node)}
    (h : ∀ k v, (k, v) ∈ es → ∀ s bd, r1 s k bd = r2 s k bd ∧ r1 s v bd = r2 s v bd)
    (bd : Option Nat) (s : Env) :
    emit_map_items r1 bd es s = emit_map_items r2 bd es s := by
  induction es generalizing s with
  | nil => rfl
  | cons y ys ih =>
    rcases y with ⟨k, v⟩
    simp only [emit_map_items]
    rw [(h k v (List.mem_cons_self _ _) _ _).1]
    congr 1
    funext s1
    rw [(h k v (List.mem_cons_self _ _) _ _).2]
    congr 1
    funext s2
    congr 1
    funext s3
    exact ih (fun k v hx => h k v (List.mem_cons_of_mem _ hx)) s3

theorem emit_stmts_congr {r1 r2 : Emitter} {xs : List Node}
    (h : ∀ x ∈ xs, ∀ s bd, r1 s x bd = r2 s x bd) (bd : Option Nat) (s : Env) :
    emit_stmts r1 bd xs s = emit_stmts r2 bd xs s := by
  induction xs generalizing s with
  | nil => rfl
  | cons y ys ih =>
    simp only [emit_stmts]
    rw [h y (List.mem_cons_self _ _)]
    congr 1
    funext s1
    congr 1
    funext s2
    exact ih (fun x hx => h x (List.mem_cons_of_mem _ hx)) s2

theorem emit_body_congr {r1 r2 : Emitter} (node : Node)
    (h : ∀ x, x.size < node.size → ∀ s bd, r1 s x bd = r2 s x bd) (s : Env) (bd : Option Nat) :
    emit_body r1 s node bd = emit_body r2 s node bd := by
  cases node with
  | oper kind o l head =>
    have h1 := fun bd s => @emit_each_congr r1 r2 head
      (fun x hx => h x (by have := size_chain_mem hx; simp only [Node.size]; omega)) bd s
    simp only [emit_body, h1]
  | ass o l lop rop =>
    have hrop : ∀ s bd, r1 s rop bd = r2 s rop bd :=
      h rop (by simp only [Node.size]; have := lop.size_pos; omega)
    have hst : ∀ bd off count i s, emit_stores r1 bd off count lop.leaves.reverse i s =
        emit_stores r2 bd off count lop.leaves.reverse i s := fun bd off count i s =>
      @emit_stores_congr r1 r2 lop.leaves.reverse lop.size
        (fun x hx => h x (by simp only [Node.size]; omega))
        (fun item hi => leaves_size (List.mem_reverse.1 hi)) bd off count i s
    have hcall : ∀ s co cl func argv argc bd returns, rop = Node.call co cl func argv argc →
        emit_instr_for_funccall r1 s func argv argc co cl bd returns =
          emit_instr_for_funccall r2 s func argv argc co cl bd returns := by
      intro s co cl func argv argc bd returns hr
      subst hr
      apply emit_instr_for_funccall_congr
      · exact h func (by simp only [Node.size]; omega)
      · intro x hx
        exact h x (by have := size_chain_mem hx; simp only [Node.size]; omega)
    simp only [emit_body]
    rw [flatten_tuple_tree_eq lop [] 32 s.error (by simp)]
    by_cases hle : ([] : List Node).length + lop.leaves.length ≤ 32
    · rw [if_pos hle]
      simp only [List.nil_append, hst, hrop]
      congr 1
      split
      · rfl
      · cases rop with
        | call co cl func argv argc => exact hcall _ _ _ _ _ _ _ _ rfl
        | _ => rfl
    · rw [if_neg hle]
  | list o l items itemc =>
    have h1 := fun bd i s => @emit_list_items_congr r1 r2 items
      (fun x hx => h x (by have := size_chain_mem hx; simp only [Node.size]; omega)) bd i s
    simp only [emit_body, h1]
  | map o l entries itemc =>
    have h1 := fun bd s => @emit_map_items_congr r1 r2 entries
      (fun k v hkv s bd => by
        have := size_entries_mem hkv
        exact ⟨h k (by simp only [Node.size]; omega) s bd,
          h v (by simp only [Node.size]; omega) s bd⟩) bd s
    simp only [emit_body, h1]
  | call o l func argv argc =>
    simp only [emit_body]
    apply emit_instr_for_funccall_congr
    · exact h func (by simp only [Node.size]; omega)
    · intro x hx
      exact h x (by have := size_chain_mem hx; simp only [Node.size]; omega)
  | select o l set idx =>
    have h1 := h set (by simp only [Node.size]; omega)
    have h2 := h idx (by simp only [Node.size]; omega)
    simp only [emit_body, h1, h2]
  | ifelse o l c t fb =>
    cases fb with
    | none =>
      have h1 := h c (by simp only [Node.size]; omega)
      have h2 := h t (by simp only [Node.size]; omega)
      simp only [emit_body, h1, h2]
    | some f =>
      have h1 := h c (by simp only [Node.size]; omega)
      have h2 := h t (by simp only [Node.size]; omega)
      have h3 := h f (by simp only [Node.size]; omega)
      simp only [emit_body, h1, h2, h3]
  | «while» o l c b =>
    have h1 := h c (by simp only [Node.size]; omega)
    have h2 := h b (by simp only [Node.size]; omega)
    simp only [emit_body, h1, h2]
  | dowhile o l b c =>
    have h1 := h c (by simp only [Node.size]; omega)
    have h2 := h b (by simp only [Node.size]; omega)
    simp only [emit_body, h1, h2]
  | comp o l head =>
    have h1 := fun bd s => @emit_stmts_congr r1 r2 head
      (fun x hx => h x (by have := size_chain_mem hx; simp only [Node.size]; omega)) bd s
    simp only [emit_body, h1]
  | ret o l val =>
    have h1 := fun bd s => @emit_each_congr r1 r2 val.leaves
      (fun x hx => h x (by have := leaves_size hx; simp only [Node.size]; omega)) bd s
    simp only [emit_body]
    rw [flatten_tuple_tree_eq val [] 32 s.error (by simp)]
    by_cases hle : ([] : List Node).length + val.leaves.length ≤ 32
    · rw [if_pos hle]
      simp only [List.nil_append, h1]
    · rw [if_neg hle]
  | func o l name argv argc body =>
    have h1 := h body (by simp only [Node.size]; omega)
    simp only [emit_body, h1]
  | _ => rfl

/-- Any two depths that are at least the size of the node give the same
result: the recursion never reaches the bound. -/
theorem emit_depth_irrelevant (d1 : Nat) : ∀ (d2 : Nat) (node : Node),
    node.size ≤ d1 → node.size ≤ d2 → ∀ (s : Env) (bd : Option Nat),
    emit_depth d1 s node bd = emit_depth d2 s node bd := by
  induction d1 with
  | zero => intro d2 node h; have := node.size_pos; omega
  | succ d1 ih =>
    intro d2 node h1 h2 s bd
    cases d2 with
    | zero => have := node.size_pos; omega
    | succ d2 =>
      simp only [emit_depth]
      exact emit_body_congr node (fun x hx s bd => ih d2 x (by omega) (by omega) s bd) s bd

/-- The defining equation of `emit_instr_for_node`: its body, with itself for
the recursive calls. -/
theorem emit_instr_for_node_eq (s : Env) (node : Node) (bd : Option Nat) :
    emit_instr_for_node s node bd = emit_body emit_instr_for_node s node bd := by
  have hpos := node.size_pos
  obtain ⟨d, hd⟩ : ∃ d, node.size = d + 1 := ⟨node.size - 1, by omega⟩
  show emit_depth node.size s node bd = _
  rw [hd]
  simp only [emit_depth]
  exact emit_body_congr node
    (fun x hx s bd => emit_depth_irrelevant d x.size x (by omega) (Nat.le_refl _) s bd) s bd

/-! ## What every lowering preserves -/

theorem InstrOK.widen {lo hi klo khi lo' hi' klo' khi' : Nat} {A B : Nat → Prop} {i : Instr}
    (h : InstrOK lo hi klo khi A i) (h1 : lo' ≤ lo) (h2 : hi ≤ hi') (h3 : klo' ≤ klo)
    (h4 : khi ≤ khi') (hAB : ∀ p, A p → (klo' ≤ p ∧ p < khi') ∨ B p) :
    InstrOK lo' hi' klo' khi' B i := by
  refine ⟨fun p hp => ?_, fun hj => ?_⟩
  · rcases h.1 p hp with ⟨a, b⟩ | a
    · exact Or.inl ⟨by omega, by omega⟩
    · exact hAB p a
  · rcases h.2 hj with hp | ⟨v, hv, a, b⟩
    · exact Or.inl hp
    · exact Or.inr ⟨v, hv, by omega, by omega⟩

theorem Ext.refl (A : Nat → Prop) (s : Env) : Ext A s s :=
  ⟨[], [], by simp, by simp, by simp, by simp⟩

theorem Ext.trans {A : Nat → Prop} {s s1 s2 : Env} (h1 : Ext A s s1) (h2 : Ext A s1 s2) :
    Ext A s s2 := by
  obtain ⟨d1, n1, hc1, hk1, hr1, hi1⟩ := h1
  obtain ⟨d2, n2, hc2, hk2, hr2, hi2⟩ := h2
  refine ⟨d1 ++ d2, n1 ++ n2, by simp [hc2, hc1], by simp [hk2, hk1], ?_, ?_⟩
  · intro c hc
    rcases List.mem_append.1 hc with hc | hc
    · obtain ⟨v, hv, a, b⟩ := hr1 c hc
      exact ⟨v, hv, a, by simp only [List.length_append]; omega⟩
    · obtain ⟨v, hv, a, b⟩ := hr2 c hc
      simp [hc1] at a b
      exact ⟨v, hv, by omega, by simp; omega⟩
  · intro i hi
    rcases List.mem_append.1 hi with hi | hi
    · exact (hi1 i hi).widen (Nat.le_refl _) (by simp) (Nat.le_refl _) (by simp)
        (fun p hp => Or.inr hp)
    · exact (hi2 i hi).widen (by simp [hc1]) (by simp [hc1]; omega) (by simp [hk1])
        (by simp [hk1]; omega) (fun p hp => Or.inr hp)

theorem Ext.mono {A B : Nat → Prop} {s s' : Env} (h : Ext A s s') (hAB : ∀ p, A p → B p) :
    Ext B s s' := by
  obtain ⟨d, n, hc, hk, hr, hi⟩ := h
  exact ⟨d, n, hc, hk, hr, fun i hi' => (hi i hi').widen (Nat.le_refl _) (Nat.le_refl _)
    (Nat.le_refl _) (Nat.le_refl _) (fun p hp => Or.inr (hAB p hp))⟩

theorem Ext.code_length_le {A : Nat → Prop} {s s' : Env} (h : Ext A s s') :
    s.code.length ≤ s'.code.length := by
  obtain ⟨d, n, hc, -⟩ := h
  simp [hc]

theorem Ext.cells_length_le {A : Nat → Prop} {s s' : Env} (h : Ext A s s') :
    s.cells.length ≤ s'.cells.length := by
  obtain ⟨d, n, -, hk, -⟩ := h
  simp [hk]

/-- An appended instruction whose operands hold no forward reference other
than allowed ones, and that is no jump unless its one operand is a forward
reference. -/
theorem Ext.of_append {A : Nat → Prop} {s s' : Env} {opcode : Opcode} {ops : List Operand}
    {offset length : Int}
    (h : ExeBuilder_Append s opcode ops offset length = (true, s'))
    (hp : ∀ p, Operand.promise p ∈ ops → A p)
    (hj : opcode.is_jump = true → ∃ p, ops = [Operand.promise p]) : Ext A s s' := by
  obtain ⟨-, hc, hk, -⟩ := ExeBuilder_Append_eq_true.1 h
  refine ⟨[⟨opcode, ops, offset, length⟩], [], hc, by simp [hk], by simp, ?_⟩
  intro i hi
  simp only [List.mem_singleton] at hi
  subst hi
  exact ⟨fun p hp' => Or.inr (hp p hp'), fun hj' => Or.inl (hj hj')⟩

/-- The closing jump of a do-while loop: a jump to the literal index at which
the extension began. -/
theorem Ext.append_back_jump {A : Nat → Prop} {s s1 s' : Env} {opcode : Opcode}
    {offset length : Int} (h1 : Ext A s s1)
    (h : ExeBuilder_Append s1 opcode [Operand.int (ExeBuilder_InstrCount s)] offset length
      = (true, s')) : Ext A s s' := by
  obtain ⟨d, n, hc1, hk1, hr, hi⟩ := h1
  obtain ⟨-, hc, hk, -⟩ := ExeBuilder_Append_eq_true.1 h
  refine ⟨d ++ [⟨opcode, [Operand.int (ExeBuilder_InstrCount s)], offset, length⟩], n,
    by simp [hc, hc1], by simp [hk, hk1], ?_, ?_⟩
  · intro c hc'
    obtain ⟨v, hv, a, b⟩ := hr c hc'
    exact ⟨v, hv, a, by simp; omega⟩
  · intro i hi'
    rcases List.mem_append.1 hi' with hi' | hi'
    · exact (hi i hi').widen (Nat.le_refl _) (by simp) (Nat.le_refl _) (Nat.le_refl _)
        (fun p hp => Or.inr hp)
    · simp only [List.mem_singleton] at hi'
      subst hi'
      refine ⟨fun p hp => by simp at hp, fun _ => Or.inr ⟨s.code.length, ?_, Nat.le_refl _, ?_⟩⟩
      · simp [ExeBuilder_InstrCount]
      · simp

theorem Promise_New_eq_some {s a : Env} {p : Nat} (h : Promise_New s = (some p, a)) :
    p = s.cells.length ∧ a.code = s.code ∧ a.cells = s.cells ++ [Promise.pending] ∧
      s.mem = a.mem + 1 ∧ a.error = s.error := by
  rcases s with ⟨code, cells, mem, error⟩
  cases mem with
  | zero => simp [Promise_New] at h
  | succ m =>
    simp only [Promise_New, Prod.mk.injEq, Option.some.injEq] at h
    obtain ⟨rfl, rfl⟩ := h
    simp

theorem modify_append_length {α : Type} (f : α → α) (l : List α) (a : α) (r : List α) :
    (l ++ a :: r).modify f l.length = l ++ f a :: r := by
  induction l with
  | nil => simp
  | cons x xs ih => simp [ih]

/-- A cell allocated at the start and resolved at the end, to the instruction
count reached: the extension in between may refer to it. -/
theorem Ext.close_late {A : Nat → Prop} {s a b : Env} {p : Nat}
    (hn : Promise_New s = (some p, a)) (h : Ext (fun q => q = p ∨ A q) a b) :
    Ext A s (Promise_Resolve b p (ExeBuilder_InstrCount b)) := by
  obtain ⟨rfl, hac, hak, -, -⟩ := Promise_New_eq_some hn
  obtain ⟨d, n, hc, hk, hr, hi⟩ := h
  refine ⟨d, Promise.resolved b.code.length :: n, by simp [Promise_Resolve, hc, hac], ?_, ?_, ?_⟩
  · simp only [Promise_Resolve, hk, hak, List.append_assoc, List.singleton_append]
    rw [modify_append_length]
    simp [Promise.write, ExeBuilder_InstrCount]
  · intro c hc'
    rcases List.mem_cons.1 hc' with rfl | hc'
    · exact ⟨b.code.length, rfl, by simp [hc, hac], by simp [hc, hac]⟩
    · obtain ⟨v, hv, x, y⟩ := hr c hc'
      exact ⟨v, hv, by simpa [hac] using x, by simpa [hac] using y⟩
  · intro i hi'
    refine (hi i hi').widen (by simp [hac]) (by simp [hac]) (by simp [hak]) (by simp [hak]; omega)
      (fun q hq => ?_)
    rcases hq with rfl | hq
    · exact Or.inl ⟨Nat.le_refl _, by simp⟩
    · exact Or.inr hq

/-- Two cells allocated one after the other, the first resolved in between and
the second at the end, each to the instruction count reached. -/
theorem Ext.close_two {A : Nat → Prop} {s a1 a2 b c : Env} {p q : Nat}
    (hp : Promise_New s = (some p, a1)) (hq : Promise_New a1 = (some q, a2))
    (h1 : Ext (fun x => x = p ∨ x = q ∨ A x) a2 b)
    (h2 : Ext (fun x => x = p ∨ x = q ∨ A x) (Promise_Resolve b p (ExeBuilder_InstrCount b)) c) :
    Ext A s (Promise_Resolve c q (ExeBuilder_InstrCount c)) := by
  obtain ⟨rfl, hac1, hak1, -, -⟩ := Promise_New_eq_some hp
  obtain ⟨rfl, hac2, hak2, -, -⟩ := Promise_New_eq_some hq
  obtain ⟨d1, n1, hc1, hk1, hr1, hi1⟩ := h1
  obtain ⟨d2, n2, hc2, hk2, hr2, hi2⟩ := h2
  have hbk : (Promise_Resolve b s.cells.length (ExeBuilder_InstrCount b)).cells =
      s.cells ++ Promise.resolved b.code.length :: Promise.pending :: n1 := by
    have e : s.cells ++ [Promise.pending] ++ [Promise.pending] ++ n1 =
        s.cells ++ Promise.pending :: (Promise.pending :: n1) := by simp
    simp only [Promise_Resolve, hk1, hak2, hak1]
    rw [e, modify_append_length]
    simp [Promise.write, ExeBuilder_InstrCount]
  have hbc : (Promise_Resolve b s.cells.length (ExeBuilder_InstrCount b)).code = b.code := rfl
  rw [hbk] at hk2 hi2
  rw [hbc] at hc2 hr2 hi2
  have hq' : a1.cells.length = (s.cells ++ [Promise.resolved (b.code.length : Int)]).length := by
    simp [hak1]
  refine ⟨d1 ++ d2, Promise.resolved b.code.length :: Promise.resolved c.code.length :: (n1 ++ n2),
    by simp [Promise_Resolve, hc2, hc1, hac2, hac1], ?_, ?_, ?_⟩
  · simp only [Promise_Resolve, hk2]
    have e : s.cells ++ Promise.resolved (b.code.length : Int) :: Promise.pending :: n1 ++ n2 =
        (s.cells ++ [Promise.resolved (b.code.length : Int)]) ++ Promise.pending :: (n1 ++ n2) := by
      simp
    rw [e, hq', modify_append_length]
    simp [Promise.write, ExeBuilder_InstrCount]
  · intro x hx
    simp only [List.mem_cons, List.mem_append] at hx
    rcases hx with rfl | rfl | hx | hx
    · exact ⟨b.code.length, rfl, by simp [hc1, hac2, hac1], by simp [hc1, hac2, hac1]⟩
    · exact ⟨c.code.length, rfl, by simp [hc2, hc1, hac2, hac1],
        by simp [hc2, hc1, hac2, hac1]⟩
    · obtain ⟨v, hv, x, y⟩ := hr1 _ hx
      simp only [hac2, hac1] at x y
      exact ⟨v, hv, x, by simp only [List.length_append]; omega⟩
    · obtain ⟨v, hv, x, y⟩ := hr2 _ hx
      simp only [hc1, hac2, hac1, List.length_append] at x y
      exact ⟨v, hv, by omega, by simp only [List.length_append]; omega⟩
  · intro i hi
    have key : ∀ x, (x = s.cells.length ∨ x = a1.cells.length ∨ A x) →
        (s.cells.length ≤ x ∧ x < s.cells.length +
          (Promise.resolved (b.code.length : Int) :: Promise.resolved (c.code.length : Int) ::
            (n1 ++ n2)).length) ∨ A x := by
      intro x hx
      rcases hx with rfl | rfl | hx
      · exact Or.inl ⟨Nat.le_refl _, by simp⟩
      · exact Or.inl ⟨by simp [hak1], by simp [hak1]⟩
      · exact Or.inr hx
    rcases List.mem_append.1 hi with hi | hi
    · exact (hi1 i hi).widen (by simp [hac2, hac1]) (by simp [hac2, hac1])
        (by simp [hak2, hak1]) (by simp [hak2, hak1]; omega) key
    · exact (hi2 i hi).widen (by simp [hc1, hac2, hac1]) (by simp [hc1, hac2, hac1]; omega)
        (by simp) (by simp; omega) key

/-! ## Every lowering is an extension -/

theorem exprkind_to_opcode_not_jump (kind : OperKind) :
    (exprkind_to_opcode kind).is_jump = false := by
  cases kind <;> rfl

theorem pop_if_expr_ext {A : Nat → Prop} {s s' : Env} {stmt : Node} {offset : Int}
    (h : pop_if_expr s stmt offset = (true, s')) : Ext A s s' := by
  unfold pop_if_expr at h
  split at h
  · exact Ext.of_append h (by simp) (by simp [Opcode.is_jump])
  · cases h; exact Ext.refl _ _

theorem emit_each_ext {rec : Emitter} (hrec : rec.Sound) {bd : Option Nat} {xs : List Node} :
    ∀ {s s' : Env}, emit_each rec bd xs s = (true, s') → Ext (break_target bd) s s' := by
  induction xs with
  | nil => intro s s' h; cases h; exact Ext.refl _ _
  | cons y ys ih =>
    intro s s' h
    simp only [emit_each, andThen_eq_true] at h
    obtain ⟨s1, h1, h2⟩ := h
    exact (hrec _ _ _ _ h1).trans (ih h2)

theorem emit_instr_for_funccall_ext {rec : Emitter} (hrec : rec.Sound) {bd : Option Nat}
    {s s' : Env} {func : Node} {argv : List Node} {argc offset length returns : Int}
    (h : emit_instr_for_funccall rec s func argv argc offset length bd returns = (true, s')) :
    Ext (break_target bd) s s' := by
  simp only [emit_instr_for_funccall, andThen_eq_true] at h
  obtain ⟨s1, h1, s2, h2, h3⟩ := h
  exact (emit_each_ext hrec h1).trans ((hrec _ _ _ _ h2).trans
    (Ext.of_append h3 (by simp) (by simp [Opcode.is_jump])))

theorem emit_store_ext {rec : Emitter} (hrec : rec.Sound) {bd : Option Nat} {s s' : Env}
    {item : Node} (h : emit_store rec bd s item = (true, s')) : Ext (break_target bd) s s' := by
  cases item with
  | ident o l name =>
    exact Ext.of_append h (by simp) (by simp [Opcode.is_jump])
  | select o l set idx =>
    simp only [emit_store, andThen_eq_true] at h
    obtain ⟨s1, h1, s2, h2, h3⟩ := h
    exact (hrec _ _ _ _ h1).trans ((hrec _ _ _ _ h2).trans
      (Ext.of_append h3 (by simp) (by simp [Opcode.is_jump])))
  | _ => simp [emit_store, fail] at h

theorem emit_stores_ext {rec : Emitter} (hrec : rec.Sound) {bd : Option Nat} {off : Int}
    {count : Nat} {items : List Node} :
    ∀ {i : Nat} {s s' : Env}, emit_stores rec bd off count items i s = (true, s') →
      Ext (break_target bd) s s' := by
  induction items with
  | nil => intro i s s' h; cases h; exact Ext.refl _ _
  | cons y ys ih =>
    intro i s s' h
    simp only [emit_stores, andThen_eq_true] at h
    obtain ⟨s1, h1, s2, h2, h3⟩ := h
    refine (emit_store_ext hrec h1).trans (Ext.trans ?_ (ih h3))
    split at h2
    · exact Ext.of_append h2 (by simp) (by simp [Opcode.is_jump])
    · cases h2; exact Ext.refl _ _

theorem emit_list_items_ext {rec : Emitter} (hrec : rec.Sound) {bd : Option Nat}
    {items : List Node} :
    ∀ {i : Int} {s s' : Env}, emit_list_items rec bd items i s = (true, s') →
      Ext (break_target bd) s s' := by
  induction items with
  | nil => intro i s s' h; cases h; exact Ext.refl _ _
  | cons y ys ih =>
    intro i s s' h
    simp only [emit_list_items, andThen_eq_true] at h
    obtain ⟨s1, h1, s2, h2, s3, h3, h4⟩ := h
    exact (Ext.of_append h1 (by simp) (by simp [Opcode.is_jump])).trans
      ((hrec _ _ _ _ h2).trans ((Ext.of_append h3 (by simp) (by simp [Opcode.is_jump])).trans
        (ih h4)))

theorem emit_map_items_ext {rec : Emitter} (hrec : rec.Sound) {bd : Option Nat}
    {entries : List (Node × Node)} :
    ∀ {s s' : Env}, emit_map_items rec bd entries s = (true, s') →
      Ext (break_target bd) s s' := by
  induction entries with
  | nil => intro s s' h; cases h; exact Ext.refl _ _
  | cons y ys ih =>
    intro s s' h
    rcases y with ⟨key, item⟩
    simp only [emit_map_items, andThen_eq_true] at h
    obtain ⟨s1, h1, s2, h2, s3, h3, h4⟩ := h
    exact (hrec _ _ _ _ h1).trans ((hrec _ _ _ _ h2).trans
      ((Ext.of_append h3 (by simp) (by simp [Opcode.is_jump])).trans (ih h4)))

theorem emit_stmts_ext {rec : Emitter} (hrec : rec.Sound) {bd : Option Nat} {xs : List Node} :
    ∀ {s s' : Env}, emit_stmts rec bd xs s = (true, s') → Ext (break_target bd) s s' := by
  induction xs with
  | nil => intro s s' h; cases h; exact Ext.refl _ _
  | cons y ys ih =>
    intro s s' h
    simp only [emit_stmts, andThen_eq_true] at h
    obtain ⟨s1, h1, s2, h2, h3⟩ := h
    exact (hrec _ _ _ _ h1).trans ((pop_if_expr_ext h2).trans (ih h3))

theorem emit_args_ext {A : Nat → Prop} {argv : List ArgumentNode} :
    ∀ {s s' : Env}, emit_args argv s = (true, s') → Ext A s s' := by
  induction argv with
  | nil => intro s s' h; cases h; exact Ext.refl _ _
  | cons y ys ih =>
    intro s s' h
    simp only [emit_args, andThen_eq_true] at h
    obtain ⟨s1, h1, s2, h2, h3⟩ := h
    exact (Ext.of_append h1 (by simp) (by simp [Opcode.is_jump])).trans
      ((Ext.of_append h2 (by simp) (by simp [Opcode.is_jump])).trans (ih h3))

/-- The body of the emitter is sound when its recursive calls are. -/
theorem emit_body_sound {rec : Emitter} (hrec : rec.Sound) : (emit_body rec).Sound := by
  intro s node bd s' h
  cases node with
  | pair o l a b => simp [emit_body, fail] at h
  | oper kind o l head =>
    simp only [emit_body, andThen_eq_true] at h
    obtain ⟨s1, h1, h2⟩ := h
    exact (emit_each_ext hrec h1).trans
      (Ext.of_append h2 (by simp) (by simp [exprkind_to_opcode_not_jump]))
  | ass o l lop rop =>
    simp only [emit_body] at h
    split at h
    · simp at h
    · simp only [andThen_eq_true] at h
      obtain ⟨s1, h1, h2⟩ := h
      refine Ext.trans ?_ (emit_stores_ext hrec h2)
      split at h1
      · exact hrec _ _ _ _ h1
      · split at h1
        · exact emit_instr_for_funccall_ext hrec h1
        · simp [fail] at h1
  | int o l val => exact Ext.of_append h (by simp) (by simp [Opcode.is_jump])
  | float o l val => exact Ext.of_append h (by simp) (by simp [Opcode.is_jump])
  | string o l val => exact Ext.of_append h (by simp) (by simp [Opcode.is_jump])
  | ident o l val => exact Ext.of_append h (by simp) (by simp [Opcode.is_jump])
  | list o l items itemc =>
    simp only [emit_body, andThen_eq_true] at h
    obtain ⟨s1, h1, h2⟩ := h
    exact (Ext.of_append h1 (by simp) (by simp [Opcode.is_jump])).trans
      (emit_list_items_ext hrec h2)
  | map o l entries itemc =>
    simp only [emit_body, andThen_eq_true] at h
    obtain ⟨s1, h1, h2⟩ := h
    exact (Ext.of_append h1 (by simp) (by simp [Opcode.is_jump])).trans
      (emit_map_items_ext hrec h2)
  | call o l func argv argc => exact emit_instr_for_funccall_ext hrec h
  | select o l set idx =>
    simp only [emit_body, andThen_eq_true] at h
    obtain ⟨s1, h1, s2, h2, h3⟩ := h
    exact (hrec _ _ _ _ h1).trans ((hrec _ _ _ _ h2).trans
      (Ext.of_append h3 (by simp) (by simp [Opcode.is_jump])))
  | none o l => exact Ext.of_append h (by simp) (by simp [Opcode.is_jump])
  | true o l => exact Ext.of_append h (by simp) (by simp [Opcode.is_jump])
  | false o l => exact Ext.of_append h (by simp) (by simp [Opcode.is_jump])
  | brk o l =>
    cases bd with
    | none => simp [emit_body, fail] at h
    | some p =>
      exact Ext.of_append h (by simp [break_target]) (fun _ => ⟨p, rfl⟩)
  | ifelse o l c t fb =>
    cases fb with
    | none =>
      simp only [emit_body, andThen_eq_true] at h
      obtain ⟨s1, h1, h2⟩ := h
      refine (hrec _ _ _ _ h1).trans ?_
      split at h2
      · rename_i p a hn
        simp only [andThen_eq_true, Prod.mk.injEq, true_and] at h2
        obtain ⟨s2, h2, s3, h3, s4, h4, rfl⟩ := h2
        refine Ext.close_late hn ?_
        exact (Ext.of_append h2 (by simp) (fun _ => ⟨p, rfl⟩)).trans
          (((hrec _ _ _ _ h3).mono (fun q hq => Or.inr hq)).trans (pop_if_expr_ext h4))
      · simp [fail] at h2
    | some f =>
      simp only [emit_body, andThen_eq_true] at h
      obtain ⟨s1, h1, h2⟩ := h
      refine (hrec _ _ _ _ h1).trans ?_
      cases hn1 : Promise_New s1 with
      | mk r1 a1 =>
      cases hn2 : Promise_New a1 with
      | mk r2 a2 =>
      rw [hn1] at h2
      simp only [hn2] at h2
      cases r1 with
      | none => simp [fail] at h2
      | some p =>
      cases r2 with
      | none => simp [fail] at h2
      | some q =>
      simp only [andThen_eq_true, Prod.mk.injEq, true_and] at h2
      obtain ⟨s2, h2, s3, h3, s4, h4, s5, h5, s7, h7, s8, h8, rfl⟩ := h2
      refine Ext.close_two (b := s5) hn1 hn2 ?_ ?_
      · exact (Ext.of_append h2 (by simp) (fun _ => ⟨p, rfl⟩)).trans
          (((hrec _ _ _ _ h3).mono (fun x hx => Or.inr (Or.inr hx))).trans
            ((pop_if_expr_ext h4).trans (Ext.of_append h5 (by simp) (fun _ => ⟨q, rfl⟩))))
      · exact ((hrec _ _ _ _ h7).mono (fun x hx => Or.inr (Or.inr hx))).trans
          (pop_if_expr_ext h8)
  | «while» o l c b =>
    simp only [emit_body] at h
    cases hn1 : Promise_New s with
    | mk r1 a1 =>
    cases hn2 : Promise_New a1 with
    | mk r2 a2 =>
    rw [hn1] at h
    simp only [hn2] at h
    cases r1 with
    | none => simp [fail] at h
    | some p =>
    cases r2 with
    | none => simp [fail] at h
    | some q =>
    simp only [andThen_eq_true, Prod.mk.injEq, true_and] at h
    obtain ⟨s1, h1, s2, h2, s3, h3, s4, h4, s5, h5, rfl⟩ := h
    refine Ext.close_two hn1 hn2 (Ext.refl _ _) ?_
    exact ((hrec _ _ _ _ h1).mono (fun x hx => Or.inr (Or.inr hx))).trans
      ((Ext.of_append h2 (by simp) (fun _ => ⟨q, rfl⟩)).trans
        (((hrec _ _ _ _ h3).mono (fun x hx => by
            simp only [break_target, Option.some.injEq] at hx
            exact Or.inr (Or.inl hx.symm))).trans
          ((pop_if_expr_ext h4).trans (Ext.of_append h5 (by simp) (fun _ => ⟨p, rfl⟩)))))
  | dowhile o l b c =>
    simp only [emit_body] at h
    split at h
    · rename_i p a hn
      simp only [andThen_eq_true, Prod.mk.injEq, true_and] at h
      obtain ⟨s1, h1, s2, h2, s3, h3, s4, h4, rfl⟩ := h
      refine Ext.close_late hn ?_
      refine Ext.append_back_jump ?_ h4
      exact ((hrec _ _ _ _ h1).mono (fun x hx => by
          simp only [break_target, Option.some.injEq] at hx
          exact Or.inl hx.symm)).trans
        ((pop_if_expr_ext h2).trans ((hrec _ _ _ _ h3).mono (fun x hx => Or.inr hx)))
    · simp [fail] at h
  | comp o l head => exact emit_stmts_ext hrec h
  | ret o l val =>
    simp only [emit_body] at h
    split at h
    · simp at h
    · simp only [andThen_eq_true] at h
      obtain ⟨s1, h1, h2⟩ := h
      exact (emit_each_ext hrec h1).trans (Ext.of_append h2 (by simp) (by simp [Opcode.is_jump]))
  | func o l name argv argc body =>
    simp only [emit_body] at h
    cases hn1 : Promise_New s with
    | mk r1 a1 =>
    cases hn2 : Promise_New a1 with
    | mk r2 a2 =>
    rw [hn1] at h
    simp only [hn2] at h
    cases r1 with
    | none => simp [fail] at h
    | some p =>
    cases r2 with
    | none => simp [fail] at h
    | some q =>
    simp only [andThen_eq_true, Prod.mk.injEq, true_and] at h
    obtain ⟨s1, h1, s2, h2, s3, h3, s4, h4, s5, h5, s6, h6, s7, h7, s8, h8, rfl⟩ := h
    refine Ext.close_two (b := s4) hn1 hn2 ?_ ?_
    · exact (Ext.of_append h1 (by simp) (by simp [Opcode.is_jump])).trans
        ((Ext.of_append h2 (by simp) (by simp [Opcode.is_jump])).trans
          ((Ext.of_append h3 (by simp) (by simp [Opcode.is_jump])).trans
            (Ext.of_append h4 (by simp) (fun _ => ⟨q, rfl⟩))))
    · exact emit_args_ext h5 |>.trans
        (((hrec _ _ _ _ h6).mono (fun x hx => by simp [break_target] at hx)).trans
          ((pop_if_expr_ext h7).trans (Ext.of_append h8 (by simp) (by simp [Opcode.is_jump]))))

theorem emit_depth_sound (depth : Nat) : (emit_depth depth).Sound := by
  induction depth with
  | zero => intro s node bd s' h; simp [emit_depth] at h
  | succ d ih => exact emit_body_sound ih

/-- Every successful lowering is an extension of the builder and the arena. -/
theorem emit_instr_for_node_sound : emit_instr_for_node.Sound :=
  fun s node bd s' h => emit_depth_sound node.size s node bd s' h

/-! ## Finalization -/

theorem finalize_operands_of_resolved {cells : List Promise} {ops : List Operand}
    (h : ∀ p, Operand.promise p ∈ ops → ∃ v, cells[p]? = some (Promise.resolved v)) :
    ∃ ops', finalize_operands cells ops = some ops' := by
  induction ops with
  | nil => exact ⟨[], rfl⟩
  | cons op ops ih =>
    obtain ⟨ops', h'⟩ := ih (fun p hp => h p (List.mem_cons_of_mem _ hp))
    have : ∃ op', finalize_operand cells op = some op' := by
      cases op with
      | promise p =>
        obtain ⟨v, hv⟩ := h p (List.mem_cons_self _ _)
        exact ⟨Operand.int v, by simp [finalize_operand, hv]⟩
      | _ => exact ⟨_, rfl⟩
    obtain ⟨op', h''⟩ := this
    exact ⟨op' :: ops', by simp [finalize_operands, h', h'']⟩

theorem finalize_code_of_resolved {cells : List Promise} {code : List Instr}
    (h : ∀ i ∈ code, ∀ p, Operand.promise p ∈ i.ops → ∃ v, cells[p]? = some (Promise.resolved v)) :
    ∃ code', finalize_code cells code = some code' := by
  induction code with
  | nil => exact ⟨[], rfl⟩
  | cons i code ih =>
    obtain ⟨code', h'⟩ := ih (fun j hj => h j (List.mem_cons_of_mem _ hj))
    obtain ⟨ops', h''⟩ := finalize_operands_of_resolved (h i (List.mem_cons_self _ _))
    exact ⟨{ i with ops := ops' } :: code', by simp [finalize_code, h', h'']⟩

theorem finalize_code_length {cells : List Promise} {code : List Instr} :
    ∀ {code' : List Instr}, finalize_code cells code = some code' →
      code'.length = code.length := by
  induction code with
  | nil => intro code' h; cases h; rfl
  | cons i code ih =>
    intro code' h
    simp only [finalize_code] at h
    split at h
    · rename_i ops c2 h1 h2
      cases h
      simp [ih h2]
    · cases h

theorem finalize_code_mem {cells : List Promise} {code : List Instr} :
    ∀ {code' : List Instr}, finalize_code cells code = some code' →
      ∀ i' ∈ code', ∃ i ∈ code, i'.opcode = i.opcode ∧
        finalize_operands cells i.ops = some i'.ops := by
  induction code with
  | nil => intro code' h; cases h; simp
  | cons i code ih =>
    intro code' h i' hi'
    simp only [finalize_code] at h
    split at h
    · rename_i ops c2 h1 h2
      cases h
      rcases List.mem_cons.1 hi' with rfl | hi'
      · exact ⟨i, List.mem_cons_self _ _, rfl, h1⟩
      · obtain ⟨j, hj, e1, e2⟩ := ih h2 i' hi'
        exact ⟨j, List.mem_cons_of_mem _ hj, e1, e2⟩
    · cases h

theorem finalize_operands_singleton {cells : List Promise} {op : Operand} {ops' : List Operand}
    (h : finalize_operands cells [op] = some ops') :
    ∃ op', finalize_operand cells op = some op' ∧ ops' = [op'] := by
  simp only [finalize_operands] at h
  split at h
  · rename_i a b h1 h2
    cases h2
    cases h
    exact ⟨a, h1, rfl⟩
  · cases h

/-- A new cell of an extension, read by its index. -/
theorem Ext.cell_resolved {A : Nat → Prop} {s s' : Env} (h : Ext A s s') {p : Nat}
    (h1 : s.cells.length ≤ p) (h2 : p < s'.cells.length) :
    ∃ v : Nat, s'.cells[p]? = some (Promise.resolved v) ∧ s.code.length ≤ v ∧
      v ≤ s'.code.length := by
  obtain ⟨d, n, hc, hk, hr, -⟩ := h
  have hlen : p - s.cells.length < n.length := by
    rw [hk, List.length_append] at h2; omega
  obtain ⟨v, hv, a, b⟩ := hr n[p - s.cells.length] (List.getElem_mem _)
  refine ⟨v, ?_, a, by rw [hc, List.length_append]; exact b⟩
  rw [hk, List.getElem?_append_right h1, List.getElem?_eq_getElem hlen, hv]

/-- An old cell of an extension is as it was. -/
theorem Ext.cell_old {A : Nat → Prop} {s s' : Env} (h : Ext A s s') {p : Nat}
    (h1 : p < s.cells.length) : s'.cells[p]? = s.cells[p]? := by
  obtain ⟨d, n, -, hk, -⟩ := h
  rw [hk, List.getElem?_append_left h1]

theorem Ext.code_eq {A : Nat → Prop} {s s' : Env} (h : Ext A s s') :
    s'.code = s.code ++ emitted s s' := by
  obtain ⟨d, n, hc, -⟩ := h
  simp [emitted, hc]

/-! ## C1, C2: forward references and jump targets -/

/-- C2: when `emit_instr_for_node` on the root with `break_dest = NULL`
succeeds, the arena holds its earlier cells unchanged followed by the cells
allocated during the call, each of which is resolved exactly once; every
forward-reference operand of an emitted instruction refers to one of these
resolved cells; and finalization of a builder that was empty before the call
meets no unresolved or doubly resolved cell. -/
theorem emit_resolves_every_promise_once (s s' : Env) (root : Node)
    (h : emit_instr_for_node s root none = (true, s')) :
    ∃ d new, s'.code = s.code ++ d ∧ s'.cells = s.cells ++ new ∧
      (∀ c ∈ new, ∃ v, c = Promise.resolved v) ∧
      (∀ i ∈ d, ∀ p, Operand.promise p ∈ i.ops →
        s.cells.length ≤ p ∧ ∃ v, s'.cells[p]? = some (Promise.resolved v)) ∧
      (s.code = [] → ∃ code, finalize_code s'.cells s'.code = some code) := by
  have hext := emit_instr_for_node_sound s root none s' h
  obtain ⟨d, n, hc, hk, hr, hi⟩ := hext
  have hops : ∀ i ∈ d, ∀ p, Operand.promise p ∈ i.ops →
      s.cells.length ≤ p ∧ ∃ v, s'.cells[p]? = some (Promise.resolved v) := by
    intro i hi' p hp
    rcases (hi i hi').1 p hp with ⟨a, b⟩ | a
    · obtain ⟨v, hv, -⟩ := (emit_instr_for_node_sound s root none s' h).cell_resolved a
        (by rw [hk, List.length_append]; exact b)
      exact ⟨a, v, hv⟩
    · simp [break_target] at a
  refine ⟨d, n, hc, hk, fun c hc' => ?_, hops, fun hs => ?_⟩
  · obtain ⟨v, hv, -⟩ := hr c hc'
    exact ⟨v, hv⟩
  · apply finalize_code_of_resolved
    intro i hi' p hp
    rw [hc, hs, List.nil_append] at hi'
    exact (hops i hi' p hp).2

/-- C1: when `compile` succeeds, every `JUMP`, `JUMPIFNOTANDPOP` and
`JUMPIFANDPOP` instruction of the executable has one operand, an integer `i`
with `0 <= i < n`, where `n` is the number of instructions of the executable. -/
theorem compile_jump_targets_in_range (ast : AST) (alloc : Option BPAlloc) (error : Error)
    (mem : Nat) (exe : Executable) (error' : Error)
    (h : compile ast alloc error mem = (some exe, error')) :
    ∀ instr ∈ exe.code, instr.opcode.is_jump = true →
      ∃ i : Int, instr.ops = [Operand.int i] ∧ 0 ≤ i ∧ i < exe.code.length := by
  have key : ∀ (s0 : Env), s0.code = [] →
      ∀ s1, emit_instr_for_node s0 ast.root none = (true, s1) →
      ∀ s2, ExeBuilder_Append s1 Opcode.OPCODE_RETURN [Operand.int 0]
        (Source_GetSize ast.src) 0 = (true, s2) →
      ∀ code, finalize_code s2.cells s2.code = some code →
      ∀ instr ∈ code, instr.opcode.is_jump = true →
        ∃ i : Int, instr.ops = [Operand.int i] ∧ 0 ≤ i ∧ i < code.length := by
    intro s0 hs0 s1 h1 s2 h2 code h3 instr hin hj
    have hext := emit_instr_for_node_sound s0 ast.root none s1 h1
    obtain ⟨-, hc2, hk2, -⟩ := ExeBuilder_Append_eq_true.1 h2
    have hlen := finalize_code_length h3
    obtain ⟨j, hjm, e1, e2⟩ := finalize_code_mem h3 instr hin
    rw [e1] at hj
    rw [hc2] at hjm hlen
    rcases List.mem_append.1 hjm with hjm | hjm
    · obtain ⟨d, n, hc, hk, hr, hi⟩ := hext
      rw [hc, hs0, List.nil_append] at hjm
      rcases (hi j hjm).2 hj with ⟨p, hp⟩ | ⟨v, hv, a, b⟩
      · rw [hp] at e2
        obtain ⟨op', ho, hops⟩ := finalize_operands_singleton e2
        rcases (hi j hjm).1 p (by simp [hp]) with ⟨a, b⟩ | a
        · obtain ⟨v, hv, x, y⟩ := (emit_instr_for_node_sound s0 ast.root none s1 h1).cell_resolved
            a (by rw [hk, List.length_append]; exact b)
          rw [hk2] at ho
          simp only [finalize_operand, hv] at ho
          cases ho
          refine ⟨v, hops, by omega, ?_⟩
          rw [hlen, List.length_append]
          simp only [List.length_singleton]
          omega
        · simp [break_target] at a
      · rw [hv] at e2
        simp only [finalize_operands, finalize_operand] at e2
        refine ⟨v, (Option.some.inj e2).symm, by omega, ?_⟩
        rw [hlen, List.length_append, hc, hs0]
        simp only [List.nil_append, List.length_singleton]
        simp only [hs0, List.length_nil, Nat.zero_add] at b
        omega
    · simp only [List.mem_singleton] at hjm
      subst hjm
      simp [Opcode.is_jump] at hj
  unfold compile at h
  split at h
  · cases h
  · rename_i alloc2 mem2 halloc
    split at h
    · cases h
    · rename_i exeb hnew
      have hcode : exeb.code = [] := by
        unfold ExeBuilder_New at hnew
        split at hnew
        · cases hnew
        · cases hnew; rfl
      split at h
      · cases h
      · rename_i s1 h1
        split at h
        · cases h
        · rename_i s2 h2
          unfold ExeBuilder_Finalize at h
          split at h
          · simp at h
          · rename_i exe' s3 hfin
            split at hfin
            · cases hfin
            · rename_i code hcodefin
              split at hfin
              · cases hfin
              · cases hfin
                cases h
                exact key exeb hcode s1 h1 s2 h2 code hcodefin

/-! ## C3–C6: assignments, operators, blocks -/

theorem emitted_of_code_eq {s s' : Env} {d : List Instr} (h : s'.code = s.code ++ d) :
    emitted s s' = d := by
  simp [emitted, h]

theorem emit_code_eq {s s' : Env} {node : Node} {bd : Option Nat}
    (h : emit_instr_for_node s node bd = (true, s')) : s'.code = s.code ++ emitted s s' :=
  (emit_instr_for_node_sound s node bd s' h).code_eq

theorem append_code_eq {s s' : Env} {opcode : Opcode} {ops : List Operand} {offset length : Int}
    (h : ExeBuilder_Append s opcode ops offset length = (true, s')) :
    s'.code = s.code ++ [⟨opcode, ops, offset, length⟩] :=
  (ExeBuilder_Append_eq_true.1 h).2.1

theorem append_cells_eq {s s' : Env} {opcode : Opcode} {ops : List Operand} {offset length : Int}
    (h : ExeBuilder_Append s opcode ops offset length = (true, s')) : s'.cells = s.cells :=
  (ExeBuilder_Append_eq_true.1 h).2.2.1

/-- C3: when the assignment of `e` to the single identifier `x` lowers
successfully, `e` was lowered first and the instructions emitted are exactly
those of `e` followed by one `ASS "x"`; in particular `x = 1 + 2` lowers, when
memory allows, to exactly `PUSHINT 1`, `PUSHINT 2`, `ADD`, `ASS "x"`. -/
theorem assign_single_identifier (s : Env) (bd : Option Nat) (offset length xo xl : Int) :
    (∀ (x : String) (e : Node) (s' : Env),
      emit_instr_for_node s (Node.ass offset length (Node.ident xo xl x) e) bd = (true, s') →
      ∃ s1, emit_instr_for_node s e bd = (true, s1) ∧
        emitted s s' = emitted s s1 ++ [⟨Opcode.OPCODE_ASS, [Operand.string x], xo, xl⟩] ∧
        s'.code = s.code ++ emitted s s') ∧
    (∀ (ao al o1 l1 o2 l2 : Int), 4 ≤ s.mem →
      ∃ s', emit_instr_for_node s (Node.ass offset length (Node.ident xo xl "x")
          (Node.oper OperKind.EXPR_ADD ao al [Node.int o1 l1 1, Node.int o2 l2 2])) bd
          = (true, s') ∧
        emitted s s' = [⟨Opcode.OPCODE_PUSHINT, [Operand.int 1], o1, l1⟩,
          ⟨Opcode.OPCODE_PUSHINT, [Operand.int 2], o2, l2⟩,
          ⟨Opcode.OPCODE_ADD, [], ao, al⟩,
          ⟨Opcode.OPCODE_ASS, [Operand.string "x"], xo, xl⟩] ∧
        s'.code = s.code ++ emitted s s') := by
  constructor
  · intro x e s' h
    have hpre := emit_code_eq h
    rw [emit_instr_for_node_eq] at h
    have hflat : flatten_tuple_tree (Node.ident xo xl x) [] 32 s.error =
        (true, [Node.ident xo xl x], s.error) := rfl
    simp only [emit_body, hflat, List.length_singleton, if_true, List.reverse_cons,
      List.reverse_nil, List.nil_append, emit_stores, emit_store, andThen_eq_true] at h
    obtain ⟨s1, h1, s2, h2, s3, h3, h4⟩ := h
    simp only [Nat.zero_add, Nat.lt_irrefl, if_false, Prod.mk.injEq, true_and] at h3 h4
    subst h3 h4
    refine ⟨s1, h1, ?_, hpre⟩
    apply emitted_of_code_eq
    rw [append_code_eq h2, emit_code_eq h1, List.append_assoc]
  · intro ao al o1 l1 o2 l2 hm
    rcases s with ⟨code, cells, mem, error⟩
    obtain ⟨m, rfl⟩ : ∃ m, mem = m + 4 := ⟨mem - 4, by simp at hm; omega⟩
    refine ⟨⟨code ++ [⟨Opcode.OPCODE_PUSHINT, [Operand.int 1], o1, l1⟩,
          ⟨Opcode.OPCODE_PUSHINT, [Operand.int 2], o2, l2⟩,
          ⟨Opcode.OPCODE_ADD, [], ao, al⟩,
          ⟨Opcode.OPCODE_ASS, [Operand.string "x"], xo, xl⟩], cells, m, error⟩, ?_, ?_, ?_⟩
    · simp [emit_instr_for_node, Node.size, Node.size.size_chain, emit_depth, emit_body,
        flatten_tuple_tree, emit_each, andThen, ExeBuilder_Append, exprkind_to_opcode,
        emit_stores, emit_store]
    · simp [emitted]
    · simp [emitted]

/-- C4: when a binary operator expression `x op y` lowers successfully, `x`
was lowered first, then `y`, and the instructions emitted are exactly those of
`x`, those of `y` and the one operand-less instruction
`exprkind_to_opcode(op)`; for a unary operator they are those of the operand
followed by the operator instruction.  The opcode is the one of the same name
(`ADD` for `EXPR_ADD`, ..., `OR` for `EXPR_OR`). -/
theorem operator_operands_in_order (s : Env) (bd : Option Nat) (kind : OperKind)
    (offset length : Int) :
    (∀ (x y : Node) (s' : Env),
      emit_instr_for_node s (Node.oper kind offset length [x, y]) bd = (true, s') →
      ∃ s1 s2, emit_instr_for_node s x bd = (true, s1) ∧
        emit_instr_for_node s1 y bd = (true, s2) ∧
        emitted s s' = emitted s s1 ++ emitted s1 s2 ++
          [⟨exprkind_to_opcode kind, [], offset, length⟩] ∧
        s'.code = s.code ++ emitted s s') ∧
    (∀ (x : Node) (s' : Env),
      emit_instr_for_node s (Node.oper kind offset length [x]) bd = (true, s') →
      ∃ s1, emit_instr_for_node s x bd = (true, s1) ∧
        emitted s s' = emitted s s1 ++ [⟨exprkind_to_opcode kind, [], offset, length⟩] ∧
        s'.code = s.code ++ emitted s s') ∧
    (exprkind_to_opcode OperKind.EXPR_NOT = Opcode.OPCODE_NOT ∧
      exprkind_to_opcode OperKind.EXPR_POS = Opcode.OPCODE_POS ∧
      exprkind_to_opcode OperKind.EXPR_NEG = Opcode.OPCODE_NEG ∧
      exprkind_to_opcode OperKind.EXPR_ADD = Opcode.OPCODE_ADD ∧
      exprkind_to_opcode OperKind.EXPR_SUB = Opcode.OPCODE_SUB ∧
      exprkind_to_opcode OperKind.EXPR_MUL = Opcode.OPCODE_MUL ∧
      exprkind_to_opcode OperKind.EXPR_DIV = Opcode.OPCODE_DIV ∧
      exprkind_to_opcode OperKind.EXPR_EQL = Opcode.OPCODE_EQL ∧
      exprkind_to_opcode OperKind.EXPR_NQL = Opcode.OPCODE_NQL ∧
      exprkind_to_opcode OperKind.EXPR_LSS = Opcode.OPCODE_LSS ∧
      exprkind_to_opcode OperKind.EXPR_LEQ = Opcode.OPCODE_LEQ ∧
      exprkind_to_opcode OperKind.EXPR_GRT = Opcode.OPCODE_GRT ∧
      exprkind_to_opcode OperKind.EXPR_GEQ = Opcode.OPCODE_GEQ ∧
      exprkind_to_opcode OperKind.EXPR_AND = Opcode.OPCODE_AND ∧
      exprkind_to_opcode OperKind.EXPR_OR = Opcode.OPCODE_OR) := by
  refine ⟨?_, ?_, by simp [exprkind_to_opcode]⟩
  · intro x y s' h
    have hpre := emit_code_eq h
    rw [emit_instr_for_node_eq] at h
    simp only [emit_body, emit_each, andThen_eq_true] at h
    obtain ⟨s3, ⟨s1, h1, s2, h2, h3⟩, h4⟩ := h
    simp only [Prod.mk.injEq, true_and] at h3
    subst h3
    refine ⟨s1, s2, h1, h2, ?_, hpre⟩
    apply emitted_of_code_eq
    rw [append_code_eq h4, emit_code_eq h2, emit_code_eq h1]
    simp [emitted]
  · intro x s' h
    have hpre := emit_code_eq h
    rw [emit_instr_for_node_eq] at h
    simp only [emit_body, emit_each, andThen_eq_true] at h
    obtain ⟨s3, ⟨s1, h1, h3⟩, h4⟩ := h
    simp only [Prod.mk.injEq, true_and] at h3
    subst h3
    refine ⟨s1, h1, ?_, hpre⟩
    apply emitted_of_code_eq
    rw [append_code_eq h4, emit_code_eq h1]
    simp [emitted]

theorem pop_if_expr_eq {s s' : Env} {stmt : Node} {offset : Int}
    (h : pop_if_expr s stmt offset = (true, s')) :
    s'.code = s.code ++ (if stmt.kind = NodeKind.NODE_EXPR then
        [⟨Opcode.OPCODE_POP, [Operand.int 1], offset, 0⟩] else []) ∧ s'.cells = s.cells := by
  unfold pop_if_expr at h
  split at h
  · rename_i hk
    rw [if_pos hk]
    exact ⟨append_code_eq h, append_cells_eq h⟩
  · rename_i hk
    rw [if_neg hk]
    cases h
    simp

theorem emit_stmts_block {bd : Option Nat} {stmts : List Node} :
    ∀ {s s' : Env}, emit_stmts emit_instr_for_node bd stmts s = (true, s') →
      BlockEmits bd s stmts s' (emitted s s') := by
  induction stmts with
  | nil =>
    intro s s' h
    cases h
    have : emitted s s = [] := by simp [emitted]
    rw [this]
    exact BlockEmits.done s
  | cons st rest ih =>
    intro s s' h
    simp only [emit_stmts, andThen_eq_true] at h
    obtain ⟨s1, h1, s2, h2, h3⟩ := h
    have hc3 := (emit_stmts_ext emit_instr_for_node_sound h3).code_eq
    by_cases hk : st.kind = NodeKind.NODE_EXPR
    · simp only [pop_if_expr, if_pos hk] at h2
      have e : emitted s s' = emitted s s1 ++
          [⟨Opcode.OPCODE_POP, [Operand.int 1], st.offset, 0⟩] ++ emitted s2 s' := by
        apply emitted_of_code_eq
        rw [hc3, append_code_eq h2, emit_code_eq h1]
        simp
      rw [e]
      exact BlockEmits.expr_stmt hk h1 h2 (ih h3)
    · simp only [pop_if_expr, if_neg hk, Prod.mk.injEq, true_and] at h2
      subst h2
      have e : emitted s s' = emitted s s1 ++ emitted s1 s' := by
        apply emitted_of_code_eq
        rw [hc3, emit_code_eq h1]
        simp
      rw [e]
      exact BlockEmits.other_stmt hk h1 (ih h3)

/-- C5: when a compound block lowers successfully, its statements were
lowered in source order, each followed by a `POP 1` exactly when its kind is
`NODE_EXPR`, and the builder holds its earlier instructions followed by these
and nothing else (`BlockEmits`). -/
theorem compound_block_pops_expressions (s s' : Env) (bd : Option Nat) (offset length : Int)
    (head : List Node)
    (h : emit_instr_for_node s (Node.comp offset length head) bd = (true, s')) :
    BlockEmits bd s head s' (emitted s s') ∧ s'.code = s.code ++ emitted s s' := by
  refine ⟨?_, emit_code_eq h⟩
  rw [emit_instr_for_node_eq] at h
  exact emit_stmts_block h

/-- C6 with the bound it needs: an assignment whose left side flattens to `N`
targets, `2 <= N <= 32`, and whose right side is not a call fails with the
error that reports the arity `N`, and leaves the builder as it was: no
instruction is appended.  With more than 32 targets the assignment fails
before the right side is looked at, with the capacity error of the tuple
buffer, and again appends nothing. -/
theorem tuple_assignment_needs_call (s : Env) (bd : Option Nat) (offset length : Int)
    (lop rop : Node) (hcount : 2 ≤ lop.leaves.length)
    (hrop : ∀ co cl func argv argc, rop ≠ Node.call co cl func argv argc) :
    (lop.leaves.length ≤ 32 →
      emit_instr_for_node s (Node.ass offset length lop rop) bd =
        (false, { s with
          error := Error.report false (ErrorMessage.assigning_to lop.leaves.length) })) ∧
    (32 < lop.leaves.length →
      emit_instr_for_node s (Node.ass offset length lop rop) bd =
        (false, { s with
          error := Error.report false ErrorMessage.static_buffer_too_small })) ∧
    (emit_instr_for_node s (Node.ass offset length lop rop) bd).2.code = s.code := by
  have hflat := flatten_tuple_tree_eq lop [] 32 s.error (by simp)
  simp only [List.length_nil, Nat.zero_add, List.nil_append, Nat.sub_zero] at hflat
  have hlow : lop.leaves.length ≤ 32 →
      emit_instr_for_node s (Node.ass offset length lop rop) bd =
        (false, { s with
          error := Error.report false (ErrorMessage.assigning_to lop.leaves.length) }) := by
    intro hle
    rw [emit_instr_for_node_eq]
    simp only [emit_body, hflat, if_pos hle]
    have h1 : lop.leaves.length ≠ 1 := by omega
    rw [if_neg h1]
    cases rop with
    | call co cl func argv argc => exact absurd rfl (hrop co cl func argv argc)
    | _ => rfl
  have hhigh : 32 < lop.leaves.length →
      emit_instr_for_node s (Node.ass offset length lop rop) bd =
        (false, { s with
          error := Error.report false ErrorMessage.static_buffer_too_small }) := by
    intro hgt
    rw [emit_instr_for_node_eq]
    simp only [emit_body, hflat, if_neg (Nat.not_le.2 hgt)]
    rfl
  refine ⟨hlow, hhigh, ?_⟩
  by_cases hle : lop.leaves.length ≤ 32
  · rw [hlow hle]
  · rw [hhigh (Nat.not_le.1 hle)]

/-! ## C7: a break outside of every loop -/

theorem emit_each_fails {rec : Emitter} {bd : Option Nat} {x : Node} {xs : List Node}
    (hx : x ∈ xs) (h : ∀ s, (rec s x bd).1 = false) (s : Env) :
    (emit_each rec bd xs s).1 = false := by
  induction xs generalizing s with
  | nil => simp at hx
  | cons y ys ih =>
    simp only [emit_each]
    rcases List.mem_cons.1 hx with rfl | hx
    · exact andThen_fst_false (h s)
    · exact andThen_fst_false_of_rest (fun s1 => ih hx s1)

theorem emit_stmts_fails {rec : Emitter} {bd : Option Nat} {x : Node} {xs : List Node}
    (hx : x ∈ xs) (h : ∀ s, (rec s x bd).1 = false) (s : Env) :
    (emit_stmts rec bd xs s).1 = false := by
  induction xs generalizing s with
  | nil => simp at hx
  | cons y ys ih =>
    simp only [emit_stmts]
    rcases List.mem_cons.1 hx with rfl | hx
    · exact andThen_fst_false (h s)
    · exact andThen_fst_false_of_rest (fun s1 => andThen_fst_false_of_rest (fun s2 => ih hx s2))

theorem emit_list_items_fails {rec : Emitter} {bd : Option Nat} {x : Node} {xs : List Node}
    (hx : x ∈ xs) (h : ∀ s, (rec s x bd).1 = false) (i : Int) (s : Env) :
    (emit_list_items rec bd xs i s).1 = false := by
  induction xs generalizing s i with
  | nil => simp at hx
  | cons y ys ih =>
    simp only [emit_list_items]
    rcases List.mem_cons.1 hx with rfl | hx
    · exact andThen_fst_false_of_rest (fun s1 => andThen_fst_false (h s1))
    · exact andThen_fst_false_of_rest (fun s1 => andThen_fst_false_of_rest
        (fun s2 => andThen_fst_false_of_rest (fun s3 => ih hx _ s3)))

theorem emit_map_items_fails {rec : Emitter} {bd : Option Nat} {k v : Node}
    {es : List (Node × Node)} (hx : (k, v) ∈ es)
    (h : (∀ s, (rec s k bd).1 = false) ∨ (∀ s, (rec s v bd).1 = false)) (s : Env) :
    (emit_map_items rec bd es s).1 = false := by
  induction es generalizing s with
  | nil => simp at hx
  | cons y ys ih =>
    rcases y with ⟨a, b⟩
    simp only [emit_map_items]
    rcases List.mem_cons.1 hx with hx | hx
    · cases hx
      rcases h with h | h
      · exact andThen_fst_false (h s)
      · exact andThen_fst_false_of_rest (fun s1 => andThen_fst_false (h s1))
    · exact andThen_fst_false_of_rest (fun s1 => andThen_fst_false_of_rest
        (fun s2 => andThen_fst_false_of_rest (fun s3 => ih hx s3)))

theorem emit_stores_fails {rec : Emitter} {bd : Option Nat} {off : Int} {count : Nat}
    {x : Node} {xs : List Node}
    (hx : x ∈ xs) (h : ∀ s, (emit_store rec bd s x).1 = false) (i : Nat) (s : Env) :
    (emit_stores rec bd off count xs i s).1 = false := by
  induction xs generalizing s i with
  | nil => simp at hx
  | cons y ys ih =>
    simp only [emit_stores]
    rcases List.mem_cons.1 hx with rfl | hx
    · exact andThen_fst_false (h s)
    · exact andThen_fst_false_of_rest (fun s1 => andThen_fst_false_of_rest (fun s2 => ih hx _ s2))

theorem stray_leaf_aux (k : Nat) : ∀ (node : Node) (b : Bool), node.size ≤ k →
    StrayBreak b node → ∃ leaf ∈ node.leaves, StrayBreak b leaf := by
  induction k with
  | zero => intro node b h; have := node.size_pos; omega
  | succ k ih =>
    intro node b hk h
    cases node with
    | pair o l x y =>
      simp only [Node.size] at hk
      simp only [Node.leaves, List.mem_append]
      cases h with
      | pair_left h' =>
        obtain ⟨leaf, hl, hs⟩ := ih x b (by omega) h'
        exact ⟨leaf, Or.inl hl, hs⟩
      | pair_right h' =>
        obtain ⟨leaf, hl, hs⟩ := ih y b (by omega) h'
        exact ⟨leaf, Or.inr hl, hs⟩
    | _ => exact ⟨_, by simp [Node.leaves], h⟩

theorem stray_leaf {node : Node} {b : Bool} (h : StrayBreak b node) :
    ∃ leaf ∈ node.leaves, StrayBreak b leaf :=
  stray_leaf_aux node.size node b (Nat.le_refl _) h

theorem emit_instr_for_funccall_fails {rec : Emitter} {bd : Option Nat} {func : Node}
    {argv : List Node}
    (h : (∀ s, (rec s func bd).1 = false) ∨ ∃ x ∈ argv, ∀ s, (rec s x bd).1 = false)
    (s : Env) (argc offset length returns : Int) :
    (emit_instr_for_funccall rec s func argv argc offset length bd returns).1 = false := by
  simp only [emit_instr_for_funccall]
  rcases h with h | ⟨x, hx, h⟩
  · exact andThen_fst_false_of_rest (fun s1 => andThen_fst_false (h s1))
  · exact andThen_fst_false (emit_each_fails hx h s)

/-- The body of the emitter fails on a tree with a stray break when its
recursive calls do. -/
theorem emit_body_rejects_stray {rec : Emitter}
    (hrec : ∀ s node bd b, StrayBreak b node → (b = false → bd = none) →
      (rec s node bd).1 = false)
    (s : Env) (node : Node) (bd : Option Nat) (b : Bool) (h : StrayBreak b node)
    (hb : b = false → bd = none) : (emit_body rec s node bd).1 = false := by
  cases h with
  | brk =>
    rw [hb rfl]
    rfl
  | oper hx h' =>
    simp only [emit_body]
    exact andThen_fst_false (emit_each_fails hx (fun s1 => hrec s1 _ bd b h' hb) s)
  | pair_left h' => rfl
  | pair_right h' => rfl
  | @ass_lop _ o l lop rop h' =>
    simp only [emit_body]
    rw [flatten_tuple_tree_eq lop [] 32 s.error (by simp)]
    by_cases hle : ([] : List Node).length + lop.leaves.length ≤ 32
    · rw [if_pos hle]
      simp only [List.nil_append]
      obtain ⟨leaf, hl, hs⟩ := stray_leaf h'
      refine andThen_fst_false_of_rest (fun s1 =>
        emit_stores_fails (List.mem_reverse.2 hl) (fun s2 => ?_) 0 s1)
      cases hs with
      | select_set h'' =>
        simp only [emit_store]
        exact andThen_fst_false (hrec s2 _ bd b h'' hb)
      | select_idx h'' =>
        simp only [emit_store]
        exact andThen_fst_false_of_rest (fun s3 => andThen_fst_false (hrec s3 _ bd b h'' hb))
      | _ => rfl
    · rw [if_neg hle]
  | @ass_rop _ o l lop rop h' =>
    simp only [emit_body]
    rw [flatten_tuple_tree_eq lop [] 32 s.error (by simp)]
    by_cases hle : ([] : List Node).length + lop.leaves.length ≤ 32
    · rw [if_pos hle]
      simp only [List.nil_append]
      apply andThen_fst_false
      split
      · exact hrec s _ bd b h' hb
      · cases h' with
        | call_func h'' =>
          exact emit_instr_for_funccall_fails (Or.inl (fun s1 => hrec s1 _ bd b h'' hb)) _ _ _ _ _
        | call_arg hx h'' =>
          exact emit_instr_for_funccall_fails
            (Or.inr ⟨_, hx, fun s1 => hrec s1 _ bd b h'' hb⟩) _ _ _ _ _
        | _ => rfl
    · rw [if_neg hle]
  | list hx h' =>
    simp only [emit_body]
    exact andThen_fst_false_of_rest (fun s1 =>
      emit_list_items_fails hx (fun s2 => hrec s2 _ bd b h' hb) 0 s1)
  | map_key hx h' =>
    simp only [emit_body]
    exact andThen_fst_false_of_rest (fun s1 =>
      emit_map_items_fails hx (Or.inl (fun s2 => hrec s2 _ bd b h' hb)) s1)
  | map_item hx h' =>
    simp only [emit_body]
    exact andThen_fst_false_of_rest (fun s1 =>
      emit_map_items_fails hx (Or.inr (fun s2 => hrec s2 _ bd b h' hb)) s1)
  | call_func h' =>
    exact emit_instr_for_funccall_fails (Or.inl (fun s1 => hrec s1 _ bd b h' hb)) _ _ _ _ _
  | call_arg hx h' =>
    exact emit_instr_for_funccall_fails (Or.inr ⟨_, hx, fun s1 => hrec s1 _ bd b h' hb⟩) _ _ _ _ _
  | select_set h' =>
    simp only [emit_body]
    exact andThen_fst_false (hrec s _ bd b h' hb)
  | select_idx h' =>
    simp only [emit_body]
    exact andThen_fst_false_of_rest (fun s1 => andThen_fst_false (hrec s1 _ bd b h' hb))
  | @if_condition _ o l c t fb h' =>
    cases fb <;> simp only [emit_body] <;> exact andThen_fst_false (hrec s _ bd b h' hb)
  | @if_true _ o l c t fb h' =>
    cases fb with
    | none =>
      simp only [emit_body]
      refine andThen_fst_false_of_rest (fun s1 => ?_)
      split
      · exact andThen_fst_false_of_rest (fun s2 => andThen_fst_false (hrec s2 _ bd b h' hb))
      · rfl
    | some f =>
      simp only [emit_body]
      refine andThen_fst_false_of_rest (fun s1 => ?_)
      split
      · exact andThen_fst_false_of_rest (fun s2 => andThen_fst_false (hrec s2 _ bd b h' hb))
      · rfl
  | if_false h' =>
    simp only [emit_body]
    refine andThen_fst_false_of_rest (fun s1 => ?_)
    split
    · exact andThen_fst_false_of_rest (fun s2 => andThen_fst_false_of_rest (fun s3 =>
        andThen_fst_false_of_rest (fun s4 => andThen_fst_false_of_rest (fun s5 =>
          andThen_fst_false (hrec _ _ bd b h' hb)))))
    · rfl
  | while_condition h' =>
    simp only [emit_body]
    split
    · exact andThen_fst_false (hrec _ _ bd b h' hb)
    · rfl
  | while_body h' =>
    simp only [emit_body]
    split
    · exact andThen_fst_false_of_rest (fun s1 => andThen_fst_false_of_rest (fun s2 =>
        andThen_fst_false (hrec s2 _ _ true h' (by simp))))
    · rfl
  | dowhile_body h' =>
    simp only [emit_body]
    split
    · exact andThen_fst_false (hrec _ _ _ true h' (by simp))
    · rfl
  | dowhile_condition h' =>
    simp only [emit_body]
    split
    · exact andThen_fst_false_of_rest (fun s1 => andThen_fst_false_of_rest (fun s2 =>
        andThen_fst_false (hrec s2 _ bd b h' hb)))
    · rfl
  | comp hx h' =>
    simp only [emit_body]
    exact emit_stmts_fails hx (fun s1 => hrec s1 _ bd b h' hb) s
  | @ret _ o l val h' =>
    simp only [emit_body]
    rw [flatten_tuple_tree_eq val [] 32 s.error (by simp)]
    by_cases hle : ([] : List Node).length + val.leaves.length ≤ 32
    · rw [if_pos hle]
      simp only [List.nil_append]
      obtain ⟨leaf, hl, hs⟩ := stray_leaf h'
      exact andThen_fst_false (emit_each_fails hl (fun s1 => hrec s1 _ bd b hs hb) s)
    · rw [if_neg hle]
  | func_body h' =>
    simp only [emit_body]
    split
    · exact andThen_fst_false_of_rest (fun s1 => andThen_fst_false_of_rest (fun s2 =>
        andThen_fst_false_of_rest (fun s3 => andThen_fst_false_of_rest (fun s4 =>
          andThen_fst_false_of_rest (fun s5 =>
            andThen_fst_false (hrec s5 _ none false h' (fun _ => rfl)))))))
    · rfl

theorem emit_depth_rejects_stray (depth : Nat) : ∀ (s : Env) (node : Node) (bd : Option Nat)
    (b : Bool), StrayBreak b node → (b = false → bd = none) →
    (emit_depth depth s node bd).1 = false := by
  induction depth with
  | zero => intro s node bd b _ _; rfl
  | succ d ih => exact emit_body_rejects_stray ih

/-- C7: `compile` fails on every AST that holds a break statement which no
body of a while or do-while loop encloses within its function body
(`StrayBreak`, in which a function body starts outside of every loop):
lowering `NODE_BREAK` with `break_dest = NULL` reports the
break-outside-of-loop error and appends nothing. -/
theorem break_outside_loop_fails :
    (∀ (s : Env) (offset length : Int),
      emit_instr_for_node s (Node.brk offset length) none =
        (false, { s with error := Error.report false ErrorMessage.break_not_in_loop })) ∧
    (∀ (s : Env) (node : Node), StrayBreak false node →
      (emit_instr_for_node s node none).1 = false) ∧
    (∀ (ast : AST) (alloc : Option BPAlloc) (error : Error) (mem : Nat),
      StrayBreak false ast.root → (compile ast alloc error mem).1 = none) := by
  refine ⟨fun s o l => rfl, fun s node h =>
    emit_depth_rejects_stray node.size s node none false h (fun _ => rfl), ?_⟩
  intro ast alloc error mem h
  have hf := emit_depth_rejects_stray ast.root.size
  unfold compile
  split
  · rfl
  · split
    · rfl
    · rename_i exeb _
      have := hf exeb ast.root none false h (fun _ => rfl)
      split
      · rfl
      · rename_i s1 h1
        change (emit_depth ast.root.size exeb ast.root none) = _ at h1
        rw [h1] at this
        cases this

/-! ## The steps of the control-flow lowerings -/

theorem emit_if_inv {s s' : Env} {bd : Option Nat} {offset length : Int} {c t : Node}
    (h : emit_instr_for_node s (Node.ifelse offset length c t none) bd = (true, s')) :
    ∃ s1 a s2 s3 s4, emit_instr_for_node s c bd = (true, s1) ∧
      Promise_New s1 = (some s1.cells.length, a) ∧
      ExeBuilder_Append a Opcode.OPCODE_JUMPIFNOTANDPOP [Operand.promise s1.cells.length]
        offset length = (true, s2) ∧
      emit_instr_for_node s2 t bd = (true, s3) ∧
      pop_if_expr s3 t t.offset = (true, s4) ∧
      s' = Promise_Resolve s4 s1.cells.length (ExeBuilder_InstrCount s4) := by
  rw [emit_instr_for_node_eq] at h
  simp only [emit_body, andThen_eq_true] at h
  obtain ⟨s1, h1, h2⟩ := h
  split at h2
  · rename_i p a hn
    simp only [andThen_eq_true, Prod.mk.injEq, true_and] at h2
    obtain ⟨s2, h2, s3, h3, s4, h4, rfl⟩ := h2
    obtain ⟨rfl, -⟩ := Promise_New_eq_some hn
    exact ⟨s1, a, s2, s3, s4, h1, hn, h2, h3, h4, rfl⟩
  · simp [fail] at h2

theorem Promise_New_two {s a1 a2 : Env} {p q : Nat} (hn1 : Promise_New s = (some p, a1))
    (hn2 : Promise_New a1 = (some q, a2)) : p = s.cells.length ∧ q = s.cells.length + 1 := by
  obtain ⟨rfl, -, hk, -⟩ := Promise_New_eq_some hn1
  obtain ⟨rfl, -⟩ := Promise_New_eq_some hn2
  exact ⟨rfl, by simp [hk]⟩

theorem emit_ifelse_inv {s s' : Env} {bd : Option Nat} {offset length : Int} {c t f : Node}
    (h : emit_instr_for_node s (Node.ifelse offset length c t (some f)) bd = (true, s')) :
    ∃ s1 a1 a2 s2 s3 s4 s5 s7 s8, emit_instr_for_node s c bd = (true, s1) ∧
      Promise_New s1 = (some s1.cells.length, a1) ∧
      Promise_New a1 = (some (s1.cells.length + 1), a2) ∧
      ExeBuilder_Append a2 Opcode.OPCODE_JUMPIFNOTANDPOP [Operand.promise s1.cells.length]
        offset length = (true, s2) ∧
      emit_instr_for_node s2 t bd = (true, s3) ∧
      pop_if_expr s3 t t.offset = (true, s4) ∧
      ExeBuilder_Append s4 Opcode.OPCODE_JUMP [Operand.promise (s1.cells.length + 1)]
        offset length = (true, s5) ∧
      emit_instr_for_node (Promise_Resolve s5 s1.cells.length (ExeBuilder_InstrCount s5)) f bd
        = (true, s7) ∧
      pop_if_expr s7 f f.offset = (true, s8) ∧
      s' = Promise_Resolve s8 (s1.cells.length + 1) (ExeBuilder_InstrCount s8) := by
  rw [emit_instr_for_node_eq] at h
  simp only [emit_body, andThen_eq_true] at h
  obtain ⟨s1, h1, h2⟩ := h
  cases hn1 : Promise_New s1 with
  | mk r1 a1 =>
  cases hn2 : Promise_New a1 with
  | mk r2 a2 =>
  rw [hn1] at h2
  simp only [hn2] at h2
  cases r1 with
  | none => simp [fail] at h2
  | some p =>
  cases r2 with
  | none => simp [fail] at h2
  | some q =>
  obtain ⟨rfl, rfl⟩ := Promise_New_two hn1 hn2
  simp only [andThen_eq_true, Prod.mk.injEq, true_and] at h2
  obtain ⟨s2, h2', s3, h3, s4, h4, s5, h5, s7, h7, s8, h8, rfl⟩ := h2
  exact ⟨s1, a1, a2, s2, s3, s4, s5, s7, s8, h1, hn1, hn2, h2', h3, h4, h5, h7, h8, rfl⟩

theorem emit_while_inv {s s' : Env} {bd : Option Nat} {offset length : Int} {c b : Node}
    (h : emit_instr_for_node s (Node.while offset length c b) bd = (true, s')) :
    ∃ a1 a2 s1 s2 s3 s4 s5,
      Promise_New s = (some s.cells.length, a1) ∧
      Promise_New a1 = (some (s.cells.length + 1), a2) ∧
      emit_instr_for_node (Promise_Resolve a2 s.cells.length (ExeBuilder_InstrCount a2)) c bd
        = (true, s1) ∧
      ExeBuilder_Append s1 Opcode.OPCODE_JUMPIFNOTANDPOP [Operand.promise (s.cells.length + 1)]
        c.offset c.length = (true, s2) ∧
      emit_instr_for_node s2 b (some (s.cells.length + 1)) = (true, s3) ∧
      pop_if_expr s3 b b.offset = (true, s4) ∧
      ExeBuilder_Append s4 Opcode.OPCODE_JUMP [Operand.promise s.cells.length]
        offset length = (true, s5) ∧
      s' = Promise_Resolve s5 (s.cells.length + 1) (ExeBuilder_InstrCount s5) := by
  rw [emit_instr_for_node_eq] at h
  simp only [emit_body] at h
  cases hn1 : Promise_New s with
  | mk r1 a1 =>
  cases hn2 : Promise_New a1 with
  | mk r2 a2 =>
  rw [hn1] at h
  simp only [hn2] at h
  cases r1 with
  | none => simp [fail] at h
  | some p =>
  cases r2 with
  | none => simp [fail] at h
  | some q =>
  obtain ⟨rfl, rfl⟩ := Promise_New_two hn1 hn2
  simp only [andThen_eq_true, Prod.mk.injEq, true_and] at h
  obtain ⟨s1, h1, s2, h2, s3, h3, s4, h4, s5, h5, rfl⟩ := h
  exact ⟨a1, a2, s1, s2, s3, s4, s5, rfl, hn2, h1, h2, h3, h4, h5, rfl⟩

theorem emit_dowhile_inv {s s' : Env} {bd : Option Nat} {offset length : Int} {b c : Node}
    (h : emit_instr_for_node s (Node.dowhile offset length b c) bd = (true, s')) :
    ∃ a s1 s2 s3 s4,
      Promise_New s = (some s.cells.length, a) ∧
      emit_instr_for_node a b (some s.cells.length) = (true, s1) ∧
      pop_if_expr s1 b b.offset = (true, s2) ∧
      emit_instr_for_node s2 c bd = (true, s3) ∧
      ExeBuilder_Append s3 Opcode.OPCODE_JUMPIFANDPOP [Operand.int (ExeBuilder_InstrCount a)]
        c.offset c.length = (true, s4) ∧
      s' = Promise_Resolve s4 s.cells.length (ExeBuilder_InstrCount s4) := by
  rw [emit_instr_for_node_eq] at h
  simp only [emit_body] at h
  split at h
  · rename_i p a hn
    simp only [andThen_eq_true, Prod.mk.injEq, true_and] at h
    obtain ⟨s1, h1, s2, h2, s3, h3, s4, h4, rfl⟩ := h
    obtain ⟨rfl, -⟩ := Promise_New_eq_some hn
    exact ⟨a, s1, s2, s3, s4, hn, h1, h2, h3, h4, rfl⟩
  · simp [fail] at h

theorem emit_func_inv {s s' : Env} {bd : Option Nat} {offset length argc : Int} {name : String}
    {argv : List ArgumentNode} {body : Node}
    (h : emit_instr_for_node s (Node.func offset length name argv argc body) bd = (true, s')) :
    ∃ a1 a2 s1 s2 s3 s4 s5 s6 s7 s8,
      Promise_New s = (some s.cells.length, a1) ∧
      Promise_New a1 = (some (s.cells.length + 1), a2) ∧
      ExeBuilder_Append a2 Opcode.OPCODE_PUSHFUN
        [Operand.promise s.cells.length, Operand.int argc] offset length = (true, s1) ∧
      ExeBuilder_Append s1 Opcode.OPCODE_ASS [Operand.string name] offset length = (true, s2) ∧
      ExeBuilder_Append s2 Opcode.OPCODE_POP [Operand.int 1] offset length = (true, s3) ∧
      ExeBuilder_Append s3 Opcode.OPCODE_JUMP [Operand.promise (s.cells.length + 1)]
        offset length = (true, s4) ∧
      emit_args argv (Promise_Resolve s4 s.cells.length (ExeBuilder_InstrCount s4))
        = (true, s5) ∧
      emit_instr_for_node s5 body none = (true, s6) ∧
      pop_if_expr s6 body (int_add body.offset body.length) = (true, s7) ∧
      ExeBuilder_Append s7 Opcode.OPCODE_RETURN [Operand.int 0] body.offset 0 = (true, s8) ∧
      s' = Promise_Resolve s8 (s.cells.length + 1) (ExeBuilder_InstrCount s8) := by
  rw [emit_instr_for_node_eq] at h
  simp only [emit_body] at h
  cases hn1 : Promise_New s with
  | mk r1 a1 =>
  cases hn2 : Promise_New a1 with
  | mk r2 a2 =>
  rw [hn1] at h
  simp only [hn2] at h
  cases r1 with
  | none => simp [fail] at h
  | some p =>
  cases r2 with
  | none => simp [fail] at h
  | some q =>
  obtain ⟨rfl, rfl⟩ := Promise_New_two hn1 hn2
  simp only [andThen_eq_true, Prod.mk.injEq, true_and] at h
  obtain ⟨s1, h1, s2, h2, s3, h3, s4, h4, s5, h5, s6, h6, s7, h7, s8, h8, rfl⟩ := h
  exact ⟨a1, a2, s1, s2, s3, s4, s5, s6, s7, s8, rfl, hn2, h1, h2, h3, h4, h5, h6, h7, h8, rfl⟩

/-! ## C9, C10: if without else, function definitions -/

theorem emit_args_eq {argv : List ArgumentNode} :
    ∀ {s s' : Env}, emit_args argv s = (true, s') →
      s'.code = s.code ++ argv.flatMap arg_code ∧ s'.cells = s.cells := by
  induction argv with
  | nil => intro s s' h; cases h; simp
  | cons y ys ih =>
    intro s s' h
    simp only [emit_args, andThen_eq_true] at h
    obtain ⟨s1, h1, s2, h2, h3⟩ := h
    obtain ⟨hc, hk⟩ := ih h3
    rw [hc, hk, append_code_eq h2, append_cells_eq h2, append_code_eq h1, append_cells_eq h1]
    simp [arg_code]

theorem resolve_get_eq (s : Env) (p : Nat) (v : Int) :
    (Promise_Resolve s p v).cells[p]? = (s.cells[p]?).map (Promise.write v) := by
  simp [Promise_Resolve]

theorem resolve_get_ne (s : Env) {p q : Nat} (v : Int) (h : p ≠ q) :
    (Promise_Resolve s p v).cells[q]? = s.cells[q]? := by
  simp [Promise_Resolve, List.getElem?_modify_ne _ _ h]

theorem resolve_cells_length (s : Env) (p : Nat) (v : Int) :
    (Promise_Resolve s p v).cells.length = s.cells.length := by
  simp [Promise_Resolve]

theorem Promise_New_get {s a : Env} {p : Nat} (h : Promise_New s = (some p, a)) :
    a.cells[p]? = some Promise.pending ∧ a.cells.length = s.cells.length + 1 ∧
      a.code = s.code := by
  obtain ⟨rfl, hc, hk, -⟩ := Promise_New_eq_some h
  rw [hk]
  simp [hc]

theorem emit_cell_old {s s' : Env} {node : Node} {bd : Option Nat}
    (h : emit_instr_for_node s node bd = (true, s')) {p : Nat} (hp : p < s.cells.length) :
    s'.cells[p]? = s.cells[p]? :=
  (emit_instr_for_node_sound s node bd s' h).cell_old hp

/-- C9: when an if statement without else branch, whose true branch `e` is an
expression node, lowers successfully, the condition `c` was lowered first and
`e` after the conditional jump, and the instructions emitted are exactly those
of `c`, one `JUMPIFNOTANDPOP L`, those of `e` and `POP 1`; the cell `L` is
resolved to the index immediately after that `POP`, which is the instruction
count reached. -/
theorem if_without_else_layout (s s' : Env) (bd : Option Nat) (offset length : Int)
    (c e : Node) (he : e.kind = NodeKind.NODE_EXPR)
    (h : emit_instr_for_node s (Node.ifelse offset length c e none) bd = (true, s')) :
    ∃ s1 a s2 s3, emit_instr_for_node s c bd = (true, s1) ∧
      Promise_New s1 = (some s1.cells.length, a) ∧
      ExeBuilder_Append a Opcode.OPCODE_JUMPIFNOTANDPOP [Operand.promise s1.cells.length]
        offset length = (true, s2) ∧
      emit_instr_for_node s2 e bd = (true, s3) ∧
      emitted s s' = emitted s s1 ++
        [⟨Opcode.OPCODE_JUMPIFNOTANDPOP, [Operand.promise s1.cells.length], offset, length⟩] ++
        emitted s2 s3 ++ [⟨Opcode.OPCODE_POP, [Operand.int 1], e.offset, 0⟩] ∧
      s'.code = s.code ++ emitted s s' ∧
      s'.cells[s1.cells.length]? = some (Promise.resolved s'.code.length) := by
  obtain ⟨s1, a, s2, s3, s4, h1, hn, h2, h3, h4, rfl⟩ := emit_if_inv h
  obtain ⟨hap, hal, hac⟩ := Promise_New_get hn
  obtain ⟨hc4, hk4⟩ := pop_if_expr_eq h4
  rw [if_pos he] at hc4
  have hcode : (Promise_Resolve s4 s1.cells.length (ExeBuilder_InstrCount s4)).code =
      s.code ++ (emitted s s1 ++
        [⟨Opcode.OPCODE_JUMPIFNOTANDPOP, [Operand.promise s1.cells.length], offset, length⟩] ++
        emitted s2 s3 ++ [⟨Opcode.OPCODE_POP, [Operand.int 1], e.offset, 0⟩]) := by
    show s4.code = _
    rw [hc4, emit_code_eq h3, append_code_eq h2, hac, emit_code_eq h1]
    simp
  have hem := emitted_of_code_eq hcode
  refine ⟨s1, a, s2, s3, h1, hn, h2, h3, hem, by rw [hem]; exact hcode, ?_⟩
  rw [resolve_get_eq, hk4, emit_cell_old h3 (by rw [append_cells_eq h2, hal]; omega),
    append_cells_eq h2, hap]
  rfl

/-- C10: when a function definition lowers successfully from a builder of `p`
instructions, the instructions emitted are exactly `PUSHFUN(entry, argc)`,
`ASS name`, `POP 1`, `JUMP skip`, then `ASS argname`, `POP 1` for each declared
argument in order, then those of the body (lowered with `break_dest = NULL`),
then `POP 1` only if the body is an expression node, then `RETURN 0`; the
cell `entry` is resolved to `p + 4`, the cell `skip` to the index immediately
after the `RETURN 0`, so the instruction at index `skip - 1` is that
zero-count `RETURN`.  The source offset of the `POP` after an expression body
is the `int` sum of the offset and the length of the body (`int_add`): their
sum when it is an `int`, and that sum modulo `2 ^ 32` otherwise. -/
theorem function_definition_layout (s s' : Env) (bd : Option Nat) (offset length argc : Int)
    (name : String) (argv : List ArgumentNode) (body : Node)
    (h : emit_instr_for_node s (Node.func offset length name argv argc body) bd = (true, s')) :
    ∃ sb sb', emit_instr_for_node sb body none = (true, sb') ∧
      sb.code = s.code ++
        [⟨Opcode.OPCODE_PUSHFUN, [Operand.promise s.cells.length, Operand.int argc],
            offset, length⟩,
          ⟨Opcode.OPCODE_ASS, [Operand.string name], offset, length⟩,
          ⟨Opcode.OPCODE_POP, [Operand.int 1], offset, length⟩,
          ⟨Opcode.OPCODE_JUMP, [Operand.promise (s.cells.length + 1)], offset, length⟩] ++
        argv.flatMap arg_code ∧
      emitted s s' =
        [⟨Opcode.OPCODE_PUSHFUN, [Operand.promise s.cells.length, Operand.int argc],
            offset, length⟩,
          ⟨Opcode.OPCODE_ASS, [Operand.string name], offset, length⟩,
          ⟨Opcode.OPCODE_POP, [Operand.int 1], offset, length⟩,
          ⟨Opcode.OPCODE_JUMP, [Operand.promise (s.cells.length + 1)], offset, length⟩] ++
        argv.flatMap arg_code ++ emitted sb sb' ++
        (if body.kind = NodeKind.NODE_EXPR then
          [⟨Opcode.OPCODE_POP, [Operand.int 1], int_add body.offset body.length, 0⟩] else []) ++
        [⟨Opcode.OPCODE_RETURN, [Operand.int 0], body.offset, 0⟩] ∧
      s'.code = s.code ++ emitted s s' ∧
      s'.cells[s.cells.length]? = some (Promise.resolved (s.code.length + 4)) ∧
      s'.cells[s.cells.length + 1]? = some (Promise.resolved s'.code.length) ∧
      s'.code[s'.code.length - 1]? =
        some ⟨Opcode.OPCODE_RETURN, [Operand.int 0], body.offset, 0⟩ ∧
      (-2 ^ 31 ≤ body.offset + body.length → body.offset + body.length < 2 ^ 31 →
        int_add body.offset body.length = body.offset + body.length) ∧
      -2 ^ 31 ≤ int_add body.offset body.length ∧ int_add body.offset body.length < 2 ^ 31 ∧
      (int_add body.offset body.length - (body.offset + body.length)) % 2 ^ 32 = 0 := by
  obtain ⟨a1, a2, s1, s2, s3, s4, s5, s6, s7, s8, hn1, hn2, h1, h2, h3, h4, h5, h6, h7, h8, rfl⟩ :=
    emit_func_inv h
  obtain ⟨hap1, hal1, hac1⟩ := Promise_New_get hn1
  obtain ⟨hap2, hal2, hac2⟩ := Promise_New_get hn2
  obtain ⟨-, -, hak2, -⟩ := Promise_New_eq_some hn2
  obtain ⟨hc5, hk5⟩ := emit_args_eq h5
  obtain ⟨hc7, hk7⟩ := pop_if_expr_eq h7
  have hc4 : s4.code = s.code ++
      [⟨Opcode.OPCODE_PUSHFUN, [Operand.promise s.cells.length, Operand.int argc],
          offset, length⟩,
        ⟨Opcode.OPCODE_ASS, [Operand.string name], offset, length⟩,
        ⟨Opcode.OPCODE_POP, [Operand.int 1], offset, length⟩,
        ⟨Opcode.OPCODE_JUMP, [Operand.promise (s.cells.length + 1)], offset, length⟩] := by
    rw [append_code_eq h4, append_code_eq h3, append_code_eq h2, append_code_eq h1, hac2, hac1]
    simp
  have hk4 : s4.cells = a2.cells := by
    rw [append_cells_eq h4, append_cells_eq h3, append_cells_eq h2, append_cells_eq h1]
  have hc5' : s5.code = s4.code ++ argv.flatMap arg_code := hc5
  have hcode : (Promise_Resolve s8 (s.cells.length + 1) (ExeBuilder_InstrCount s8)).code =
      s.code ++ ([⟨Opcode.OPCODE_PUSHFUN, [Operand.promise s.cells.length, Operand.int argc],
            offset, length⟩,
          ⟨Opcode.OPCODE_ASS, [Operand.string name], offset, length⟩,
          ⟨Opcode.OPCODE_POP, [Operand.int 1], offset, length⟩,
          ⟨Opcode.OPCODE_JUMP, [Operand.promise (s.cells.length + 1)], offset, length⟩] ++
        argv.flatMap arg_code ++ emitted s5 s6 ++
        (if body.kind = NodeKind.NODE_EXPR then
          [⟨Opcode.OPCODE_POP, [Operand.int 1], int_add body.offset body.length, 0⟩] else []) ++
        [⟨Opcode.OPCODE_RETURN, [Operand.int 0], body.offset, 0⟩]) := by
    show s8.code = _
    rw [append_code_eq h8, hc7, emit_code_eq h6, hc5', hc4]
    simp
  have hem := emitted_of_code_eq hcode
  have hlen5 : s5.cells.length = s.cells.length + 2 := by
    rw [hk5, resolve_cells_length, hk4, hal2, hal1]
  have hk8 : s8.cells = s6.cells := by rw [append_cells_eq h8, hk7]
  refine ⟨s5, s6, h6, by rw [hc5', hc4], hem, by rw [hem]; exact hcode, ?_, ?_, ?_,
    fun hlo hhi => by unfold int_add; omega, by unfold int_add; omega,
    by unfold int_add; omega, by unfold int_add; omega⟩
  · rw [resolve_get_ne _ _ (by omega), hk8, emit_cell_old h6 (by omega), hk5, resolve_get_eq,
      hk4, hak2, List.getElem?_append_left (by omega), hap1]
    simp [Promise.write, ExeBuilder_InstrCount, hc4]
  · rw [resolve_get_eq, hk8, emit_cell_old h6 (by omega), hk5, resolve_get_ne _ _ (by omega),
      hk4, hap2]
    rfl
  · show s8.code[s8.code.length - 1]? = _
    rw [append_code_eq h8]
    simp

/-! ## C8: the target of a break -/

theorem getElem?_append_of_some {α : Type} {l : List α} {j : Nat} {x : α} (d : List α)
    (h : l[j]? = some x) : (l ++ d)[j]? = some x := by
  have hj : j < l.length := by
    rcases Nat.lt_or_ge j l.length with hlt | hge
    · exact hlt
    · rw [List.getElem?_eq_none hge] at h; cases h
  rw [List.getElem?_append_left hj, h]

theorem emit_stmts_mem {bd : Option Nat} {x : Node} {stmts : List Node} (hx : x ∈ stmts) :
    ∀ {s s' : Env}, emit_stmts emit_instr_for_node bd stmts s = (true, s') →
      ∃ sa sb d, emit_instr_for_node sa x bd = (true, sb) ∧
        s.code.length ≤ sa.code.length ∧ s'.code = sb.code ++ d := by
  induction stmts with
  | nil => simp at hx
  | cons y ys ih =>
    intro s s' h
    simp only [emit_stmts, andThen_eq_true] at h
    obtain ⟨s1, h1, s2, h2, h3⟩ := h
    obtain ⟨hc2, -⟩ := pop_if_expr_eq h2
    rcases List.mem_cons.1 hx with rfl | hx
    · refine ⟨s, s1, (if x.kind = NodeKind.NODE_EXPR then
          [⟨Opcode.OPCODE_POP, [Operand.int 1], x.offset, 0⟩] else []) ++ emitted s2 s',
        h1, Nat.le_refl _, ?_⟩
      rw [(emit_stmts_ext emit_instr_for_node_sound h3).code_eq, hc2, List.append_assoc]
    · obtain ⟨sa, sb, d, ha, hle, hd⟩ := ih hx h3
      refine ⟨sa, sb, d, ha, ?_, hd⟩
      have := (emit_instr_for_node_sound _ _ _ _ h1).code_length_le
      have : s1.code.length ≤ s2.code.length := by rw [hc2]; simp
      omega

/-- A break statement in a block is lowered to a `JUMP` to the `break_dest`
given to the block. -/
theorem break_in_block_jumps {bo bl : Int} {node : Node} (hb : InBlock (Node.brk bo bl) node) :
    ∀ (s s' : Env) (e : Nat), emit_instr_for_node s node (some e) = (true, s') →
      ∃ j, s.code.length ≤ j ∧
        s'.code[j]? = some ⟨Opcode.OPCODE_JUMP, [Operand.promise e], bo, bl⟩ := by
  induction hb with
  | here =>
    intro s s' e h
    rw [emit_instr_for_node_eq] at h
    simp only [emit_body] at h
    refine ⟨s.code.length, Nat.le_refl _, ?_⟩
    rw [append_code_eq h]
    simp
  | comp hx _ ih =>
    intro s s' e h
    rw [emit_instr_for_node_eq] at h
    simp only [emit_body] at h
    obtain ⟨sa, sb, d, ha, hle, hd⟩ := emit_stmts_mem hx h
    obtain ⟨j, hj, hget⟩ := ih sa sb e ha
    exact ⟨j, by omega, by rw [hd]; exact getElem?_append_of_some d hget⟩
  | @true_branch o l c t fb _ ih =>
    intro s s' e h
    cases fb with
    | none =>
      obtain ⟨s1, a, s2, s3, s4, h1, hn, h2, h3, h4, rfl⟩ := emit_if_inv h
      obtain ⟨j, hj, hget⟩ := ih s2 s3 e h3
      obtain ⟨-, -, hac⟩ := Promise_New_get hn
      have := (emit_instr_for_node_sound _ _ _ _ h1).code_length_le
      have e2 : s2.code.length = s1.code.length + 1 := by rw [append_code_eq h2, hac]; simp
      refine ⟨j, by omega, ?_⟩
      show s4.code[j]? = _
      rw [(pop_if_expr_eq h4).1]
      exact getElem?_append_of_some _ hget
    | some f =>
      obtain ⟨s1, a1, a2, s2, s3, s4, s5, s7, s8, h1, hn1, hn2, h2, h3, h4, h5, h7, h8, rfl⟩ :=
        emit_ifelse_inv h
      obtain ⟨j, hj, hget⟩ := ih s2 s3 e h3
      obtain ⟨-, -, hac1⟩ := Promise_New_get hn1
      obtain ⟨-, -, hac2⟩ := Promise_New_get hn2
      have := (emit_instr_for_node_sound _ _ _ _ h1).code_length_le
      have e2 : s2.code.length = s1.code.length + 1 := by
        rw [append_code_eq h2, hac2, hac1]; simp
      refine ⟨j, by omega, ?_⟩
      show s8.code[j]? = _
      rw [(pop_if_expr_eq h8).1, emit_code_eq h7]
      show (s5.code ++ _ ++ _)[j]? = _
      rw [append_code_eq h5, (pop_if_expr_eq h4).1]
      exact getElem?_append_of_some _ (getElem?_append_of_some _
        (getElem?_append_of_some _ (getElem?_append_of_some _ hget)))
  | @false_branch o l c t f _ ih =>
    intro s s' e h
    obtain ⟨s1, a1, a2, s2, s3, s4, s5, s7, s8, h1, hn1, hn2, h2, h3, h4, h5, h7, h8, rfl⟩ :=
      emit_ifelse_inv h
    obtain ⟨j, hj, hget⟩ := ih _ s7 e h7
    obtain ⟨-, -, hac1⟩ := Promise_New_get hn1
    obtain ⟨-, -, hac2⟩ := Promise_New_get hn2
    have l1 := (emit_instr_for_node_sound _ _ _ _ h1).code_length_le
    have l3 := (emit_instr_for_node_sound _ _ _ _ h3).code_length_le
    have e2 : s2.code.length = s1.code.length + 1 := by
      rw [append_code_eq h2, hac2, hac1]; simp
    have e4 : s3.code.length ≤ s4.code.length := by rw [(pop_if_expr_eq h4).1]; simp
    have e5 : s5.code.length = s4.code.length + 1 := by rw [append_code_eq h5]; simp
    have e6 : (Promise_Resolve s5 s1.cells.length (ExeBuilder_InstrCount s5)).code.length =
        s5.code.length := rfl
    refine ⟨j, by omega, ?_⟩
    show s8.code[j]? = _
    rw [(pop_if_expr_eq h8).1]
    exact getElem?_append_of_some _ hget

/-- C8: when a while loop lowers successfully, each break statement of its
body that lies under compound blocks and if/else branches only (`InBlock`) is
lowered to a `JUMP` to the end cell of the loop, whose resolved value, the one
finalization writes, is the index of the first instruction after the loop: the
instruction count reached, the closing back-jump being the last instruction
emitted.  The same holds for a do-while loop and its closing `JUMPIFANDPOP`. -/
theorem break_jumps_past_loop (s s' : Env) (bd : Option Nat) (offset length bo bl : Int)
    (c body : Node) (hb : InBlock (Node.brk bo bl) body) :
    (emit_instr_for_node s (Node.while offset length c body) bd = (true, s') →
      (∃ j, s.code.length ≤ j ∧ s'.code[j]? =
        some ⟨Opcode.OPCODE_JUMP, [Operand.promise (s.cells.length + 1)], bo, bl⟩) ∧
      finalize_operand s'.cells (Operand.promise (s.cells.length + 1)) =
        some (Operand.int s'.code.length) ∧
      s'.code[s'.code.length - 1]? =
        some ⟨Opcode.OPCODE_JUMP, [Operand.promise s.cells.length], offset, length⟩) ∧
    (emit_instr_for_node s (Node.dowhile offset length body c) bd = (true, s') →
      (∃ j, s.code.length ≤ j ∧ s'.code[j]? =
        some ⟨Opcode.OPCODE_JUMP, [Operand.promise s.cells.length], bo, bl⟩) ∧
      finalize_operand s'.cells (Operand.promise s.cells.length) =
        some (Operand.int s'.code.length) ∧
      s'.code[s'.code.length - 1]? =
        some ⟨Opcode.OPCODE_JUMPIFANDPOP, [Operand.int s.code.length],
          c.offset, c.length⟩) := by
  constructor
  · intro h
    obtain ⟨a1, a2, s1, s2, s3, s4, s5, hn1, hn2, h1, h2, h3, h4, h5, rfl⟩ := emit_while_inv h
    obtain ⟨hap1, hal1, hac1⟩ := Promise_New_get hn1
    obtain ⟨hap2, hal2, hac2⟩ := Promise_New_get hn2
    obtain ⟨j, hj, hget⟩ := break_in_block_jumps hb s2 s3 _ h3
    have l1 := (emit_instr_for_node_sound _ _ _ _ h1).code_length_le
    have e0 : (Promise_Resolve a2 s.cells.length (ExeBuilder_InstrCount a2)).code.length =
        s.code.length := by show a2.code.length = _; rw [hac2, hac1]
    have e2 : s2.code.length = s1.code.length + 1 := by rw [append_code_eq h2]; simp
    have hlen1 : s.cells.length + 2 ≤ s1.cells.length := by
      have := (emit_instr_for_node_sound _ _ _ _ h1).cells_length_le
      rw [resolve_cells_length, hal2, hal1] at this
      exact this
    refine ⟨⟨j, by omega, ?_⟩, ?_, ?_⟩
    · show s5.code[j]? = _
      rw [append_code_eq h5, (pop_if_expr_eq h4).1]
      exact getElem?_append_of_some _ (getElem?_append_of_some _ hget)
    · have hcell : (Promise_Resolve s5 (s.cells.length + 1) (ExeBuilder_InstrCount s5)).cells[
          s.cells.length + 1]? = some (Promise.resolved s5.code.length) := by
        rw [resolve_get_eq, append_cells_eq h5, (pop_if_expr_eq h4).2,
          emit_cell_old h3 (by rw [append_cells_eq h2]; omega), append_cells_eq h2,
          emit_cell_old h1 (by rw [resolve_cells_length, hal2, hal1]; omega),
          resolve_get_ne _ _ (by omega), hap2]
        rfl
      simp only [finalize_operand, hcell]
      rfl
    · show s5.code[s5.code.length - 1]? = _
      rw [append_code_eq h5]
      simp
  · intro h
    obtain ⟨a, s1, s2, s3, s4, hn, h1, h2, h3, h4, rfl⟩ := emit_dowhile_inv h
    obtain ⟨hap, hal, hac⟩ := Promise_New_get hn
    obtain ⟨j, hj, hget⟩ := break_in_block_jumps hb a s1 _ h1
    refine ⟨⟨j, by rw [hac] at hj; exact hj, ?_⟩, ?_, ?_⟩
    · show s4.code[j]? = _
      rw [append_code_eq h4, emit_code_eq h3, (pop_if_expr_eq h2).1]
      exact getElem?_append_of_some _ (getElem?_append_of_some _
        (getElem?_append_of_some _ hget))
    · have hlen1 : s.cells.length + 1 ≤ s1.cells.length := by
        have := (emit_instr_for_node_sound _ _ _ _ h1).cells_length_le
        rw [hal] at this
        exact this
      have hcell : (Promise_Resolve s4 s.cells.length (ExeBuilder_InstrCount s4)).cells[
          s.cells.length]? = some (Promise.resolved s4.code.length) := by
        rw [resolve_get_eq, append_cells_eq h4,
          emit_cell_old h3 (by rw [(pop_if_expr_eq h2).2]; omega), (pop_if_expr_eq h2).2,
          emit_cell_old h1 (by omega), hap]
        rfl
      simp only [finalize_operand, hcell]
      rfl
    · show s4.code[s4.code.length - 1]? = _
      rw [append_code_eq h4]
      simp [ExeBuilder_InstrCount, hac]

/-! ## The theorems at the example programs -/

theorem compile_jump_targets_in_range_witness :
    ∃ exe, compile ⟨example_while, ⟨29⟩⟩ none Error.unset 64 = (some exe, Error.unset) ∧
      exe.code.length = 7 ∧
      ∀ instr ∈ exe.code, instr.opcode.is_jump = true →
        ∃ i : Int, instr.ops = [Operand.int i] ∧ 0 ≤ i ∧ i < exe.code.length :=
  ⟨_, rfl, rfl, compile_jump_targets_in_range ⟨example_while, ⟨29⟩⟩ none Error.unset 64 _ _ rfl⟩

theorem emit_resolves_every_promise_once_witness :
    ∃ s', emit_instr_for_node example_env example_while none = (true, s') ∧
      ∃ d new, s'.code = example_env.code ++ d ∧ s'.cells = example_env.cells ++ new ∧
        (∀ c ∈ new, ∃ v, c = Promise.resolved v) ∧
        (∀ i ∈ d, ∀ p, Operand.promise p ∈ i.ops →
          example_env.cells.length ≤ p ∧ ∃ v, s'.cells[p]? = some (Promise.resolved v)) ∧
        (example_env.code = [] → ∃ code, finalize_code s'.cells s'.code = some code) :=
  ⟨_, rfl, emit_resolves_every_promise_once example_env _ example_while rfl⟩

theorem assign_single_identifier_witness :
    ∃ s1 s', emit_instr_for_node example_env
        (Node.oper OperKind.EXPR_ADD 4 5 [Node.int 4 1 1, Node.int 8 1 2]) none = (true, s1) ∧
      emit_instr_for_node example_env example_assign none = (true, s') ∧
      emitted example_env s' = emitted example_env s1 ++
        [⟨Opcode.OPCODE_ASS, [Operand.string "x"], 0, 1⟩] ∧
      emitted example_env s' = [⟨Opcode.OPCODE_PUSHINT, [Operand.int 1], 4, 1⟩,
        ⟨Opcode.OPCODE_PUSHINT, [Operand.int 2], 8, 1⟩,
        ⟨Opcode.OPCODE_ADD, [], 4, 5⟩,
        ⟨Opcode.OPCODE_ASS, [Operand.string "x"], 0, 1⟩] := by
  obtain ⟨s1, h1, h2, -⟩ := (assign_single_identifier example_env none 0 9 0 1).1 "x"
    (Node.oper OperKind.EXPR_ADD 4 5 [Node.int 4 1 1, Node.int 8 1 2])
    (emit_instr_for_node example_env example_assign none).2 rfl
  exact ⟨s1, _, h1, rfl, h2, rfl⟩

theorem operator_operands_in_order_witness :
    ∃ s1 s2 s', emit_instr_for_node example_env (Node.int 4 1 1) none = (true, s1) ∧
      emit_instr_for_node s1 (Node.int 8 1 2) none = (true, s2) ∧
      emit_instr_for_node example_env
        (Node.oper OperKind.EXPR_ADD 4 5 [Node.int 4 1 1, Node.int 8 1 2]) none = (true, s') ∧
      emitted example_env s' = emitted example_env s1 ++ emitted s1 s2 ++
        [⟨Opcode.OPCODE_ADD, [], 4, 5⟩] := by
  obtain ⟨s1, s2, h1, h2, h3, -⟩ := (operator_operands_in_order example_env none
    OperKind.EXPR_ADD 4 5).1 (Node.int 4 1 1) (Node.int 8 1 2)
    (emit_instr_for_node example_env
      (Node.oper OperKind.EXPR_ADD 4 5 [Node.int 4 1 1, Node.int 8 1 2]) none).2 rfl
  exact ⟨s1, s2, _, h1, h2, rfl, h3⟩

theorem compound_block_pops_expressions_witness :
    ∃ s', emit_instr_for_node example_env example_block none = (true, s') ∧
      BlockEmits none example_env [Node.int 2 1 1, Node.ret 5 9 (Node.int 12 1 2)] s'
        (emitted example_env s') ∧
      emitted example_env s' = [⟨Opcode.OPCODE_PUSHINT, [Operand.int 1], 2, 1⟩,
        ⟨Opcode.OPCODE_POP, [Operand.int 1], 2, 0⟩,
        ⟨Opcode.OPCODE_PUSHINT, [Operand.int 2], 12, 1⟩,
        ⟨Opcode.OPCODE_RETURN, [Operand.int 1], 5, 9⟩] := by
  have h := compound_block_pops_expressions example_env
    (emit_instr_for_node example_env example_block none).2 none 0 16
    [Node.int 2 1 1, Node.ret 5 9 (Node.int 12 1 2)] rfl
  exact ⟨_, rfl, h.1, rfl⟩

theorem tuple_assignment_needs_call_witness :
    (Node.pair 0 4 (Node.ident 0 1 "a") (Node.ident 3 1 "b")).leaves.length = 2 ∧
    emit_instr_for_node example_env example_arity none =
      (false, { example_env with
        error := Error.report false (ErrorMessage.assigning_to 2) }) ∧
    (emit_instr_for_node example_env example_arity none).2.code = example_env.code :=
  ⟨rfl, (tuple_assignment_needs_call example_env none 0 8
      (Node.pair 0 4 (Node.ident 0 1 "a") (Node.ident 3 1 "b")) (Node.int 7 1 5)
      (by decide) (by intro co cl func argv argc h; cases h)).1 (by decide),
    (tuple_assignment_needs_call example_env none 0 8
      (Node.pair 0 4 (Node.ident 0 1 "a") (Node.ident 3 1 "b")) (Node.int 7 1 5)
      (by decide) (by intro co cl func argv argc h; cases h)).2.2⟩

/-- The assignment of `5` to 33 targets, the identifiers `t`: the left side
flattens to `N = 33 >= 2` targets and the right side is not a call, but the
failure is the capacity error of the tuple buffer, not the error that reports
the arity 33. -/
theorem tuple_assignment_arity_counterexample :
    (example_targets 32).leaves.length = 33 ∧
    emit_instr_for_node example_env (Node.ass 0 1 (example_targets 32) (Node.int 0 1 5)) none =
      (false, { example_env with
        error := Error.report false ErrorMessage.static_buffer_too_small }) ∧
    (emit_instr_for_node example_env
        (Node.ass 0 1 (example_targets 32) (Node.int 0 1 5)) none).2.error ≠
      Error.report false (ErrorMessage.assigning_to 33) :=
  ⟨rfl, rfl, by decide⟩

theorem break_outside_loop_fails_witness :
    StrayBreak false example_stray ∧
      (compile ⟨example_stray, ⟨35⟩⟩ none Error.unset 64).1 = none ∧
      compile ⟨example_stray, ⟨35⟩⟩ none Error.unset 64 =
        (none, Error.report false ErrorMessage.break_not_in_loop) :=
  have h : StrayBreak false example_stray :=
    StrayBreak.while_body (StrayBreak.comp (List.mem_cons_self _ _)
      (StrayBreak.func_body (StrayBreak.comp (List.mem_cons_self _ _) StrayBreak.brk)))
  ⟨h, break_outside_loop_fails.2.2 ⟨example_stray, ⟨35⟩⟩ none Error.unset 64 h, rfl⟩

theorem break_jumps_past_loop_witness :
    (∃ s', emit_instr_for_node example_env example_while none = (true, s') ∧
      s'.code.length = 6 ∧
      (∃ j, example_env.code.length ≤ j ∧ s'.code[j]? =
        some ⟨Opcode.OPCODE_JUMP, [Operand.promise (example_env.cells.length + 1)], 22, 5⟩) ∧
      finalize_operand s'.cells (Operand.promise (example_env.cells.length + 1)) =
        some (Operand.int s'.code.length) ∧
      s'.code[s'.code.length - 1]? =
        some ⟨Opcode.OPCODE_JUMP, [Operand.promise example_env.cells.length], 0, 29⟩) ∧
    (∃ s', emit_instr_for_node example_env example_dowhile none = (true, s') ∧
      s'.code.length = 5 ∧
      (∃ j, example_env.code.length ≤ j ∧ s'.code[j]? =
        some ⟨Opcode.OPCODE_JUMP, [Operand.promise example_env.cells.length], 12, 5⟩) ∧
      finalize_operand s'.cells (Operand.promise example_env.cells.length) =
        some (Operand.int s'.code.length) ∧
      s'.code[s'.code.length - 1]? =
        some ⟨Opcode.OPCODE_JUMPIFANDPOP, [Operand.int example_env.code.length], 27, 4⟩) :=
  ⟨⟨_, rfl, rfl, (break_jumps_past_loop example_env _ none 0 29 22 5 (Node.true 7 4)
      (Node.comp 13 16 [Node.ifelse 15 13 (Node.ident 19 1 "x") (Node.brk 22 5) none])
      (InBlock.comp (List.mem_cons_self _ _) (InBlock.true_branch InBlock.here))).1 rfl⟩,
    ⟨_, rfl, rfl, (break_jumps_past_loop example_env _ none 0 34 12 5 (Node.true 27 4)
      (Node.comp 3 16 [Node.ifelse 5 13 (Node.ident 9 1 "x") (Node.brk 12 5) none])
      (InBlock.comp (List.mem_cons_self _ _) (InBlock.true_branch InBlock.here))).2 rfl⟩⟩

theorem if_without_else_layout_witness :
    ∃ s', emit_instr_for_node example_env example_if none = (true, s') ∧
      s'.code = [⟨Opcode.OPCODE_PUSHVAR, [Operand.string "x"], 4, 1⟩,
        ⟨Opcode.OPCODE_JUMPIFNOTANDPOP, [Operand.promise 0], 0, 9⟩,
        ⟨Opcode.OPCODE_PUSHINT, [Operand.int 3], 7, 1⟩,
        ⟨Opcode.OPCODE_POP, [Operand.int 1], 7, 0⟩] ∧
      s'.cells = [Promise.resolved 4] ∧
      ∃ s1 a s2 s3, emit_instr_for_node example_env (Node.ident 4 1 "x") none = (true, s1) ∧
        Promise_New s1 = (some s1.cells.length, a) ∧
        ExeBuilder_Append a Opcode.OPCODE_JUMPIFNOTANDPOP [Operand.promise s1.cells.length]
          0 9 = (true, s2) ∧
        emit_instr_for_node s2 (Node.int 7 1 3) none = (true, s3) ∧
        emitted example_env s' = emitted example_env s1 ++
          [⟨Opcode.OPCODE_JUMPIFNOTANDPOP, [Operand.promise s1.cells.length], 0, 9⟩] ++
          emitted s2 s3 ++ [⟨Opcode.OPCODE_POP, [Operand.int 1], (Node.int 7 1 3).offset, 0⟩] ∧
        s'.code = example_env.code ++ emitted example_env s' ∧
        s'.cells[s1.cells.length]? = some (Promise.resolved s'.code.length) :=
  ⟨_, rfl, rfl, rfl, if_without_else_layout example_env _ none 0 9 (Node.ident 4 1 "x")
    (Node.int 7 1 3) rfl rfl⟩

theorem function_definition_layout_witness :
    ∃ s', emit_instr_for_node example_env example_func none = (true, s') ∧
      s'.cells = [Promise.resolved 4, Promise.resolved 9] ∧
      s'.code.length = 9 ∧
      s'.code[8]? = some ⟨Opcode.OPCODE_RETURN, [Operand.int 0], 9, 0⟩ ∧
      ∃ sb sb', emit_instr_for_node sb (Node.ident 9 1 "a") none = (true, sb') ∧
        emitted example_env s' =
          [⟨Opcode.OPCODE_PUSHFUN, [Operand.promise 0, Operand.int 1], 0, 11⟩,
            ⟨Opcode.OPCODE_ASS, [Operand.string "f"], 0, 11⟩,
            ⟨Opcode.OPCODE_POP, [Operand.int 1], 0, 11⟩,
            ⟨Opcode.OPCODE_JUMP, [Operand.promise 1], 0, 11⟩] ++
          [⟨Opcode.OPCODE_ASS, [Operand.string "a"], 6, 1⟩,
            ⟨Opcode.OPCODE_POP, [Operand.int 1], 6, 1⟩] ++ emitted sb sb' ++
          [⟨Opcode.OPCODE_POP, [Operand.int 1], 10, 0⟩] ++
          [⟨Opcode.OPCODE_RETURN, [Operand.int 0], 9, 0⟩] := by
  obtain ⟨sb, sb', h1, -, h3, -⟩ := function_definition_layout example_env
    (emit_instr_for_node example_env example_func none).2 none 0 11 1 "f" [⟨6, 1, "a"⟩]
    (Node.ident 9 1 "a") rfl
  exact ⟨_, rfl, rfl, rfl, rfl, sb, sb', h1, h3⟩

/-- A function whose body, an expression, starts at the offset `INT_MAX` with
length 1: the `POP` after the body is at the offset `-2147483648`. -/
theorem function_body_offset_wraps :
    int_add 2147483647 1 = -2147483648 ∧
    (emit_instr_for_node example_env
      (Node.func 0 11 "f" [] 0 (Node.ident 2147483647 1 "a")) none).2.code[5]? =
      some ⟨Opcode.OPCODE_POP, [Operand.int 1], -2147483648, 0⟩ :=
  ⟨rfl, rfl⟩

/-! ## C11: the tuple flattener -/

/-- C11: `flatten_tuple_tree` called with an empty list and cap 32 succeeds
if and only if the tree of pairs has at most 32 leaves; on success the list is
exactly the leaves from left to right, the count their number, and the error
structure untouched; with more than 32 leaves it fails with the capacity error
having written the first 32 leaves only, so that no write goes past index 31
of the buffer. -/
theorem flatten_tuple_tree_cap (root : Node) (error : Error) :
    ((flatten_tuple_tree root [] 32 error).1 = true ↔ root.leaves.length ≤ 32) ∧
    (root.leaves.length ≤ 32 →
      flatten_tuple_tree root [] 32 error = (true, root.leaves, error) ∧
      (flatten_tuple_tree root [] 32 error).2.1.length = root.leaves.length) ∧
    (32 < root.leaves.length →
      flatten_tuple_tree root [] 32 error = (false, root.leaves.take 32,
        Error.report false ErrorMessage.static_buffer_too_small)) ∧
    (flatten_tuple_tree root [] 32 error).2.1.length ≤ 32 := by
  have h := flatten_tuple_tree_eq root [] 32 error (by simp)
  simp only [List.length_nil, Nat.zero_add, List.nil_append, Nat.sub_zero] at h
  by_cases hle : root.leaves.length ≤ 32
  · rw [if_pos hle] at h
    rw [h]
    exact ⟨by simp [hle], fun _ => ⟨rfl, rfl⟩, fun hgt => by omega, hle⟩
  · rw [if_neg hle] at h
    rw [h]
    refine ⟨by simp [hle], fun h' => absurd h' hle, fun _ => rfl, ?_⟩
    simp only [List.length_take]
    omega

/-! ## C12: the trailing return -/

theorem finalize_code_append (cells : List Promise) (a b : List Instr) :
    finalize_code cells (a ++ b) =
      match finalize_code cells a, finalize_code cells b with
      | some a', some b' => some (a' ++ b')
      | _, _ => none := by
  induction a with
  | nil =>
    simp only [List.nil_append, finalize_code]
    cases finalize_code cells b <;> rfl
  | cons i a ih =>
    have e : (i :: a) ++ b = i :: (a ++ b) := rfl
    rw [e]
    simp only [finalize_code]
    rw [ih]
    cases finalize_operands cells i.ops <;> cases finalize_code cells a <;>
      cases finalize_code cells b <;> rfl

theorem finalize_code_forall {cells : List Promise} {code : List Instr} :
    ∀ {code' : List Instr}, finalize_code cells code = some code' →
      List.Forall₂ (Finalized cells) code code' := by
  induction code with
  | nil => intro code' h; cases h; exact List.Forall₂.nil
  | cons i code ih =>
    intro code' h
    simp only [finalize_code] at h
    split at h
    · rename_i ops c2 h1 h2
      cases h
      exact List.Forall₂.cons ⟨rfl, rfl, rfl, h1⟩ (ih h2)
    · cases h

/-- The steps of a successful `compile`. -/
theorem compile_inv {ast : AST} {alloc : Option BPAlloc} {error error' : Error} {mem : Nat}
    {exe : Executable} (h : compile ast alloc error mem = (some exe, error')) :
    ∃ exeb s1 s2 code, exeb.code = [] ∧
      emit_instr_for_node exeb ast.root none = (true, s1) ∧
      ExeBuilder_Append s1 Opcode.OPCODE_RETURN [Operand.int 0] (Source_GetSize ast.src) 0
        = (true, s2) ∧
      finalize_code s2.cells s2.code = some code ∧
      exe = ⟨code, some ast.src⟩ := by
  unfold compile at h
  split at h
  · cases h
  · rename_i alloc2 mem2 halloc
    split at h
    · cases h
    · rename_i exeb hnew
      have hcode : exeb.code = [] := by
        unfold ExeBuilder_New at hnew
        split at hnew
        · cases hnew
        · cases hnew; rfl
      split at h
      · cases h
      · rename_i s1 h1
        split at h
        · cases h
        · rename_i s2 h2
          unfold ExeBuilder_Finalize at h
          split at h
          · simp at h
          · rename_i exe' s3 hfin
            split at hfin
            · cases hfin
            · rename_i code hcodefin
              split at hfin
              · cases hfin
              · cases hfin
                cases h
                exact ⟨exeb, s1, s2, code, hcode, h1, h2, hcodefin, rfl⟩

/-- C12: when `compile` succeeds, the instructions of the executable are
those that lowering the root from an empty builder with `break_dest = NULL`
produced, finalized, followed by exactly one `RETURN` with operand 0, source
offset the size of the source text and length 0; the last instruction of the
executable is that zero-count `RETURN`. -/
theorem compile_appends_return (ast : AST) (alloc : Option BPAlloc) (error error' : Error)
    (mem : Nat) (exe : Executable) (h : compile ast alloc error mem = (some exe, error')) :
    ∃ exeb s1 code, exeb.code = [] ∧
      emit_instr_for_node exeb ast.root none = (true, s1) ∧
      List.Forall₂ (Finalized s1.cells) s1.code code ∧
      exe.code = code ++ [⟨Opcode.OPCODE_RETURN, [Operand.int 0], Source_GetSize ast.src, 0⟩] ∧
      exe.code.length = s1.code.length + 1 ∧
      exe.code.getLast? =
        some ⟨Opcode.OPCODE_RETURN, [Operand.int 0], Source_GetSize ast.src, 0⟩ := by
  obtain ⟨exeb, s1, s2, code, hcode, h1, h2, hfin, rfl⟩ := compile_inv h
  rw [append_code_eq h2, append_cells_eq h2, finalize_code_append] at hfin
  split at hfin
  · rename_i a' b' ha hb
    simp only [finalize_code, finalize_operands, finalize_operand] at hb
    cases hb
    cases hfin
    refine ⟨exeb, s1, a', hcode, h1, finalize_code_forall ha, rfl, ?_, by simp⟩
    simp [finalize_code_length ha]
  · cases hfin

/-! ## C13: what a failed lowering reports -/

theorem andThen_reports {step : Bool × Env} {rest : Env → Bool × Env}
    {s' : Env} (h : andThen step rest = (false, s'))
    (hstep : step = (false, s') → s'.error.is_user_or_no_memory = true)
    (hrest : ∀ s1, rest s1 = (false, s') → s'.error.is_user_or_no_memory = true) :
    s'.error.is_user_or_no_memory = true := by
  rcases step with ⟨b, s1⟩
  cases b
  · exact hstep h
  · exact hrest s1 h

theorem fail_reports {s s' : Env} {internal b : Bool} {message : ErrorMessage}
    (h : fail s internal message = (b, s'))
    (hm : (Error.report internal message).is_user_or_no_memory = true) :
    s'.error.is_user_or_no_memory = true := by
  simp only [fail, Error_Report, Prod.mk.injEq] at h
  rw [← h.2]
  exact hm

theorem append_reports {s s' : Env} {opcode : Opcode} {ops : List Operand} {offset length : Int}
    (h : ExeBuilder_Append s opcode ops offset length = (false, s')) :
    s'.error.is_user_or_no_memory = true := by
  unfold ExeBuilder_Append at h
  split at h
  · exact fail_reports h rfl
  · cases h

theorem pop_if_expr_reports {s s' : Env} {stmt : Node} {offset : Int}
    (h : pop_if_expr s stmt offset = (false, s')) : s'.error.is_user_or_no_memory = true := by
  unfold pop_if_expr at h
  split at h
  · exact append_reports h
  · cases h

theorem emit_each_reports {rec : Emitter} {bd : Option Nat} {xs : List Node}
    (hrec : ∀ x ∈ xs, ∀ s s', rec s x bd = (false, s') → s'.error.is_user_or_no_memory = true) :
    ∀ {s s' : Env}, emit_each rec bd xs s = (false, s') →
      s'.error.is_user_or_no_memory = true := by
  induction xs with
  | nil => intro s s' h; cases h
  | cons y ys ih =>
    intro s s' h
    simp only [emit_each] at h
    exact andThen_reports h (hrec y (List.mem_cons_self _ _) _ _)
      (fun s1 h1 => ih (fun x hx => hrec x (List.mem_cons_of_mem _ hx)) h1)

theorem emit_instr_for_funccall_reports {rec : Emitter} {bd : Option Nat} {func : Node}
    {argv : List Node}
    (hf : ∀ s s', rec s func bd = (false, s') → s'.error.is_user_or_no_memory = true)
    (hrec : ∀ x ∈ argv, ∀ s s', rec s x bd = (false, s') →
      s'.error.is_user_or_no_memory = true)
    {s s' : Env} {argc offset length returns : Int}
    (h : emit_instr_for_funccall rec s func argv argc offset length bd returns = (false, s')) :
    s'.error.is_user_or_no_memory = true := by
  simp only [emit_instr_for_funccall] at h
  exact andThen_reports h (emit_each_reports hrec)
    (fun s1 h1 => andThen_reports h1 (hf _ _) (fun s2 h2 => append_reports h2))

theorem emit_store_reports {rec : Emitter} {bd : Option Nat} {item : Node}
    (hrec : ∀ x, x.size < item.size → ∀ s s', rec s x bd = (false, s') →
      s'.error.is_user_or_no_memory = true)
    {s s' : Env} (h : emit_store rec bd s item = (false, s')) :
    s'.error.is_user_or_no_memory = true := by
  cases item with
  | ident o l name => exact append_reports h
  | select o l set idx =>
    simp only [emit_store] at h
    exact andThen_reports h (hrec set (by simp only [Node.size]; omega) _ _)
      (fun s1 h1 => andThen_reports h1 (hrec idx (by simp only [Node.size]; omega) _ _)
        (fun s2 h2 => append_reports h2))
  | _ => exact fail_reports h rfl

theorem emit_stores_reports {rec : Emitter} {bd : Option Nat} {off : Int} {count k : Nat}
    {items : List Node}
    (hrec : ∀ x, x.size < k → ∀ s s', rec s x bd = (false, s') →
      s'.error.is_user_or_no_memory = true)
    (hk : ∀ item ∈ items, item.size ≤ k) :
    ∀ {i : Nat} {s s' : Env}, emit_stores rec bd off count items i s = (false, s') →
      s'.error.is_user_or_no_memory = true := by
  induction items with
  | nil => intro i s s' h; cases h
  | cons y ys ih =>
    intro i s s' h
    simp only [emit_stores] at h
    have hy := hk y (List.mem_cons_self _ _)
    have hst := @emit_store_reports rec bd y (fun x hx => hrec x (by omega))
    refine andThen_reports h hst
      (fun s1 h1 => andThen_reports h1 (fun h2 => ?_)
        (fun s2 h2 => ih (fun x hx => hk x (List.mem_cons_of_mem _ hx)) h2))
    split at h2
    · exact append_reports h2
    · cases h2

theorem emit_list_items_reports {rec : Emitter} {bd : Option Nat} {xs : List Node}
    (hrec : ∀ x ∈ xs, ∀ s s', rec s x bd = (false, s') → s'.error.is_user_or_no_memory = true) :
    ∀ {i : Int} {s s' : Env}, emit_list_items rec bd xs i s = (false, s') →
      s'.error.is_user_or_no_memory = true := by
  induction xs with
  | nil => intro i s s' h; cases h
  | cons y ys ih =>
    intro i s s' h
    simp only [emit_list_items] at h
    exact andThen_reports h append_reports
      (fun s1 h1 => andThen_reports h1 (hrec y (List.mem_cons_self _ _) _ _)
        (fun s2 h2 => andThen_reports h2 append_reports
          (fun s3 h3 => ih (fun x hx => hrec x (List.mem_cons_of_mem _ hx)) h3)))

theorem emit_map_items_reports {rec : Emitter} {bd : Option Nat} {es : List (Node × Node)}
    (hrec : ∀ k v, (k, v) ∈ es → ∀ x, x = k ∨ x = v → ∀ s s', rec s x bd = (false, s') →
      s'.error.is_user_or_no_memory = true) :
    ∀ {s s' : Env}, emit_map_items rec bd es s = (false, s') →
      s'.error.is_user_or_no_memory = true := by
  induction es with
  | nil => intro s s' h; cases h
  | cons y ys ih =>
    intro s s' h
    rcases y with ⟨k, v⟩
    simp only [emit_map_items] at h
    have hkv := hrec k v (List.mem_cons_self _ _)
    exact andThen_reports h (hkv k (Or.inl rfl) _ _)
      (fun s1 h1 => andThen_reports h1 (hkv v (Or.inr rfl) _ _)
        (fun s2 h2 => andThen_reports h2 append_reports
          (fun s3 h3 => ih (fun a b hx => hrec a b (List.mem_cons_of_mem _ hx)) h3)))

theorem emit_stmts_reports {rec : Emitter} {bd : Option Nat} {xs : List Node}
    (hrec : ∀ x ∈ xs, ∀ s s', rec s x bd = (false, s') → s'.error.is_user_or_no_memory = true) :
    ∀ {s s' : Env}, emit_stmts rec bd xs s = (false, s') →
      s'.error.is_user_or_no_memory = true := by
  induction xs with
  | nil => intro s s' h; cases h
  | cons y ys ih =>
    intro s s' h
    simp only [emit_stmts] at h
    exact andThen_reports h (hrec y (List.mem_cons_self _ _) _ _)
      (fun s1 h1 => andThen_reports h1 pop_if_expr_reports
        (fun s2 h2 => ih (fun x hx => hrec x (List.mem_cons_of_mem _ hx)) h2))

theorem emit_args_reports {argv : List ArgumentNode} :
    ∀ {s s' : Env}, emit_args argv s = (false, s') →
      s'.error.is_user_or_no_memory = true := by
  induction argv with
  | nil => intro s s' h; cases h
  | cons y ys ih =>
    intro s s' h
    simp only [emit_args] at h
    exact andThen_reports h append_reports
      (fun s1 h1 => andThen_reports h1 append_reports (fun s2 h2 => ih h2))

/-- The body of the emitter reports an error whenever it fails, when its
recursive calls on smaller trees do. -/
theorem emit_body_reports {rec : Emitter} (node : Node)
    (hrec : ∀ x, x.size < node.size → ∀ bd s s', rec s x bd = (false, s') →
      s'.error.is_user_or_no_memory = true)
    (s : Env) (bd : Option Nat) (s' : Env) (h : emit_body rec s node bd = (false, s')) :
    s'.error.is_user_or_no_memory = true := by
  cases node with
  | pair o l a b => exact fail_reports h rfl
  | oper kind o l head =>
    simp only [emit_body] at h
    exact andThen_reports h
      (emit_each_reports (fun x hx => hrec x
        (by have := size_chain_mem hx; simp only [Node.size]; omega) bd))
      (fun s1 h1 => append_reports h1)
  | ass o l lop rop =>
    simp only [emit_body] at h
    rw [flatten_tuple_tree_eq lop [] 32 s.error (by simp)] at h
    by_cases hle : ([] : List Node).length + lop.leaves.length ≤ 32
    · rw [if_pos hle] at h
      simp only [List.nil_append] at h
      refine andThen_reports h (fun h1 => ?_) (fun s1 h1 => ?_)
      · split at h1
        · exact hrec rop (by simp only [Node.size]; have := lop.size_pos; omega) bd _ _ h1
        · split at h1
          · rename_i co cl func argv argc
            exact emit_instr_for_funccall_reports
              (hrec func (by simp only [Node.size]; omega) bd)
              (fun x hx => hrec x
                (by have := size_chain_mem hx; simp only [Node.size]; omega) bd) h1
          · exact fail_reports h1 rfl
      · exact @emit_stores_reports rec bd o lop.leaves.length lop.size lop.leaves.reverse
          (fun x hx => hrec x (by simp only [Node.size]; omega) bd)
          (fun item hi => leaves_size (List.mem_reverse.1 hi)) 0 s1 s' h1
    · rw [if_neg hle] at h
      simp only [Prod.mk.injEq, true_and] at h
      rw [← h]
      rfl
  | int o l val => exact append_reports h
  | float o l val => exact append_reports h
  | string o l val => exact append_reports h
  | ident o l val => exact append_reports h
  | list o l items itemc =>
    simp only [emit_body] at h
    exact andThen_reports h append_reports
      (fun s1 h1 => emit_list_items_reports (fun x hx => hrec x
        (by have := size_chain_mem hx; simp only [Node.size]; omega) bd) h1)
  | map o l entries itemc =>
    simp only [emit_body] at h
    refine andThen_reports h append_reports
      (fun s1 h1 => emit_map_items_reports (fun k v hkv x hx => hrec x ?_ bd) h1)
    have := size_entries_mem hkv
    rcases hx with rfl | rfl <;> simp only [Node.size] <;> omega
  | call o l func argv argc =>
    exact emit_instr_for_funccall_reports (hrec func (by simp only [Node.size]; omega) bd)
      (fun x hx => hrec x (by have := size_chain_mem hx; simp only [Node.size]; omega) bd) h
  | select o l set idx =>
    simp only [emit_body] at h
    exact andThen_reports h (hrec set (by simp only [Node.size]; omega) bd _ _)
      (fun s1 h1 => andThen_reports h1 (hrec idx (by simp only [Node.size]; omega) bd _ _)
        (fun s2 h2 => append_reports h2))
  | none o l => exact append_reports h
  | true o l => exact append_reports h
  | false o l => exact append_reports h
  | brk o l =>
    cases bd with
    | none => exact fail_reports h rfl
    | some p => exact append_reports h
  | ifelse o l c t fb =>
    cases fb with
    | none =>
      simp only [emit_body] at h
      refine andThen_reports h (hrec c (by simp only [Node.size]; omega) bd _ _)
        (fun s1 h1 => ?_)
      split at h1
      · exact andThen_reports h1 append_reports
          (fun s2 h2 => andThen_reports h2 (hrec t (by simp only [Node.size]; omega) bd _ _)
            (fun s3 h3 => andThen_reports h3 pop_if_expr_reports (fun s4 h4 => by cases h4)))
      · exact fail_reports h1 rfl
    | some f =>
      simp only [emit_body] at h
      refine andThen_reports h (hrec c (by simp only [Node.size]; omega) bd _ _)
        (fun s1 h1 => ?_)
      split at h1
      · exact andThen_reports h1 append_reports
          (fun s2 h2 => andThen_reports h2 (hrec t (by simp only [Node.size]; omega) bd _ _)
            (fun s3 h3 => andThen_reports h3 pop_if_expr_reports
              (fun s4 h4 => andThen_reports h4 append_reports
                (fun s5 h5 => andThen_reports h5
                  (hrec f (by simp only [Node.size]; omega) bd _ _)
                  (fun s6 h6 => andThen_reports h6 pop_if_expr_reports
                    (fun s7 h7 => by cases h7))))))
      · exact fail_reports h1 rfl
  | «while» o l c b =>
    simp only [emit_body] at h
    split at h
    · exact andThen_reports h (hrec c (by simp only [Node.size]; omega) bd _ _)
        (fun s1 h1 => andThen_reports h1 append_reports
          (fun s2 h2 => andThen_reports h2 (hrec b (by simp only [Node.size]; omega) _ _ _)
            (fun s3 h3 => andThen_reports h3 pop_if_expr_reports
              (fun s4 h4 => andThen_reports h4 append_reports (fun s5 h5 => by cases h5)))))
    · exact fail_reports h rfl
  | dowhile o l b c =>
    simp only [emit_body] at h
    split at h
    · exact andThen_reports h (hrec b (by simp only [Node.size]; omega) _ _ _)
        (fun s1 h1 => andThen_reports h1 pop_if_expr_reports
          (fun s2 h2 => andThen_reports h2 (hrec c (by simp only [Node.size]; omega) bd _ _)
            (fun s3 h3 => andThen_reports h3 append_reports (fun s4 h4 => by cases h4))))
    · exact fail_reports h rfl
  | comp o l head =>
    simp only [emit_body] at h
    exact emit_stmts_reports (fun x hx => hrec x
      (by have := size_chain_mem hx; simp only [Node.size]; omega) bd) h
  | ret o l val =>
    simp only [emit_body] at h
    rw [flatten_tuple_tree_eq val [] 32 s.error (by simp)] at h
    by_cases hle : ([] : List Node).length + val.leaves.length ≤ 32
    · rw [if_pos hle] at h
      simp only [List.nil_append] at h
      exact andThen_reports h
        (emit_each_reports (fun x hx => hrec x
          (by have := leaves_size hx; simp only [Node.size]; omega) bd))
        (fun s1 h1 => append_reports h1)
    · rw [if_neg hle] at h
      simp only [Prod.mk.injEq, true_and] at h
      rw [← h]
      rfl
  | func o l name argv argc body =>
    simp only [emit_body] at h
    split at h
    · exact andThen_reports h append_reports
        (fun s1 h1 => andThen_reports h1 append_reports
          (fun s2 h2 => andThen_reports h2 append_reports
            (fun s3 h3 => andThen_reports h3 append_reports
              (fun s4 h4 => andThen_reports h4 emit_args_reports
                (fun s5 h5 => andThen_reports h5
                  (hrec body (by simp only [Node.size]; omega) _ _ _)
                  (fun s6 h6 => andThen_reports h6 pop_if_expr_reports
                    (fun s7 h7 => andThen_reports h7 append_reports
                      (fun s8 h8 => by cases h8))))))))
    · exact fail_reports h rfl

theorem emit_reports_aux (k : Nat) : ∀ (node : Node), node.size ≤ k →
    ∀ (bd : Option Nat) (s s' : Env), emit_instr_for_node s node bd = (false, s') →
      s'.error.is_user_or_no_memory = true := by
  induction k with
  | zero => intro node h; have := node.size_pos; omega
  | succ k ih =>
    intro node hk bd s s' h
    rw [emit_instr_for_node_eq] at h
    exact emit_body_reports node (fun x hx => ih x (by omega)) s bd s' h

/-- A lowering that fails has reported a user error or "No memory". -/
theorem emit_reports {s s' : Env} {node : Node} {bd : Option Nat}
    (h : emit_instr_for_node s node bd = (false, s')) :
    s'.error.is_user_or_no_memory = true :=
  emit_reports_aux node.size node (Nat.le_refl _) bd s s' h

/-- After a successful lowering of the root from an empty builder, every
forward reference of the builder points to a resolved cell. -/
theorem emit_root_promises_resolved {s s' : Env} {root : Node} (hs : s.code = [])
    (h : emit_instr_for_node s root none = (true, s')) :
    ∀ i ∈ s'.code, ∀ p, Operand.promise p ∈ i.ops →
      ∃ v, s'.cells[p]? = some (Promise.resolved v) := by
  have hext := emit_instr_for_node_sound s root none s' h
  obtain ⟨d, n, hc, hk, hr, hi⟩ := hext
  intro i hi' p hp
  rw [hc, hs, List.nil_append] at hi'
  rcases (hi i hi').1 p hp with ⟨a, b⟩ | a
  · obtain ⟨v, hv, -⟩ := (emit_instr_for_node_sound s root none s' h).cell_resolved a
      (by rw [hk, List.length_append]; exact b)
    exact ⟨v, hv⟩
  · simp [break_target] at a

/-- Once the builder exists, a `compile` that returns `NULL` has filled out
the error structure, with a user error or "No memory". -/
theorem compile_from_builder_reports {ast : AST} {exeb : Env} (hcode : exeb.code = [])
    {error' : Error}
    (h : (match emit_instr_for_node exeb ast.root none with
      | (false, exeb) => ((none : Option Executable), exeb.error)
      | (true, exeb) =>
        match ExeBuilder_Append exeb Opcode.OPCODE_RETURN [Operand.int 0]
          (Source_GetSize ast.src) 0 with
        | (false, exeb) => (none, exeb.error)
        | (true, exeb) =>
          match ExeBuilder_Finalize exeb with
          | (none, exeb) => (none, exeb.error)
          | (some exe, exeb) => (some (Executable_SetSource exe ast.src), exeb.error))
      = (none, error')) :
    error'.is_user_or_no_memory = true := by
  split at h
  · rename_i s1 h1
    cases h
    exact emit_reports h1
  · rename_i s1 h1
    split at h
    · rename_i s2 h2
      cases h
      exact append_reports h2
    · rename_i s2 h2
      have hres := emit_root_promises_resolved hcode h1
      obtain ⟨code, hfin⟩ : ∃ code, finalize_code s2.cells s2.code = some code := by
        apply finalize_code_of_resolved
        intro i hi p hp
        rw [append_code_eq h2] at hi
        rw [append_cells_eq h2]
        rcases List.mem_append.1 hi with hi | hi
        · exact hres i hi p hp
        · simp only [List.mem_singleton] at hi
          subst hi
          simp at hp
      unfold ExeBuilder_Finalize at h
      rw [hfin] at h
      cases hm : s2.mem with
      | zero =>
        rw [hm] at h
        simp only [fail, Error_Report, Prod.mk.injEq, true_and] at h
        rw [← h]
        rfl
      | succ m =>
        rw [hm] at h
        simp at h

/-- A `compile` that returns `NULL` has either filled out the error structure
with a user error or "No memory", or failed to create the arena or the builder
and left the error structure as it was. -/
theorem compile_null_error (ast : AST) (alloc : Option BPAlloc) (error error' : Error)
    (mem : Nat) (h : compile ast alloc error mem = (none, error')) :
    error'.is_user_or_no_memory = true ∨
      (error' = error ∧ mem < (match alloc with | some _ => 1 | none => 2)) := by
  unfold compile at h
  split at h
  · rename_i m halloc
    cases h
    refine Or.inr ⟨rfl, ?_⟩
    cases alloc with
    | some a => simp at halloc
    | none =>
      cases mem with
      | zero => simp
      | succ m => simp [BPAlloc_Init] at halloc
  · rename_i alloc2 mem2 halloc
    split at h
    · rename_i hnew
      cases h
      refine Or.inr ⟨rfl, ?_⟩
      cases alloc with
      | some a =>
        simp only [Prod.mk.injEq, Option.some.injEq] at halloc
        obtain ⟨-, rfl⟩ := halloc
        cases mem <;> simp_all [ExeBuilder_New]
      | none =>
        cases mem with
        | zero => simp
        | succ m =>
          simp only [BPAlloc_Init, Prod.mk.injEq, Option.some.injEq] at halloc
          obtain ⟨-, rfl⟩ := halloc
          cases m <;> simp_all [ExeBuilder_New]
    · rename_i exeb hnew
      have hcode : exeb.code = [] := by
        unfold ExeBuilder_New at hnew
        split at hnew
        · cases hnew
        · cases hnew; rfl
      exact Or.inl (compile_from_builder_reports hcode h)

/-- C13: `compile` at the failing inputs.  When the arena cannot be created
(no allocator supplied, no allocation succeeds), or the builder cannot be
created (the arena takes the only allocation, or an allocator is supplied and
no allocation succeeds), `compile` returns `NULL` and the error structure is
still unset: no "No memory" error is reported. -/
theorem compile_null_leaves_error_unset (ast : AST) :
    compile ast none Error.unset 0 = (none, Error.unset) ∧
    compile ast none Error.unset 1 = (none, Error.unset) ∧
    ∀ alloc, compile ast (some alloc) Error.unset 0 = (none, Error.unset) :=
  ⟨rfl, rfl, fun _ => rfl⟩

/-- Whenever lowering of the root fails, `compile` returns `NULL`, with the
error that lowering reported. -/
theorem compile_null_of_emit_fails (ast : AST) (alloc : BPAlloc) (error : Error) (mem : Nat)
    (s' : Env)
    (h : emit_instr_for_node ⟨[], alloc.cells, mem, error⟩ ast.root none = (false, s')) :
    compile ast (some alloc) error (mem + 1) = (none, s'.error) ∧
      s'.error.is_user_or_no_memory = true := by
  refine ⟨?_, emit_reports h⟩
  simp only [compile, ExeBuilder_New, h]

theorem compile_appends_return_witness :
    ∃ exe, compile ⟨example_while, ⟨29⟩⟩ none Error.unset 64 = (some exe, Error.unset) ∧
      exe.code.length = 7 ∧
      exe.code.getLast? = some ⟨Opcode.OPCODE_RETURN, [Operand.int 0], 29, 0⟩ ∧
      ∃ exeb s1 code, exeb.code = [] ∧
        emit_instr_for_node exeb example_while none = (true, s1) ∧
        List.Forall₂ (Finalized s1.cells) s1.code code ∧
        exe.code = code ++ [⟨Opcode.OPCODE_RETURN, [Operand.int 0], 29, 0⟩] ∧
        exe.code.length = s1.code.length + 1 ∧
        exe.code.getLast? = some ⟨Opcode.OPCODE_RETURN, [Operand.int 0], 29, 0⟩ :=
  ⟨_, rfl, rfl, rfl,
    compile_appends_return ⟨example_while, ⟨29⟩⟩ none Error.unset Error.unset 64 _ rfl⟩

/-! ## C18, C19, C20: if/else, while and do-while -/

theorem cell_lt_of_get {cells : List Promise} {p : Nat} {x : Promise}
    (h : cells[p]? = some x) : p < cells.length := by
  by_contra hn
  rw [List.getElem?_eq_none (by omega)] at h
  cases h

theorem Promise_New_two_get {s a1 a2 : Env} {p q : Nat} (hn1 : Promise_New s = (some p, a1))
    (hn2 : Promise_New a1 = (some q, a2)) :
    a2.cells[s.cells.length]? = some Promise.pending ∧
      a2.cells[s.cells.length + 1]? = some Promise.pending ∧ a2.code = s.code := by
  obtain ⟨-, hc1, hk1, -⟩ := Promise_New_eq_some hn1
  obtain ⟨-, hc2, hk2, -⟩ := Promise_New_eq_some hn2
  rw [hk2, hk1, hc2, hc1]
  refine ⟨?_, ?_, rfl⟩
  · rw [List.append_assoc, List.getElem?_append_right (le_refl _)]
    simp
  · rw [List.append_assoc, List.getElem?_append_right (by omega)]
    simp

theorem getElem?_last_of_append {α : Type} (y x : List α) (j : α) :
    ((y ++ [j]) ++ x)[(y ++ [j]).length - 1]? = some j := by
  rw [List.getElem?_append_left (by simp)]
  simp

/-- C18: when an if statement with an else branch lowers successfully, the
condition `c`, the true branch `t` and the false branch `f` were lowered in
this order, and the instructions emitted are exactly those of `c`, one
`JUMPIFNOTANDPOP E`, those of `t`, `POP 1` only if `t` is an expression node,
one `JUMP D`, those of `f`, and `POP 1` only if `f` is an expression node; the
cell `E` is resolved to the index of the first instruction after the `JUMP D`,
where the lowering of `f` starts, and the cell `D` to the index immediately
after the whole statement. -/
theorem if_else_layout (s s' : Env) (bd : Option Nat) (offset length : Int) (c t f : Node)
    (h : emit_instr_for_node s (Node.ifelse offset length c t (some f)) bd = (true, s')) :
    ∃ s1 s2 s3 sf sf', emit_instr_for_node s c bd = (true, s1) ∧
      s2.code = s1.code ++
        [⟨Opcode.OPCODE_JUMPIFNOTANDPOP, [Operand.promise s1.cells.length], offset, length⟩] ∧
      emit_instr_for_node s2 t bd = (true, s3) ∧
      emit_instr_for_node sf f bd = (true, sf') ∧
      sf.code = s3.code ++
        (if t.kind = NodeKind.NODE_EXPR then
          [⟨Opcode.OPCODE_POP, [Operand.int 1], t.offset, 0⟩] else []) ++
        [⟨Opcode.OPCODE_JUMP, [Operand.promise (s1.cells.length + 1)], offset, length⟩] ∧
      emitted s s' = emitted s s1 ++
        [⟨Opcode.OPCODE_JUMPIFNOTANDPOP, [Operand.promise s1.cells.length], offset, length⟩] ++
        emitted s2 s3 ++
        (if t.kind = NodeKind.NODE_EXPR then
          [⟨Opcode.OPCODE_POP, [Operand.int 1], t.offset, 0⟩] else []) ++
        [⟨Opcode.OPCODE_JUMP, [Operand.promise (s1.cells.length + 1)], offset, length⟩] ++
        emitted sf sf' ++
        (if f.kind = NodeKind.NODE_EXPR then
          [⟨Opcode.OPCODE_POP, [Operand.int 1], f.offset, 0⟩] else []) ∧
      s'.code = s.code ++ emitted s s' ∧
      s'.cells[s1.cells.length]? = some (Promise.resolved sf.code.length) ∧
      s'.code[sf.code.length - 1]? =
        some ⟨Opcode.OPCODE_JUMP, [Operand.promise (s1.cells.length + 1)], offset, length⟩ ∧
      s'.cells[s1.cells.length + 1]? = some (Promise.resolved s'.code.length) := by
  obtain ⟨s1, a1, a2, s2, s3, s4, s5, s7, s8, h1, hn1, hn2, h2, h3, h4, h5, h7, h8, rfl⟩ :=
    emit_ifelse_inv h
  obtain ⟨hpE, hpD, hac⟩ := Promise_New_two_get hn1 hn2
  obtain ⟨hc4, hk4⟩ := pop_if_expr_eq h4
  obtain ⟨hc8, hk8⟩ := pop_if_expr_eq h8
  have hE2 : s2.cells[s1.cells.length]? = some Promise.pending := by
    rw [append_cells_eq h2]; exact hpE
  have hD2 : s2.cells[s1.cells.length + 1]? = some Promise.pending := by
    rw [append_cells_eq h2]; exact hpD
  have hE5 : s5.cells[s1.cells.length]? = some Promise.pending := by
    rw [append_cells_eq h5, hk4, emit_cell_old h3 (cell_lt_of_get hE2)]; exact hE2
  have hD5 : s5.cells[s1.cells.length + 1]? = some Promise.pending := by
    rw [append_cells_eq h5, hk4, emit_cell_old h3 (cell_lt_of_get hD2)]; exact hD2
  have hc2 : s2.code = s1.code ++
      [⟨Opcode.OPCODE_JUMPIFNOTANDPOP, [Operand.promise s1.cells.length], offset, length⟩] := by
    rw [append_code_eq h2, hac]
  have hc5 : s5.code = s3.code ++
      (if t.kind = NodeKind.NODE_EXPR then
        [⟨Opcode.OPCODE_POP, [Operand.int 1], t.offset, 0⟩] else []) ++
      [⟨Opcode.OPCODE_JUMP, [Operand.promise (s1.cells.length + 1)], offset, length⟩] := by
    rw [append_code_eq h5, hc4]
  have hEf : (Promise_Resolve s5 s1.cells.length (ExeBuilder_InstrCount s5)).cells[
      s1.cells.length]? = some (Promise.resolved s5.code.length) := by
    rw [resolve_get_eq, hE5]; rfl
  have hDf : (Promise_Resolve s5 s1.cells.length (ExeBuilder_InstrCount s5)).cells[
      s1.cells.length + 1]? = some Promise.pending := by
    rw [resolve_get_ne _ _ (by omega)]; exact hD5
  have hcode : (Promise_Resolve s8 (s1.cells.length + 1) (ExeBuilder_InstrCount s8)).code =
      s.code ++ (emitted s s1 ++
        [⟨Opcode.OPCODE_JUMPIFNOTANDPOP, [Operand.promise s1.cells.length], offset, length⟩] ++
        emitted s2 s3 ++
        (if t.kind = NodeKind.NODE_EXPR then
          [⟨Opcode.OPCODE_POP, [Operand.int 1], t.offset, 0⟩] else []) ++
        [⟨Opcode.OPCODE_JUMP, [Operand.promise (s1.cells.length + 1)], offset, length⟩] ++
        emitted (Promise_Resolve s5 s1.cells.length (ExeBuilder_InstrCount s5)) s7 ++
        (if f.kind = NodeKind.NODE_EXPR then
          [⟨Opcode.OPCODE_POP, [Operand.int 1], f.offset, 0⟩] else [])) := by
    show s8.code = _
    rw [hc8, emit_code_eq h7]
    show (s5.code ++ _) ++ _ = _
    rw [hc5, emit_code_eq h3, hc2, emit_code_eq h1]
    simp
  have hem := emitted_of_code_eq hcode
  refine ⟨s1, s2, s3, _, s7, h1, hc2, h3, h7, hc5, hem, by rw [hem]; exact hcode, ?_, ?_, ?_⟩
  · rw [resolve_get_ne _ _ (by omega), hk8, emit_cell_old h7 (cell_lt_of_get hEf)]
    exact hEf
  · show s8.code[s5.code.length - 1]? = _
    have e8 : s8.code = s5.code ++ (emitted (Promise_Resolve s5 s1.cells.length
        (ExeBuilder_InstrCount s5)) s7 ++ (if f.kind = NodeKind.NODE_EXPR then
          [⟨Opcode.OPCODE_POP, [Operand.int 1], f.offset, 0⟩] else [])) := by
      rw [hc8, emit_code_eq h7, List.append_assoc]
      rfl
    rw [e8, hc5]
    exact getElem?_last_of_append _ _ _
  · rw [resolve_get_eq, hk8, emit_cell_old h7 (cell_lt_of_get hDf), hDf]
    rfl

theorem if_else_layout_witness :
    ∃ s', emit_instr_for_node example_env example_ifelse none = (true, s') ∧
      s'.code = [⟨Opcode.OPCODE_PUSHVAR, [Operand.string "x"], 4, 1⟩,
        ⟨Opcode.OPCODE_JUMPIFNOTANDPOP, [Operand.promise 0], 0, 21⟩,
        ⟨Opcode.OPCODE_PUSHINT, [Operand.int 1], 7, 1⟩,
        ⟨Opcode.OPCODE_POP, [Operand.int 1], 7, 0⟩,
        ⟨Opcode.OPCODE_JUMP, [Operand.promise 1], 0, 21⟩,
        ⟨Opcode.OPCODE_PUSHVAR, [Operand.string "y"], 17, 1⟩,
        ⟨Opcode.OPCODE_POP, [Operand.int 1], 17, 0⟩] ∧
      s'.cells = [Promise.resolved 5, Promise.resolved 7] ∧
      ∃ s1 s2 s3 sf sf', emit_instr_for_node example_env (Node.ident 4 1 "x") none = (true, s1) ∧
        s2.code = s1.code ++
          [⟨Opcode.OPCODE_JUMPIFNOTANDPOP, [Operand.promise s1.cells.length], 0, 21⟩] ∧
        emit_instr_for_node s2 (Node.int 7 1 1) none = (true, s3) ∧
        emit_instr_for_node sf (Node.comp 15 6 [Node.ident 17 1 "y"]) none = (true, sf') ∧
        sf.code = s3.code ++
          (if (Node.int 7 1 1).kind = NodeKind.NODE_EXPR then
            [⟨Opcode.OPCODE_POP, [Operand.int 1], (Node.int 7 1 1).offset, 0⟩] else []) ++
          [⟨Opcode.OPCODE_JUMP, [Operand.promise (s1.cells.length + 1)], 0, 21⟩] ∧
        emitted example_env s' = emitted example_env s1 ++
          [⟨Opcode.OPCODE_JUMPIFNOTANDPOP, [Operand.promise s1.cells.length], 0, 21⟩] ++
          emitted s2 s3 ++
          (if (Node.int 7 1 1).kind = NodeKind.NODE_EXPR then
            [⟨Opcode.OPCODE_POP, [Operand.int 1], (Node.int 7 1 1).offset, 0⟩] else []) ++
          [⟨Opcode.OPCODE_JUMP, [Operand.promise (s1.cells.length + 1)], 0, 21⟩] ++
          emitted sf sf' ++
          (if (Node.comp 15 6 [Node.ident 17 1 "y"]).kind = NodeKind.NODE_EXPR then
            [⟨Opcode.OPCODE_POP, [Operand.int 1], (Node.comp 15 6 [Node.ident 17 1 "y"]).offset, 0⟩]
            else []) ∧
        s'.code = example_env.code ++ emitted example_env s' ∧
        s'.cells[s1.cells.length]? = some (Promise.resolved sf.code.length) ∧
        s'.code[sf.code.length - 1]? =
          some ⟨Opcode.OPCODE_JUMP, [Operand.promise (s1.cells.length + 1)], 0, 21⟩ ∧
        s'.cells[s1.cells.length + 1]? = some (Promise.resolved s'.code.length) :=
  ⟨_, rfl, rfl, rfl, if_else_layout example_env _ none 0 21 (Node.ident 4 1 "x")
    (Node.int 7 1 1) (Node.comp 15 6 [Node.ident 17 1 "y"]) rfl⟩

/-- C19: when a while loop lowers successfully from a builder of `p`
instructions, the instructions emitted are exactly those of the condition
(lowered first, from position `p`, with the enclosing loop-exit cell), one
`JUMPIFNOTANDPOP end`, those of the body (lowered with the cell `end` as
loop-exit cell), `POP 1` only if the body is an expression node, and one
`JUMP start`; the cell `start` is resolved to `p` and the cell `end` to the
index immediately after the `JUMP start`. -/
theorem while_layout (s s' : Env) (bd : Option Nat) (offset length : Int) (c b : Node)
    (h : emit_instr_for_node s (Node.while offset length c b) bd = (true, s')) :
    ∃ sc s1 s2 s3, sc.code = s.code ∧
      emit_instr_for_node sc c bd = (true, s1) ∧
      s2.code = s1.code ++
        [⟨Opcode.OPCODE_JUMPIFNOTANDPOP, [Operand.promise (s.cells.length + 1)],
          c.offset, c.length⟩] ∧
      emit_instr_for_node s2 b (some (s.cells.length + 1)) = (true, s3) ∧
      emitted s s' = emitted sc s1 ++
        [⟨Opcode.OPCODE_JUMPIFNOTANDPOP, [Operand.promise (s.cells.length + 1)],
          c.offset, c.length⟩] ++
        emitted s2 s3 ++
        (if b.kind = NodeKind.NODE_EXPR then
          [⟨Opcode.OPCODE_POP, [Operand.int 1], b.offset, 0⟩] else []) ++
        [⟨Opcode.OPCODE_JUMP, [Operand.promise s.cells.length], offset, length⟩] ∧
      s'.code = s.code ++ emitted s s' ∧
      s'.cells[s.cells.length]? = some (Promise.resolved s.code.length) ∧
      s'.cells[s.cells.length + 1]? = some (Promise.resolved s'.code.length) ∧
      s'.code[s'.code.length - 1]? =
        some ⟨Opcode.OPCODE_JUMP, [Operand.promise s.cells.length], offset, length⟩ := by
  obtain ⟨a1, a2, s1, s2, s3, s4, s5, hn1, hn2, h1, h2, h3, h4, h5, rfl⟩ := emit_while_inv h
  obtain ⟨hpS, hpE, hac⟩ := Promise_New_two_get hn1 hn2
  obtain ⟨hc4, hk4⟩ := pop_if_expr_eq h4
  have hSc : (Promise_Resolve a2 s.cells.length (ExeBuilder_InstrCount a2)).cells[
      s.cells.length]? = some (Promise.resolved s.code.length) := by
    rw [resolve_get_eq, hpS]
    show some (Promise.resolved (a2.code.length : Int)) = _
    rw [hac]
  have hEc : (Promise_Resolve a2 s.cells.length (ExeBuilder_InstrCount a2)).cells[
      s.cells.length + 1]? = some Promise.pending := by
    rw [resolve_get_ne _ _ (by omega)]; exact hpE
  have hS2 : s2.cells[s.cells.length]? = some (Promise.resolved s.code.length) := by
    rw [append_cells_eq h2, emit_cell_old h1 (cell_lt_of_get hSc)]; exact hSc
  have hE2 : s2.cells[s.cells.length + 1]? = some Promise.pending := by
    rw [append_cells_eq h2, emit_cell_old h1 (cell_lt_of_get hEc)]; exact hEc
  have hS5 : s5.cells[s.cells.length]? = some (Promise.resolved s.code.length) := by
    rw [append_cells_eq h5, hk4, emit_cell_old h3 (cell_lt_of_get hS2)]; exact hS2
  have hE5 : s5.cells[s.cells.length + 1]? = some Promise.pending := by
    rw [append_cells_eq h5, hk4, emit_cell_old h3 (cell_lt_of_get hE2)]; exact hE2
  have hcs : (Promise_Resolve a2 s.cells.length (ExeBuilder_InstrCount a2)).code = s.code := hac
  have hcode : (Promise_Resolve s5 (s.cells.length + 1) (ExeBuilder_InstrCount s5)).code =
      s.code ++ (emitted (Promise_Resolve a2 s.cells.length (ExeBuilder_InstrCount a2)) s1 ++
        [⟨Opcode.OPCODE_JUMPIFNOTANDPOP, [Operand.promise (s.cells.length + 1)],
          c.offset, c.length⟩] ++
        emitted s2 s3 ++
        (if b.kind = NodeKind.NODE_EXPR then
          [⟨Opcode.OPCODE_POP, [Operand.int 1], b.offset, 0⟩] else []) ++
        [⟨Opcode.OPCODE_JUMP, [Operand.promise s.cells.length], offset, length⟩]) := by
    show s5.code = _
    rw [append_code_eq h5, hc4, emit_code_eq h3, append_code_eq h2, emit_code_eq h1, hcs]
    simp
  have hem := emitted_of_code_eq hcode
  refine ⟨_, s1, s2, s3, hcs, h1, append_code_eq h2, h3, hem, by rw [hem]; exact hcode,
    ?_, ?_, ?_⟩
  · rw [resolve_get_ne _ _ (by omega)]; exact hS5
  · rw [resolve_get_eq, hE5]; rfl
  · show s5.code[s5.code.length - 1]? = _
    rw [append_code_eq h5]
    simp

theorem while_layout_witness :
    ∃ s', emit_instr_for_node example_env example_while none = (true, s') ∧
      s'.code.length = 6 ∧
      s'.cells = [Promise.resolved 0, Promise.resolved 6, Promise.resolved 5] ∧
      ∃ sc s1 s2 s3, sc.code = example_env.code ∧
        emit_instr_for_node sc (Node.true 7 4) none = (true, s1) ∧
        s2.code = s1.code ++
          [⟨Opcode.OPCODE_JUMPIFNOTANDPOP, [Operand.promise (example_env.cells.length + 1)],
            (Node.true 7 4).offset, (Node.true 7 4).length⟩] ∧
        emit_instr_for_node s2
          (Node.comp 13 16 [Node.ifelse 15 13 (Node.ident 19 1 "x") (Node.brk 22 5) none])
          (some (example_env.cells.length + 1)) = (true, s3) ∧
        emitted example_env s' = emitted sc s1 ++
          [⟨Opcode.OPCODE_JUMPIFNOTANDPOP, [Operand.promise (example_env.cells.length + 1)],
            (Node.true 7 4).offset, (Node.true 7 4).length⟩] ++
          emitted s2 s3 ++
          (if (Node.comp 13 16
              [Node.ifelse 15 13 (Node.ident 19 1 "x") (Node.brk 22 5) none]).kind =
              NodeKind.NODE_EXPR then
            [⟨Opcode.OPCODE_POP, [Operand.int 1], (Node.comp 13 16
              [Node.ifelse 15 13 (Node.ident 19 1 "x") (Node.brk 22 5) none]).offset, 0⟩]
            else []) ++
          [⟨Opcode.OPCODE_JUMP, [Operand.promise example_env.cells.length], 0, 29⟩] ∧
        s'.code = example_env.code ++ emitted example_env s' ∧
        s'.cells[example_env.cells.length]? =
          some (Promise.resolved example_env.code.length) ∧
        s'.cells[example_env.cells.length + 1]? = some (Promise.resolved s'.code.length) ∧
        s'.code[s'.code.length - 1]? =
          some ⟨Opcode.OPCODE_JUMP, [Operand.promise example_env.cells.length], 0, 29⟩ :=
  ⟨_, rfl, rfl, rfl, while_layout example_env _ none 0 29 (Node.true 7 4)
    (Node.comp 13 16 [Node.ifelse 15 13 (Node.ident 19 1 "x") (Node.brk 22 5) none]) rfl⟩

/-- C20: when a do-while loop lowers successfully from a builder of `p`
instructions, the instructions emitted are exactly those of the body (lowered
first, with a fresh cell `end` as loop-exit cell), `POP 1` only if the body is
an expression node, those of the condition (lowered with the enclosing
loop-exit cell), and one `JUMPIFANDPOP` whose operand is the literal integer
`p`, not a forward reference; the cell `end` is resolved to the index
immediately after the `JUMPIFANDPOP`. -/
theorem dowhile_layout (s s' : Env) (bd : Option Nat) (offset length : Int) (b c : Node)
    (h : emit_instr_for_node s (Node.dowhile offset length b c) bd = (true, s')) :
    ∃ a s1 s2 s3, Promise_New s = (some s.cells.length, a) ∧
      emit_instr_for_node a b (some s.cells.length) = (true, s1) ∧
      s2.code = s1.code ++
        (if b.kind = NodeKind.NODE_EXPR then
          [⟨Opcode.OPCODE_POP, [Operand.int 1], b.offset, 0⟩] else []) ∧
      emit_instr_for_node s2 c bd = (true, s3) ∧
      emitted s s' = emitted a s1 ++
        (if b.kind = NodeKind.NODE_EXPR then
          [⟨Opcode.OPCODE_POP, [Operand.int 1], b.offset, 0⟩] else []) ++
        emitted s2 s3 ++
        [⟨Opcode.OPCODE_JUMPIFANDPOP, [Operand.int s.code.length], c.offset, c.length⟩] ∧
      s'.code = s.code ++ emitted s s' ∧
      s'.cells[s.cells.length]? = some (Promise.resolved s'.code.length) ∧
      s'.code[s'.code.length - 1]? =
        some ⟨Opcode.OPCODE_JUMPIFANDPOP, [Operand.int s.code.length], c.offset, c.length⟩ := by
  obtain ⟨a, s1, s2, s3, s4, hn, h1, h2, h3, h4, rfl⟩ := emit_dowhile_inv h
  obtain ⟨hap, hal, hac⟩ := Promise_New_get hn
  obtain ⟨hc2, hk2⟩ := pop_if_expr_eq h2
  have hcount : ExeBuilder_InstrCount a = (s.code.length : Int) := by
    show (a.code.length : Int) = _
    rw [hac]
  rw [hcount] at h4
  have hE2 : s2.cells[s.cells.length]? = some Promise.pending := by
    rw [hk2, emit_cell_old h1 (cell_lt_of_get hap)]; exact hap
  have hE4 : s4.cells[s.cells.length]? = some Promise.pending := by
    rw [append_cells_eq h4, emit_cell_old h3 (cell_lt_of_get hE2)]; exact hE2
  have hcode : (Promise_Resolve s4 s.cells.length (ExeBuilder_InstrCount s4)).code =
      s.code ++ (emitted a s1 ++
        (if b.kind = NodeKind.NODE_EXPR then
          [⟨Opcode.OPCODE_POP, [Operand.int 1], b.offset, 0⟩] else []) ++
        emitted s2 s3 ++
        [⟨Opcode.OPCODE_JUMPIFANDPOP, [Operand.int s.code.length], c.offset, c.length⟩]) := by
    show s4.code = _
    rw [append_code_eq h4, emit_code_eq h3, hc2, emit_code_eq h1, hac]
    simp
  have hem := emitted_of_code_eq hcode
  refine ⟨a, s1, s2, s3, hn, h1, hc2, h3, hem, by rw [hem]; exact hcode, ?_, ?_⟩
  · rw [resolve_get_eq, hE4]; rfl
  · show s4.code[s4.code.length - 1]? = _
    rw [append_code_eq h4]
    simp

theorem dowhile_layout_witness :
    ∃ s', emit_instr_for_node example_env example_dowhile none = (true, s') ∧
      s'.code.length = 5 ∧
      s'.cells = [Promise.resolved 5, Promise.resolved 3] ∧
      ∃ a s1 s2 s3, Promise_New example_env = (some example_env.cells.length, a) ∧
        emit_instr_for_node a
          (Node.comp 3 16 [Node.ifelse 5 13 (Node.ident 9 1 "x") (Node.brk 12 5) none])
          (some example_env.cells.length) = (true, s1) ∧
        s2.code = s1.code ++
          (if (Node.comp 3 16
              [Node.ifelse 5 13 (Node.ident 9 1 "x") (Node.brk 12 5) none]).kind =
              NodeKind.NODE_EXPR then
            [⟨Opcode.OPCODE_POP, [Operand.int 1], (Node.comp 3 16
              [Node.ifelse 5 13 (Node.ident 9 1 "x") (Node.brk 12 5) none]).offset, 0⟩]
            else []) ∧
        emit_instr_for_node s2 (Node.true 27 4) none = (true, s3) ∧
        emitted example_env s' = emitted a s1 ++
          (if (Node.comp 3 16
              [Node.ifelse 5 13 (Node.ident 9 1 "x") (Node.brk 12 5) none]).kind =
              NodeKind.NODE_EXPR then
            [⟨Opcode.OPCODE_POP, [Operand.int 1], (Node.comp 3 16
              [Node.ifelse 5 13 (Node.ident 9 1 "x") (Node.brk 12 5) none]).offset, 0⟩]
            else []) ++
          emitted s2 s3 ++
          [⟨Opcode.OPCODE_JUMPIFANDPOP, [Operand.int example_env.code.length],
            (Node.true 27 4).offset, (Node.true 27 4).length⟩] ∧
        s'.code = example_env.code ++ emitted example_env s' ∧
        s'.cells[example_env.cells.length]? = some (Promise.resolved s'.code.length) ∧
        s'.code[s'.code.length - 1]? =
          some ⟨Opcode.OPCODE_JUMPIFANDPOP, [Operand.int example_env.code.length],
            (Node.true 27 4).offset, (Node.true 27 4).length⟩ :=
  ⟨_, rfl, rfl, rfl, dowhile_layout example_env _ none 0 34
    (Node.comp 3 16 [Node.ifelse 5 13 (Node.ident 9 1 "x") (Node.brk 12 5) none])
    (Node.true 27 4) rfl⟩

/-! ## The value stack -/

theorem readonly_iff_odd (s : Nat) : Stack_IsReadOnlyCopy s = true ↔ s % 2 = 1 := by
  unfold Stack_IsReadOnlyCopy
  rw [Nat.and_one_is_mod]
  have := Nat.mod_two_eq_zero_or_one s
  rcases this with h | h <;> simp [h]

theorem testBit_unmark (s i : Nat) :
    (unmark s).testBit i = (s.testBit i && (decide (i < 64) && !decide (i = 0))) := by
  unfold unmark
  rw [Nat.testBit_and]
  have h2 : (2 ^ 64 - 2 : Nat) = 2 ^ 64 - (1 + 1) := rfl
  rw [h2, Nat.testBit_two_pow_sub_succ (by norm_num)]
  congr 2
  cases i with
  | zero => simp
  | succ j => simp [Nat.testBit_succ]

theorem unmark_of_not_readonly {s : Nat} (hs : s < 2 ^ 64)
    (h : Stack_IsReadOnlyCopy s = false) : unmark s = s := by
  have hodd : ¬ s % 2 = 1 := fun e => by
    rw [(readonly_iff_odd s).2 e] at h; cases h
  apply Nat.eq_of_testBit_eq
  intro i
  rw [testBit_unmark]
  cases i with
  | zero =>
    have : s.testBit 0 = false := by
      rw [Nat.testBit_zero]; simp; omega
    simp [this]
  | succ j =>
    by_cases hj : j + 1 < 64
    · simp [hj]
    · have : s.testBit (j + 1) = false :=
        Nat.testBit_eq_false_of_lt (lt_of_lt_of_le hs (Nat.pow_le_pow_right (by norm_num) (by omega)))
      simp [this]

theorem unmark_mark (s : Nat) : unmark (s ||| 1) = unmark s := by
  apply Nat.eq_of_testBit_eq
  intro i
  rw [testBit_unmark, testBit_unmark, Nat.testBit_or]
  cases i with
  | zero => simp
  | succ j => simp [Nat.testBit_succ]

theorem readonly_mark (s : Nat) : Stack_IsReadOnlyCopy (s ||| 1) = true := by
  rw [readonly_iff_odd]
  simp

theorem unmark_unmark (s : Nat) : unmark (unmark s) = unmark s := by
  apply Nat.eq_of_testBit_eq
  intro i
  rw [testBit_unmark, testBit_unmark]
  cases s.testBit i <;> simp

theorem unmark_lt (s : Nat) : unmark s < 2 ^ 64 := by
  unfold unmark
  exact lt_of_le_of_lt Nat.and_le_right (by norm_num)

theorem not_readonly_unmark (s : Nat) : Stack_IsReadOnlyCopy (unmark s) = false := by
  cases h : Stack_IsReadOnlyCopy (unmark s) with
  | false => rfl
  | true =>
    rw [readonly_iff_odd] at h
    have : (unmark s).testBit 0 = true := by
      rw [Nat.testBit_zero]; simpa using h
    rw [testBit_unmark] at this
    simp at this

theorem Stack_Top_eq {heap : Heap} {s : Nat} {n : Int} {obj : xStack} (hn0 : n ≤ 0)
    (hn : -2 ^ 31 ≤ n) (hobj : heap (unmark s) = some obj) (hv : obj.Valid) :
    Stack_Top heap s n =
      some (if obj.used ≤ (-n).toNat then 0 else obj.body.getD (obj.used - 1 - (-n).toNat) 0,
        heap) := by
  obtain ⟨hsize, hused, hlen, -, -, -⟩ := hv
  unfold Stack_Top
  rw [if_neg (by simpa using hn0), hobj]
  simp only
  by_cases h0 : obj.used = 0
  · rw [if_pos h0, if_pos (by omega)]
  · rw [if_neg h0]
    have hti : to_int obj.used = (obj.used : Int) := by
      unfold to_int
      rw [if_pos (by omega)]
      congr 1
      omega
    have hc1 : checked_int (to_int obj.used + n) = some ((obj.used : Int) + n) := by
      unfold checked_int
      rw [hti, if_pos (by omega)]
    have hc2 : checked_int ((obj.used : Int) + n - 1) = some ((obj.used : Int) + n - 1) := by
      unfold checked_int
      rw [if_pos (by omega)]
    rw [hc1]
    simp only [Option.some_bind, hc2]
    by_cases hneg : (obj.used : Int) + n - 1 < 0
    · rw [if_pos hneg, if_pos (by omega)]
    · rw [if_neg hneg, if_neg (by omega)]
      have hidx : to_unsigned ((to_unsigned ((obj.used : Int) + n) : Int) - 1) =
          obj.used - 1 - (-n).toNat := by
        unfold to_unsigned
        omega
      rw [hidx]
      have hlt : obj.used - 1 - (-n).toNat < obj.body.length := by omega
      rw [List.getElem?_eq_getElem hlt, List.getD_eq_getElem _ _ hlt]

theorem Stack_Push_eq {heap : Heap} {s item : Nat} {obj : xStack} (hs : s ≠ 0)
    (hlt : s < 2 ^ 64) (hitem : item ≠ 0) (hobj : heap (unmark s) = some obj)
    (hv : obj.Valid) :
    Stack_Push heap s item =
      if Stack_IsReadOnlyCopy s = false ∧ obj.used < obj.size then
        some (true, Function.update heap s
          (some { obj with body := obj.body.set obj.used item, used := obj.used + 1 }))
      else
        some (false, heap) := by
  obtain ⟨hsize, hused, hlen, -, -, -⟩ := hv
  unfold Stack_Push
  rw [if_neg hs, if_neg hitem]
  cases hro : Stack_IsReadOnlyCopy s with
  | true => simp
  | false =>
    rw [unmark_of_not_readonly hlt hro] at hobj
    rw [hobj]
    simp only [Bool.false_eq_true, if_false, true_and]
    by_cases hfull : obj.used = obj.size
    · rw [if_pos hfull, if_neg (by omega)]
    · rw [if_neg hfull, if_pos (by omega), if_pos (by omega)]
      have : to_unsigned ((obj.used : Int) + 1) = obj.used + 1 := by
        unfold to_unsigned
        omega
      rw [this]

theorem Stack_Pop_eq {heap : Heap} {s n : Nat} {obj : xStack} (hlt : s < 2 ^ 64)
    (hobj : heap (unmark s) = some obj) (hv : obj.Valid) :
    Stack_Pop heap s n =
      if Stack_IsReadOnlyCopy s = false ∧ n ≤ obj.used then
        some (true, Function.update heap s (some { obj with used := obj.used - n }))
      else
        some (false, heap) := by
  obtain ⟨hsize, hused, hlen, -, -, -⟩ := hv
  unfold Stack_Pop
  cases hro : Stack_IsReadOnlyCopy s with
  | true => simp
  | false =>
    rw [unmark_of_not_readonly hlt hro] at hobj
    rw [hobj]
    simp only [Bool.false_eq_true, if_false, true_and]
    by_cases hfew : obj.used < n
    · rw [if_pos hfew, if_neg (by omega)]
    · rw [if_neg hfew, if_pos (by omega)]
      have : to_unsigned ((obj.used : Int) - (n : Int)) = obj.used - n := by
        unfold to_unsigned
        omega
      rw [this]

theorem Stack_Copy_eq {heap : Heap} {s : Nat} {readonly : Bool} {obj : xStack}
    (hlt : s < 2 ^ 64) (hobj : heap (unmark s) = some obj) (hrefs : obj.refs < 2 ^ 31 - 1)
    (hv : obj.Valid) :
    Stack_Copy heap s readonly =
      some (if readonly = true ∨ Stack_IsReadOnlyCopy s = true then unmark s ||| 1 else unmark s,
        Function.update heap (unmark s) (some { obj with refs := obj.refs + 1 })) := by
  obtain ⟨-, -, -, -, hpos, -⟩ := hv
  have hc : checked_int (obj.refs + 1) = some (obj.refs + 1) := by
    unfold checked_int
    rw [if_pos (by omega)]
  unfold Stack_Copy
  cases hro : Stack_IsReadOnlyCopy s with
  | true =>
    simp only [if_true, hobj, hc, or_true]
  | false =>
    have hu := unmark_of_not_readonly hlt hro
    rw [hu] at hobj
    simp only [Bool.false_eq_true, if_false, hobj, hc, hu, or_false]
theorem take_set_succ (l : List Nat) (a : Nat) :
    ∀ k, k < l.length → (l.set k a).take (k + 1) = l.take k ++ [a] := by
  induction l with
  | nil => intro k h; simp at h
  | cons x xs ih =>
    intro k h
    cases k with
    | zero => simp
    | succ j =>
      simp only [List.length_cons, Nat.add_lt_add_iff_right] at h
      simp [ih j h]

/-- The object after a successful push is valid and holds one item more. -/
theorem pushed_valid {obj : xStack} {item : Nat} (hv : obj.Valid) (hroom : obj.used < obj.size)
    (hitem : item ≠ 0) :
    ({ obj with body := obj.body.set obj.used item, used := obj.used + 1 } : xStack).Valid ∧
      ({ obj with body := obj.body.set obj.used item, used := obj.used + 1 } : xStack).items =
        obj.items ++ [item] := by
  obtain ⟨hsize, hused, hlen, hitems, hpos, hrefs⟩ := hv
  have hi : ({ obj with body := obj.body.set obj.used item, used := obj.used + 1 } :
      xStack).items = obj.items ++ [item] := by
    show (obj.body.set obj.used item).take (obj.used + 1) = obj.body.take obj.used ++ [item]
    exact take_set_succ _ _ _ (by omega)
  refine ⟨⟨hsize, ?_, ?_, ?_, hpos, hrefs⟩, hi⟩
  · show obj.used + 1 ≤ obj.size
    omega
  · show (obj.body.set obj.used item).length = obj.size
    rw [List.length_set]
    exact hlen
  · rw [hi]
    intro x hx
    rcases List.mem_append.1 hx with hx | hx
    · exact hitems x hx
    · simp only [List.mem_singleton] at hx
      rw [hx]
      exact hitem

/-- The object after a successful pop is valid and holds the items below. -/
theorem popped_valid {obj : xStack} {n : Nat} (hv : obj.Valid) :
    ({ obj with used := obj.used - n } : xStack).Valid ∧
      ({ obj with used := obj.used - n } : xStack).items = obj.items.take (obj.used - n) := by
  obtain ⟨hsize, hused, hlen, hitems, hpos, hrefs⟩ := hv
  have hi : ({ obj with used := obj.used - n } : xStack).items =
      obj.items.take (obj.used - n) := by
    show obj.body.take (obj.used - n) = (obj.body.take obj.used).take (obj.used - n)
    rw [List.take_take, Nat.min_eq_left (Nat.sub_le _ _)]
  refine ⟨⟨hsize, ?_, hlen, ?_, hpos, hrefs⟩, hi⟩
  · show obj.used - n ≤ obj.size
    omega
  · rw [hi]
    intro x hx
    exact hitems x (List.mem_of_mem_take hx)

/-- `Stack_New` returns `NULL` when `malloc` does, and otherwise creates a
valid empty stack of the requested capacity, 1024 for a negative request. -/
theorem Stack_New_valid (heap : Heap) (size : Int) (block : Nat) (hsize : size < 2 ^ 31)
    (hblock : block % 8 = 0) :
    (block = 0 → Stack_New heap size block = some (0, heap)) ∧
    (block ≠ 0 → ∃ heap' obj, Stack_New heap size block = some (block, heap') ∧
      heap' block = some obj ∧ obj.Valid ∧ obj.used = 0 ∧ obj.refs = 1 ∧
      obj.size = (if size < 0 then 1024 else size.toNat) ∧
      Stack_IsReadOnlyCopy block = false) := by
  constructor
  · intro h
    simp [Stack_New, h]
  · intro h
    have hro : Stack_IsReadOnlyCopy block = false := by
      cases hr : Stack_IsReadOnlyCopy block with
      | false => rfl
      | true => rw [readonly_iff_odd] at hr; omega
    have hu : to_unsigned (if size < 0 then 1024 else size) =
        (if size < 0 then 1024 else size.toNat) := by
      unfold to_unsigned
      split <;> omega
    refine ⟨Function.update heap block (some ⟨to_unsigned (if size < 0 then 1024 else size),
        0, 1, List.replicate (to_unsigned (if size < 0 then 1024 else size)) 0⟩),
      ⟨to_unsigned (if size < 0 then 1024 else size), 0, 1,
        List.replicate (to_unsigned (if size < 0 then 1024 else size)) 0⟩,
      ?_, ?_, ?_, rfl, rfl, hu, hro⟩
    · simp only [Stack_New, if_neg h, hblock, ne_eq, not_true_eq_false, if_false]
    · simp
    · refine ⟨?_, Nat.zero_le _, ?_, ?_, le_refl (1 : Int), (by norm_num : (1 : Int) < 2 ^ 31)⟩
      · show to_unsigned (if size < 0 then 1024 else size) < 2 ^ 31
        rw [hu]
        split <;> omega
      · simp
      · intro x hx
        simp [xStack.items] at hx
theorem update_frame (heap : Heap) (s : Nat) (v : Option xStack) :
    ∀ p, p ≠ s → Function.update heap s v p = heap p :=
  fun _ hp => Function.update_noteq hp _ _

/-- C14: for a handle of a valid stack and an item that is not `NULL`,
`Stack_Push` returns true if and only if the handle is not a readonly copy
and `used < size`.  On success `used` grows by exactly one, the capacity and
the reference count are unchanged, the items are the earlier items followed by
the pushed one, which `Stack_Top(s, 0)` returns, and no other object of the
heap changes; on failure nothing changes. -/
theorem stack_push_contract (heap : Heap) (s item : Nat) (obj : xStack) (hs : s ≠ 0)
    (hlt : s < 2 ^ 64) (hitem : item ≠ 0) (hobj : heap (unmark s) = some obj)
    (hv : obj.Valid) :
    ∃ r heap', Stack_Push heap s item = some (r, heap') ∧
      (r = true ↔ Stack_IsReadOnlyCopy s = false ∧ obj.used < obj.size) ∧
      (r = true → ∃ obj', heap' (unmark s) = some obj' ∧
        (∀ p, p ≠ unmark s → heap' p = heap p) ∧
        obj'.used = obj.used + 1 ∧ obj'.size = obj.size ∧ obj'.refs = obj.refs ∧
        obj'.items = obj.items ++ [item] ∧
        Stack_Top heap' s 0 = some (item, heap') ∧ obj'.Valid) ∧
      (r = false → heap' = heap) := by
  have heq := @Stack_Push_eq heap s item obj hs hlt hitem hobj hv
  by_cases hc : Stack_IsReadOnlyCopy s = false ∧ obj.used < obj.size
  · rw [if_pos hc] at heq
    have hu := unmark_of_not_readonly hlt hc.1
    obtain ⟨hv', hi'⟩ := @pushed_valid obj item hv hc.2 hitem
    have hobj' : Function.update heap s
        (some { obj with body := obj.body.set obj.used item, used := obj.used + 1 })
        (unmark s) =
        some { obj with body := obj.body.set obj.used item, used := obj.used + 1 } := by
      rw [hu]; exact Function.update_same _ _ _
    refine ⟨true, _, heq, ⟨fun _ => hc, fun _ => rfl⟩, fun _ => ⟨_, hobj', ?_, rfl, rfl, rfl,
      hi', ?_, hv'⟩, fun h => by cases h⟩
    · rw [hu]; exact update_frame _ _ _
    · rw [Stack_Top_eq (le_refl 0) (by norm_num) hobj' hv']
      have hlen : obj.used < (obj.body.set obj.used item).length := by
        rw [List.length_set]
        have := hv.2.2.1
        omega
      have hlen0 : obj.used < obj.body.length := by
        rw [List.length_set] at hlen; exact hlen
      simp [List.getElem?_set, hlen0]
  · rw [if_neg hc] at heq
    exact ⟨false, heap, heq, ⟨fun h => Bool.noConfusion h, fun h => absurd h hc⟩, fun h => Bool.noConfusion h,
      fun _ => rfl⟩

theorem stack_push_contract_witness :
    Stack_Push example_heap 64 5 = some (true, Function.update example_heap 64
      (some ⟨4, 3, 1, [7, 9, 5, 0]⟩)) ∧
    ∃ r heap', Stack_Push example_heap 64 5 = some (r, heap') ∧
      (r = true ↔ Stack_IsReadOnlyCopy 64 = false ∧ example_stack.used < example_stack.size) ∧
      (r = true → ∃ obj', heap' (unmark 64) = some obj' ∧
        (∀ p, p ≠ unmark 64 → heap' p = example_heap p) ∧
        obj'.used = example_stack.used + 1 ∧ obj'.size = example_stack.size ∧
        obj'.refs = example_stack.refs ∧
        obj'.items = example_stack.items ++ [5] ∧
        Stack_Top heap' 64 0 = some (5, heap') ∧ obj'.Valid) ∧
      (r = false → heap' = example_heap) :=
  ⟨rfl, stack_push_contract example_heap 64 5 example_stack (by decide) (by decide)
    (by decide) rfl (by decide)⟩

/-- The state after the items of a list were pushed with success. -/
theorem push_all_eq (s : Nat) (hlt : s < 2 ^ 64) (hro : Stack_IsReadOnlyCopy s = false) :
    ∀ (items : List Nat) (heap heap1 : Heap) (obj : xStack), heap s = some obj → obj.Valid →
      push_all heap s items = some (true, heap1) →
      ∃ obj1, heap1 s = some obj1 ∧ obj1.Valid ∧ obj1.used = obj.used + items.length ∧
        obj1.size = obj.size ∧ obj1.refs = obj.refs ∧ obj1.items = obj.items ++ items ∧
        ∀ p, p ≠ s → heap1 p = heap p := by
  have hu := unmark_of_not_readonly hlt hro
  intro items
  induction items with
  | nil =>
    intro heap heap1 obj hobj hv h
    simp only [push_all, Option.some.injEq, Prod.mk.injEq, true_and] at h
    subst h
    exact ⟨obj, hobj, hv, rfl, rfl, rfl, by simp, fun _ _ => rfl⟩
  | cons item items ih =>
    intro heap heap1 obj hobj hv h
    have hs : s ≠ 0 := by
      intro e
      unfold push_all Stack_Push at h
      rw [if_pos e] at h
      cases h
    have hitem : item ≠ 0 := by
      intro e
      unfold push_all Stack_Push at h
      rw [if_neg hs, if_pos e] at h
      cases h
    have heq := @Stack_Push_eq heap s item obj hs hlt hitem (by rw [hu]; exact hobj) hv
    by_cases hc : Stack_IsReadOnlyCopy s = false ∧ obj.used < obj.size
    · rw [if_pos hc] at heq
      unfold push_all at h
      rw [heq] at h
      obtain ⟨hv', hi'⟩ := @pushed_valid obj item hv hc.2 hitem
      obtain ⟨obj1, h1, hv1, hused1, hsize1, hrefs1, hitems1, hframe1⟩ :=
        ih _ heap1 _ (Function.update_same _ _ _) hv' h
      refine ⟨obj1, h1, hv1, ?_, hsize1, hrefs1, ?_, ?_⟩
      · rw [hused1, List.length_cons]
        show obj.used + 1 + items.length = _
        omega
      · rw [hitems1, hi']
        simp
      · intro p hp
        rw [hframe1 p hp]
        exact update_frame _ _ _ p hp
    · rw [if_neg hc] at heq
      unfold push_all at h
      rw [heq] at h
      cases h

/-- C15: for a handle of a valid stack, `Stack_Pop(s, n)` returns true if and
only if the handle is not a readonly copy and `n <= used`.  On success `used`
shrinks by exactly `n`, the items that remain are the `used - n` first ones,
unchanged, and nothing else changes; on failure nothing changes, so a pop of
more items than are present removes none.  `n` pushes that succeed followed by
a pop of `n` restore `used`, the capacity and the items. -/
theorem stack_pop_contract (heap : Heap) (s n : Nat) (obj : xStack) (hlt : s < 2 ^ 64)
    (hobj : heap (unmark s) = some obj) (hv : obj.Valid) :
    (∃ r heap', Stack_Pop heap s n = some (r, heap') ∧
      (r = true ↔ Stack_IsReadOnlyCopy s = false ∧ n ≤ obj.used) ∧
      (r = true → ∃ obj', heap' (unmark s) = some obj' ∧
        (∀ p, p ≠ unmark s → heap' p = heap p) ∧
        obj'.used + n = obj.used ∧ obj'.size = obj.size ∧ obj'.refs = obj.refs ∧
        obj'.body = obj.body ∧ obj'.items = obj.items.take (obj.used - n) ∧ obj'.Valid) ∧
      (r = false → heap' = heap)) ∧
    (obj.used < n → Stack_Pop heap s n = some (false, heap)) ∧
    (Stack_IsReadOnlyCopy s = false → ∀ (items : List Nat) (heap1 : Heap),
      push_all heap s items = some (true, heap1) →
      ∃ heap2 obj2, Stack_Pop heap1 s items.length = some (true, heap2) ∧
        heap2 (unmark s) = some obj2 ∧ obj2.used = obj.used ∧ obj2.size = obj.size ∧
        obj2.refs = obj.refs ∧ obj2.items = obj.items ∧
        ∀ p, p ≠ unmark s → heap2 p = heap p) := by
  have heq := @Stack_Pop_eq heap s n obj hlt hobj hv
  refine ⟨?_, ?_, ?_⟩
  · by_cases hc : Stack_IsReadOnlyCopy s = false ∧ n ≤ obj.used
    · rw [if_pos hc] at heq
      have hu := unmark_of_not_readonly hlt hc.1
      obtain ⟨hv', hi'⟩ := @popped_valid obj n hv
      refine ⟨true, _, heq, ⟨fun _ => hc, fun _ => rfl⟩, fun _ => ⟨{ obj with used := obj.used - n }, ?_, ?_, ?_, rfl, rfl, rfl,
        hi', hv'⟩, fun h => by cases h⟩
      · rw [hu]; exact Function.update_same _ _ _
      · rw [hu]; exact update_frame _ _ _
      · show obj.used - n + n = obj.used
        omega
    · rw [if_neg hc] at heq
      exact ⟨false, heap, heq, ⟨fun h => Bool.noConfusion h, fun h => absurd h hc⟩,
        fun h => Bool.noConfusion h, fun _ => rfl⟩
  · intro hfew
    rw [heq, if_neg (by omega)]
  · intro hro items heap1 hpush
    have hu := unmark_of_not_readonly hlt hro
    rw [hu] at hobj ⊢
    obtain ⟨obj1, h1, hv1, hused1, hsize1, hrefs1, hitems1, hframe1⟩ :=
      push_all_eq s hlt hro items heap heap1 obj hobj hv hpush
    have heq1 := @Stack_Pop_eq heap1 s items.length obj1 hlt (by rw [hu]; exact h1) hv1
    rw [if_pos ⟨hro, by omega⟩] at heq1
    refine ⟨_, _, heq1, Function.update_same _ _ _, ?_, hsize1, hrefs1, ?_, ?_⟩
    · show obj1.used - items.length = obj.used
      omega
    · rw [(@popped_valid obj1 items.length hv1).2, hitems1, hused1, Nat.add_sub_cancel]
      have hl : obj.items.length = obj.used := by
        show (obj.body.take obj.used).length = obj.used
        rw [List.length_take]
        have := hv.2.1
        have := hv.2.2.1
        omega
      rw [← hl, List.take_left]
    · intro p hp
      rw [update_frame _ _ _ p hp]
      exact hframe1 p hp
theorem stack_pop_contract_witness :
    Stack_Pop example_heap 64 1 =
      some (true, Function.update example_heap 64 (some ⟨4, 1, 1, [7, 9, 0, 0]⟩)) ∧
    Stack_Pop example_heap 64 3 = some (false, example_heap) ∧
    ∃ heap2 obj2, Stack_Pop (Function.update (Function.update example_heap 64
        (some ⟨4, 3, 1, [7, 9, 5, 0]⟩)) 64 (some ⟨4, 4, 1, [7, 9, 5, 6]⟩)) 64 [5, 6].length =
        some (true, heap2) ∧
      heap2 (unmark 64) = some obj2 ∧ obj2.used = example_stack.used ∧
      obj2.size = example_stack.size ∧ obj2.refs = example_stack.refs ∧
      obj2.items = example_stack.items ∧ ∀ p, p ≠ unmark 64 → heap2 p = example_heap p :=
  ⟨rfl, (stack_pop_contract example_heap 64 3 example_stack (by decide) rfl (by decide)).2.1
      (by decide),
    (stack_pop_contract example_heap 64 0 example_stack (by decide) rfl (by decide)).2.2
      rfl [5, 6] _ rfl⟩

/-- The object after a copy is valid. -/
theorem copied_valid {obj : xStack} (hv : obj.Valid) (hrefs : obj.refs < 2 ^ 31 - 1) :
    ({ obj with refs := obj.refs + 1 } : xStack).Valid := by
  obtain ⟨hsize, hused, hlen, hitems, hpos, -⟩ := hv
  refine ⟨hsize, hused, hlen, hitems, ?_, ?_⟩
  · show 1 ≤ obj.refs + 1
    omega
  · show obj.refs + 1 < 2 ^ 31
    omega

theorem copy_chain_readonly :
    ∀ (flags : List Bool) (heap : Heap) (s : Nat) (obj : xStack), s < 2 ^ 64 →
      Stack_IsReadOnlyCopy s = true → heap (unmark s) = some obj → obj.Valid →
      obj.refs + flags.length < 2 ^ 31 →
      ∃ r heap', copy_chain heap s flags = some (r, heap') ∧
        Stack_IsReadOnlyCopy r = true ∧ unmark r = unmark s ∧
        heap' (unmark s) = some { obj with refs := obj.refs + flags.length } ∧
        ∀ p, p ≠ unmark s → heap' p = heap p := by
  intro flags
  induction flags with
  | nil =>
    intro heap s obj hlt hro hobj hv hrefs
    refine ⟨s, heap, rfl, hro, rfl, ?_, fun _ _ => rfl⟩
    rw [hobj]
    simp
  | cons flag flags ih =>
    intro heap s obj hlt hro hobj hv hrefs
    simp only [List.length_cons, Nat.cast_add, Nat.cast_one] at hrefs
    have heq := @Stack_Copy_eq heap s flag obj hlt hobj (by omega) hv
    rw [if_pos (Or.inr hro)] at heq
    have hu1 : unmark (unmark s ||| 1) = unmark s := by
      rw [unmark_mark, unmark_unmark]
    obtain ⟨r, heap', hch, hr, hur, hobj', hframe⟩ :=
      ih (Function.update heap (unmark s) (some { obj with refs := obj.refs + 1 }))
        (unmark s ||| 1) { obj with refs := obj.refs + 1 }
        (Nat.or_lt_two_pow (unmark_lt s) (by norm_num)) (readonly_mark _)
        (by rw [hu1]; exact Function.update_same _ _ _)
        (copied_valid hv (by omega))
        (by show obj.refs + 1 + (flags.length : Int) < 2 ^ 31; omega)
    rw [hu1] at hur hobj' hframe
    refine ⟨r, heap', ?_, hr, hur, ?_, ?_⟩
    · unfold copy_chain
      rw [heq]
      exact hch
    · rw [hobj']
      simp only [List.length_cons, Nat.cast_add, Nat.cast_one, Option.some.injEq,
        xStack.mk.injEq, true_and, and_true]
      omega
    · intro p hp
      rw [hframe p hp]
      exact update_frame _ _ _ p hp

/-- C16: for a handle of a valid stack whose reference count is not the
largest `int`, `Stack_Copy` returns a readonly handle if and only if the
readonly flag is set or the source handle is readonly; the copy is a handle of
the same object, whose reference count grew by exactly one and whose `used`,
`size` and slots are unchanged, as is every other object.  A chain of copies
that starts from a readonly handle, each made of the copy before with any
flag, ends in a readonly handle of the same object, through which
`Stack_Push` and `Stack_Pop` return false and change nothing. -/
theorem stack_copy_readonly_sticky (heap : Heap) (s : Nat) (readonly : Bool) (obj : xStack)
    (hlt : s < 2 ^ 64) (hobj : heap (unmark s) = some obj) (hv : obj.Valid)
    (hrefs : obj.refs < 2 ^ 31 - 1) :
    (∃ r heap', Stack_Copy heap s readonly = some (r, heap') ∧
      (Stack_IsReadOnlyCopy r = true ↔ readonly = true ∨ Stack_IsReadOnlyCopy s = true) ∧
      unmark r = unmark s ∧
      ∃ obj', heap' (unmark s) = some obj' ∧ obj'.refs = obj.refs + 1 ∧
        obj'.used = obj.used ∧ obj'.size = obj.size ∧ obj'.body = obj.body ∧
        ∀ p, p ≠ unmark s → heap' p = heap p) ∧
    (Stack_IsReadOnlyCopy s = true → ∀ flags : List Bool,
      obj.refs + flags.length < 2 ^ 31 →
      ∃ r heap', copy_chain heap s flags = some (r, heap') ∧
        Stack_IsReadOnlyCopy r = true ∧ unmark r = unmark s ∧
        (∃ obj', heap' (unmark s) = some obj' ∧ obj'.refs = obj.refs + flags.length ∧
          obj'.used = obj.used ∧ obj'.size = obj.size ∧ obj'.body = obj.body) ∧
        (∀ item, item ≠ 0 → Stack_Push heap' r item = some (false, heap')) ∧
        (∀ item heap2, Stack_Push heap' r item ≠ some (true, heap2)) ∧
        (∀ n, Stack_Pop heap' r n = some (false, heap'))) := by
  constructor
  · have heq := @Stack_Copy_eq heap s readonly obj hlt hobj hrefs hv
    refine ⟨_, _, heq, ?_, ?_, { obj with refs := obj.refs + 1 },
      Function.update_same _ _ _, rfl, rfl, rfl, rfl, update_frame _ _ _⟩
    · by_cases hc : readonly = true ∨ Stack_IsReadOnlyCopy s = true
      · rw [if_pos hc]
        exact ⟨fun _ => hc, fun _ => readonly_mark _⟩
      · rw [if_neg hc, not_readonly_unmark]
        exact ⟨fun h => Bool.noConfusion h, fun h => absurd h hc⟩
    · split
      · rw [unmark_mark, unmark_unmark]
      · rw [unmark_unmark]
  · intro hro flags hlen
    obtain ⟨r, heap', hch, hr, hur, hobj', hframe⟩ :=
      copy_chain_readonly flags heap s obj hlt hro hobj hv hlen
    have hr0 : r ≠ 0 := by
      intro e
      rw [e] at hr
      cases hr
    have hpush : ∀ item, item ≠ 0 → Stack_Push heap' r item = some (false, heap') := by
      intro item hitem
      unfold Stack_Push
      rw [if_neg hr0, if_neg hitem, if_pos hr]
    refine ⟨r, heap', hch, hr, hur, ⟨_, hobj', rfl, rfl, rfl, rfl⟩, hpush, ?_, ?_⟩
    · intro item heap2 h
      by_cases hitem : item = 0
      · unfold Stack_Push at h
        rw [if_neg hr0, if_pos hitem] at h
        cases h
      · rw [hpush item hitem] at h
        cases h
    · intro n
      unfold Stack_Pop
      rw [if_pos hr]

theorem stack_copy_readonly_sticky_witness :
    Stack_Copy example_heap 64 true =
      some (65, Function.update example_heap 64 (some ⟨4, 2, 2, [7, 9, 0, 0]⟩)) ∧
    Stack_Copy example_heap 65 false =
      some (65, Function.update example_heap 64 (some ⟨4, 2, 2, [7, 9, 0, 0]⟩)) ∧
    ∃ r heap', copy_chain example_heap 65 [false, false, true] = some (r, heap') ∧
      Stack_IsReadOnlyCopy r = true ∧ unmark r = unmark 65 ∧
      (∃ obj', heap' (unmark 65) = some obj' ∧
        obj'.refs = example_stack.refs + [false, false, true].length ∧
        obj'.used = example_stack.used ∧ obj'.size = example_stack.size ∧
        obj'.body = example_stack.body) ∧
      (∀ item, item ≠ 0 → Stack_Push heap' r item = some (false, heap')) ∧
      (∀ item heap2, Stack_Push heap' r item ≠ some (true, heap2)) ∧
      (∀ n, Stack_Pop heap' r n = some (false, heap')) :=
  ⟨rfl, rfl, (stack_copy_readonly_sticky example_heap 65 false example_stack (by decide) rfl
    (by decide) (by decide)).2 rfl [false, false, true] (by decide)⟩

/-- C17: for a handle of a valid stack and a relative index `n <= 0`,
`Stack_Top(s, n)` returns `NULL` exactly when `-n >= used`, which includes the
empty stack, and otherwise the item at position `used - 1 + n`; the result is
the same through the readonly copy of the handle and through the unmarked
handle, and the heap is unchanged. -/
theorem stack_top_contract (heap : Heap) (s : Nat) (n : Int) (obj : xStack) (hn0 : n ≤ 0)
    (hn : -2 ^ 31 ≤ n) (hobj : heap (unmark s) = some obj) (hv : obj.Valid) :
    ∃ item, Stack_Top heap s n = some (item, heap) ∧
      (item = 0 ↔ (obj.used : Int) ≤ -n) ∧
      (-n < (obj.used : Int) →
        obj.items[((obj.used : Int) - 1 + n).toNat]? = some item) ∧
      Stack_Top heap (s ||| 1) n = Stack_Top heap s n ∧
      Stack_Top heap (unmark s) n = Stack_Top heap s n := by
  have heq := Stack_Top_eq hn0 hn hobj hv
  obtain ⟨hsize, hused, hlen, hitems, -, -⟩ := hv
  have hmark : Stack_Top heap (s ||| 1) n = Stack_Top heap s n := by
    unfold Stack_Top
    rw [unmark_mark]
  have hunmark : Stack_Top heap (unmark s) n = Stack_Top heap s n := by
    unfold Stack_Top
    rw [unmark_unmark]
  by_cases hc : obj.used ≤ (-n).toNat
  · rw [if_pos hc] at heq
    exact ⟨0, heq, ⟨fun _ => by omega, fun _ => rfl⟩, fun h => by omega, hmark, hunmark⟩
  · rw [if_neg hc] at heq
    have hidx : ((obj.used : Int) - 1 + n).toNat = obj.used - 1 - (-n).toNat := by omega
    have hlt : obj.used - 1 - (-n).toNat < obj.body.length := by omega
    have hget : obj.items[obj.used - 1 - (-n).toNat]? =
        some (obj.body.getD (obj.used - 1 - (-n).toNat) 0) := by
      show (obj.body.take obj.used)[obj.used - 1 - (-n).toNat]? = _
      rw [List.getElem?_take_of_lt (by omega), List.getElem?_eq_getElem hlt,
        List.getD_eq_getElem _ _ hlt]
    refine ⟨_, heq, ⟨fun h0 => ?_, fun h => by omega⟩, fun _ => by rw [hidx]; exact hget,
      hmark, hunmark⟩
    exact absurd h0 (hitems _ (List.getElem?_mem hget))

theorem stack_top_contract_witness :
    Stack_Top example_heap 64 0 = some (9, example_heap) ∧
    Stack_Top example_heap 65 (-1) = some (7, example_heap) ∧
    Stack_Top example_heap 64 (-2) = some (0, example_heap) ∧
    ∃ item, Stack_Top example_heap 64 (-1) = some (item, example_heap) ∧
      (item = 0 ↔ (example_stack.used : Int) ≤ - (-1)) ∧
      (- (-1) < (example_stack.used : Int) →
        example_stack.items[((example_stack.used : Int) - 1 + (-1)).toNat]? = some item) ∧
      Stack_Top example_heap (64 ||| 1) (-1) = Stack_Top example_heap 64 (-1) ∧
      Stack_Top example_heap (unmark 64) (-1) = Stack_Top example_heap 64 (-1) :=
  ⟨rfl, rfl, rfl, stack_top_contract example_heap 64 (-1) example_stack (by decide)
    (by decide) rfl (by decide)⟩

theorem flatten_tuple_tree_cap_witness :
    (example_targets 31).leaves.length = 32 ∧
    flatten_tuple_tree (example_targets 31) [] 32 Error.unset =
      (true, (example_targets 31).leaves, Error.unset) ∧
    (example_targets 32).leaves.length = 33 ∧
    flatten_tuple_tree (example_targets 32) [] 32 Error.unset =
      (false, (example_targets 32).leaves.take 32,
        Error.report false ErrorMessage.static_buffer_too_small) :=
  ⟨rfl, ((flatten_tuple_tree_cap (example_targets 31) Error.unset).2.1 (Nat.le_of_eq rfl)).1,
    rfl, (flatten_tuple_tree_cap (example_targets 32) Error.unset).2.2.1
      (Nat.lt_of_lt_of_eq (Nat.lt_succ_self 32) (Eq.symm rfl))⟩

/-! ## C22, C23, C25: calls, return statements and literals -/

theorem emit_each_seq {bd : Option Nat} {xs : List Node} :
    ∀ {s s' : Env}, emit_each emit_instr_for_node bd xs s = (true, s') →
      EachEmits bd s xs s' (emitted s s') := by
  induction xs with
  | nil =>
    intro s s' h
    cases h
    have : emitted s s = [] := by simp [emitted]
    rw [this]
    exact EachEmits.done s
  | cons x rest ih =>
    intro s s' h
    simp only [emit_each, andThen_eq_true] at h
    obtain ⟨s1, h1, h2⟩ := h
    have e : emitted s s' = emitted s s1 ++ emitted s1 s' := by
      apply emitted_of_code_eq
      rw [(emit_each_ext emit_instr_for_node_sound h2).code_eq, emit_code_eq h1]
      simp
    rw [e]
    exact EachEmits.step h1 (ih h2)

theorem each_emits_run {bd : Option Nat} {xs : List Node} {s s' : Env} {code : List Instr}
    (h : EachEmits bd s xs s' code) :
    emit_each emit_instr_for_node bd xs s = (true, s') ∧ s'.code = s.code ++ code := by
  induction h with
  | done s => exact ⟨rfl, by simp⟩
  | step h1 _ ih =>
    refine ⟨?_, ?_⟩
    · simp only [emit_each, h1, andThen]
      exact ih.1
    · rw [ih.2, emit_code_eq h1, List.append_assoc]

theorem emit_funccall_inv {s s' : Env} {bd : Option Nat} {func : Node} {argv : List Node}
    {argc offset length returns : Int}
    (h : emit_instr_for_funccall emit_instr_for_node s func argv argc offset length bd returns
      = (true, s')) :
    ∃ s1 s2, EachEmits bd s argv s1 (emitted s s1) ∧
      emit_instr_for_node s1 func bd = (true, s2) ∧
      ExeBuilder_Append s2 Opcode.OPCODE_CALL [Operand.int argc, Operand.int returns]
        offset length = (true, s') ∧
      emitted s s' = emitted s s1 ++ emitted s1 s2 ++
        [⟨Opcode.OPCODE_CALL, [Operand.int argc, Operand.int returns], offset, length⟩] ∧
      s'.code = s.code ++ emitted s s' := by
  simp only [emit_instr_for_funccall, andThen_eq_true] at h
  obtain ⟨s1, h1, s2, h2, h3⟩ := h
  have hc1 := (emit_each_ext emit_instr_for_node_sound h1).code_eq
  have hcode : s'.code = s.code ++ (emitted s s1 ++ emitted s1 s2 ++
      [⟨Opcode.OPCODE_CALL, [Operand.int argc, Operand.int returns], offset, length⟩]) := by
    rw [append_code_eq h3, emit_code_eq h2, hc1]
    simp
  have hem := emitted_of_code_eq hcode
  exact ⟨s1, s2, emit_each_seq h1, h2, h3, hem, by rw [hem]; exact hcode⟩

/-- C22: when a call expression in expression position lowers successfully,
its arguments were lowered from left to right, then the callee, and the
instructions emitted are exactly those of each argument in order, those of the
callee and one `CALL` with the two integer operands `argc`, the argument count
of the call node, and 1, the requested number of return values. -/
theorem call_expression_layout (s s' : Env) (bd : Option Nat) (offset length argc : Int)
    (func : Node) (argv : List Node)
    (h : emit_instr_for_node s (Node.call offset length func argv argc) bd = (true, s')) :
    ∃ s1 s2, EachEmits bd s argv s1 (emitted s s1) ∧
      emit_instr_for_node s1 func bd = (true, s2) ∧
      emitted s s' = emitted s s1 ++ emitted s1 s2 ++
        [⟨Opcode.OPCODE_CALL, [Operand.int argc, Operand.int 1], offset, length⟩] ∧
      s'.code = s.code ++ emitted s s' := by
  rw [emit_instr_for_node_eq] at h
  obtain ⟨s1, s2, h1, h2, -, hem, hcode⟩ := emit_funccall_inv h
  exact ⟨s1, s2, h1, h2, hem, hcode⟩

theorem call_expression_layout_witness :
    ∃ s', emit_instr_for_node example_env example_call none = (true, s') ∧
      s'.code = [⟨Opcode.OPCODE_PUSHINT, [Operand.int 1], 2, 1⟩,
        ⟨Opcode.OPCODE_PUSHVAR, [Operand.string "x"], 5, 1⟩,
        ⟨Opcode.OPCODE_PUSHVAR, [Operand.string "f"], 0, 1⟩,
        ⟨Opcode.OPCODE_CALL, [Operand.int 2, Operand.int 1], 0, 7⟩] ∧
      ∃ s1 s2, EachEmits none example_env [Node.int 2 1 1, Node.ident 5 1 "x"] s1
          (emitted example_env s1) ∧
        emit_instr_for_node s1 (Node.ident 0 1 "f") none = (true, s2) ∧
        emitted example_env s' = emitted example_env s1 ++ emitted s1 s2 ++
          [⟨Opcode.OPCODE_CALL, [Operand.int 2, Operand.int 1], 0, 7⟩] ∧
        s'.code = example_env.code ++ emitted example_env s' :=
  ⟨_, rfl, rfl, call_expression_layout example_env _ none 0 7 2 (Node.ident 0 1 "f")
    [Node.int 2 1 1, Node.ident 5 1 "x"] rfl⟩

/-- C23: a return statement lowers successfully exactly when its value
flattens to at most 32 leaves, the leaves lower one after the other in order
and the `RETURN` is appended; the instructions emitted are then exactly those
of the leaves `v1`, ..., `vk` in this order followed by one `RETURN` whose
integer operand is `k`. -/
theorem return_values_in_order (s s' : Env) (bd : Option Nat) (offset length : Int) (val : Node) :
    (emit_instr_for_node s (Node.ret offset length val) bd = (true, s') →
      val.leaves.length ≤ 32 ∧
      ∃ s1, EachEmits bd s val.leaves s1 (emitted s s1) ∧
        emitted s s' = emitted s s1 ++
          [⟨Opcode.OPCODE_RETURN, [Operand.int val.leaves.length], offset, length⟩] ∧
        s'.code = s.code ++ emitted s s') ∧
    (val.leaves.length ≤ 32 → ∀ (s1 : Env) (code : List Instr),
      EachEmits bd s val.leaves s1 code →
      ExeBuilder_Append s1 Opcode.OPCODE_RETURN [Operand.int val.leaves.length] offset length
        = (true, s') →
      emit_instr_for_node s (Node.ret offset length val) bd = (true, s')) := by
  have hflat := flatten_tuple_tree_eq val [] 32 s.error (by simp)
  simp only [List.length_nil, Nat.zero_add, List.nil_append, Nat.sub_zero] at hflat
  constructor
  · intro h
    rw [emit_instr_for_node_eq] at h
    simp only [emit_body, hflat] at h
    by_cases hle : val.leaves.length ≤ 32
    · rw [if_pos hle] at h
      simp only [andThen_eq_true] at h
      obtain ⟨s1, h1, h2⟩ := h
      have hc1 := (emit_each_ext emit_instr_for_node_sound h1).code_eq
      have hcode : s'.code = s.code ++ (emitted s s1 ++
          [⟨Opcode.OPCODE_RETURN, [Operand.int val.leaves.length], offset, length⟩]) := by
        rw [append_code_eq h2, hc1]
        simp
      have hem := emitted_of_code_eq hcode
      exact ⟨hle, s1, emit_each_seq h1, hem, by rw [hem]; exact hcode⟩
    · rw [if_neg hle] at h
      cases h
  · intro hle s1 code h1 h2
    rw [emit_instr_for_node_eq]
    simp only [emit_body, hflat, if_pos hle, (each_emits_run h1).1, andThen]
    exact h2

theorem return_values_in_order_witness :
    ∃ s', emit_instr_for_node example_env example_return none = (true, s') ∧
      s'.code = [⟨Opcode.OPCODE_PUSHVAR, [Operand.string "a"], 7, 1⟩,
        ⟨Opcode.OPCODE_PUSHVAR, [Operand.string "b"], 10, 1⟩,
        ⟨Opcode.OPCODE_RETURN, [Operand.int 2], 0, 11⟩] ∧
      (Node.pair 7 4 (Node.ident 7 1 "a") (Node.ident 10 1 "b")).leaves.length ≤ 32 ∧
      ∃ s1, EachEmits none example_env
          (Node.pair 7 4 (Node.ident 7 1 "a") (Node.ident 10 1 "b")).leaves s1
          (emitted example_env s1) ∧
        emitted example_env s' = emitted example_env s1 ++
          [⟨Opcode.OPCODE_RETURN, [Operand.int
            (Node.pair 7 4 (Node.ident 7 1 "a") (Node.ident 10 1 "b")).leaves.length], 0, 11⟩] ∧
        s'.code = example_env.code ++ emitted example_env s' :=
  ⟨_, rfl, rfl, (return_values_in_order example_env _ none 0 11
    (Node.pair 7 4 (Node.ident 7 1 "a") (Node.ident 10 1 "b"))).1 rfl⟩

theorem emit_list_items_seq {bd : Option Nat} {xs : List Node} :
    ∀ {i : Int} {s s' : Env}, emit_list_items emit_instr_for_node bd xs i s = (true, s') →
      ListEmits bd s xs i s' (emitted s s') := by
  induction xs with
  | nil =>
    intro i s s' h
    cases h
    have : emitted s s = [] := by simp [emitted]
    rw [this]
    exact ListEmits.done s i
  | cons x rest ih =>
    intro i s s' h
    simp only [emit_list_items, andThen_eq_true] at h
    obtain ⟨s1, h1, s2, h2, s3, h3, h4⟩ := h
    have e : emitted s s' =
        [⟨Opcode.OPCODE_PUSHINT, [Operand.int i], x.offset, x.length⟩] ++
        emitted s1 s2 ++ [⟨Opcode.OPCODE_INSERT, [], x.offset, x.length⟩] ++
        emitted s3 s' := by
      apply emitted_of_code_eq
      rw [(emit_list_items_ext emit_instr_for_node_sound h4).code_eq, append_code_eq h3,
        emit_code_eq h2, append_code_eq h1]
      simp
    rw [e]
    exact ListEmits.step h1 h2 h3 (ih h4)

theorem emit_map_items_seq {bd : Option Nat} {es : List (Node × Node)} :
    ∀ {s s' : Env}, emit_map_items emit_instr_for_node bd es s = (true, s') →
      MapEmits bd s es s' (emitted s s') := by
  induction es with
  | nil =>
    intro s s' h
    cases h
    have : emitted s s = [] := by simp [emitted]
    rw [this]
    exact MapEmits.done s
  | cons x rest ih =>
    intro s s' h
    rcases x with ⟨key, item⟩
    simp only [emit_map_items, andThen_eq_true] at h
    obtain ⟨s1, h1, s2, h2, s3, h3, h4⟩ := h
    have e : emitted s s' = emitted s s1 ++ emitted s1 s2 ++
        [⟨Opcode.OPCODE_INSERT, [], item.offset, item.length⟩] ++ emitted s3 s' := by
      apply emitted_of_code_eq
      rw [(emit_map_items_ext emit_instr_for_node_sound h4).code_eq, append_code_eq h3,
        emit_code_eq h2, emit_code_eq h1]
      simp
    rw [e]
    exact MapEmits.step h1 h2 h3 (ih h4)

/-- C25: when a list literal lowers successfully, the instructions emitted are
exactly `PUSHLST itemc`, with the item count of the node, followed, for each
element in source order and counting from 0, by `PUSHINT i`, the instructions
of the element and `INSERT` (`ListEmits`); when a map literal lowers
successfully they are exactly `PUSHMAP itemc` followed, for each pair in source
order, by the instructions of the key, those of the value and `INSERT`
(`MapEmits`). -/
theorem literal_layout (s s' : Env) (bd : Option Nat) (offset length itemc : Int) :
    (∀ items : List Node,
      emit_instr_for_node s (Node.list offset length items itemc) bd = (true, s') →
      ∃ s1, ExeBuilder_Append s Opcode.OPCODE_PUSHLST [Operand.int itemc] offset length
          = (true, s1) ∧
        ListEmits bd s1 items 0 s' (emitted s1 s') ∧
        emitted s s' = [⟨Opcode.OPCODE_PUSHLST, [Operand.int itemc], offset, length⟩] ++
          emitted s1 s' ∧
        s'.code = s.code ++ emitted s s') ∧
    (∀ entries : List (Node × Node),
      emit_instr_for_node s (Node.map offset length entries itemc) bd = (true, s') →
      ∃ s1, ExeBuilder_Append s Opcode.OPCODE_PUSHMAP [Operand.int itemc] offset length
          = (true, s1) ∧
        MapEmits bd s1 entries s' (emitted s1 s') ∧
        emitted s s' = [⟨Opcode.OPCODE_PUSHMAP, [Operand.int itemc], offset, length⟩] ++
          emitted s1 s' ∧
        s'.code = s.code ++ emitted s s') := by
  constructor
  · intro items h
    have hpre := emit_code_eq h
    rw [emit_instr_for_node_eq] at h
    simp only [emit_body, andThen_eq_true] at h
    obtain ⟨s1, h1, h2⟩ := h
    refine ⟨s1, h1, emit_list_items_seq h2, ?_, hpre⟩
    apply emitted_of_code_eq
    rw [(emit_list_items_ext emit_instr_for_node_sound h2).code_eq, append_code_eq h1]
    simp
  · intro entries h
    have hpre := emit_code_eq h
    rw [emit_instr_for_node_eq] at h
    simp only [emit_body, andThen_eq_true] at h
    obtain ⟨s1, h1, h2⟩ := h
    refine ⟨s1, h1, emit_map_items_seq h2, ?_, hpre⟩
    apply emitted_of_code_eq
    rw [(emit_map_items_ext emit_instr_for_node_sound h2).code_eq, append_code_eq h1]
    simp

theorem literal_layout_witness :
    (∃ s', emit_instr_for_node example_env example_list none = (true, s') ∧
      s'.code = [⟨Opcode.OPCODE_PUSHLST, [Operand.int 2], 0, 6⟩,
        ⟨Opcode.OPCODE_PUSHINT, [Operand.int 0], 1, 1⟩,
        ⟨Opcode.OPCODE_PUSHINT, [Operand.int 7], 1, 1⟩,
        ⟨Opcode.OPCODE_INSERT, [], 1, 1⟩,
        ⟨Opcode.OPCODE_PUSHINT, [Operand.int 1], 4, 1⟩,
        ⟨Opcode.OPCODE_PUSHVAR, [Operand.string "x"], 4, 1⟩,
        ⟨Opcode.OPCODE_INSERT, [], 4, 1⟩] ∧
      ∃ s1, ExeBuilder_Append example_env Opcode.OPCODE_PUSHLST [Operand.int 2] 0 6
          = (true, s1) ∧
        ListEmits none s1 [Node.int 1 1 7, Node.ident 4 1 "x"] 0 s' (emitted s1 s') ∧
        emitted example_env s' = [⟨Opcode.OPCODE_PUSHLST, [Operand.int 2], 0, 6⟩] ++
          emitted s1 s' ∧
        s'.code = example_env.code ++ emitted example_env s') ∧
    (∃ s', emit_instr_for_node example_env example_map none = (true, s') ∧
      s'.code = [⟨Opcode.OPCODE_PUSHMAP, [Operand.int 1], 0, 8⟩,
        ⟨Opcode.OPCODE_PUSHSTR, [Operand.string "k"], 1, 3⟩,
        ⟨Opcode.OPCODE_PUSHINT, [Operand.int 1], 6, 1⟩,
        ⟨Opcode.OPCODE_INSERT, [], 6, 1⟩] ∧
      ∃ s1, ExeBuilder_Append example_env Opcode.OPCODE_PUSHMAP [Operand.int 1] 0 8
          = (true, s1) ∧
        MapEmits none s1 [(Node.string 1 3 "k", Node.int 6 1 1)] s' (emitted s1 s') ∧
        emitted example_env s' = [⟨Opcode.OPCODE_PUSHMAP, [Operand.int 1], 0, 8⟩] ++
          emitted s1 s' ∧
        s'.code = example_env.code ++ emitted example_env s') :=
  ⟨⟨_, rfl, rfl, (literal_layout example_env _ none 0 6 2).1
      [Node.int 1 1 7, Node.ident 4 1 "x"] rfl⟩,
    ⟨_, rfl, rfl, (literal_layout example_env _ none 0 8 1).2
      [(Node.string 1 3 "k", Node.int 6 1 1)] rfl⟩⟩

/-! ## C24: a call among the values of a return statement -/

theorem each_emits_mem {bd : Option Nat} {x : Node} {xs : List Node} {s s' : Env}
    {code : List Instr} (h : EachEmits bd s xs s' code) (hx : x ∈ xs) :
    ∃ sa sb d, emit_instr_for_node sa x bd = (true, sb) ∧
      s.code.length ≤ sa.code.length ∧ s'.code = sb.code ++ d := by
  induction h with
  | done s => simp at hx
  | @step s s1 s' y ys code h1 h2 ih =>
    rcases List.mem_cons.1 hx with rfl | hx
    · exact ⟨s, s1, code, h1, Nat.le_refl _, (each_emits_run h2).2⟩
    · obtain ⟨sa, sb, d, ha, hle, hd⟩ := ih hx
      have := (emit_instr_for_node_sound _ _ _ _ h1).code_length_le
      exact ⟨sa, sb, d, ha, by omega, hd⟩

/-- C24 as the code has it: when a return statement lowers successfully,
each call expression among its flattened values, however many values `N` there
are, was lowered in expression position: its `CALL` instruction is among the
instructions emitted and carries the requested return-value count 1, not `N`. -/
theorem return_call_requests_one (s s' : Env) (bd : Option Nat) (offset length : Int)
    (val : Node) (co cl argc : Int) (func : Node) (argv : List Node)
    (h : emit_instr_for_node s (Node.ret offset length val) bd = (true, s'))
    (hleaf : Node.call co cl func argv argc ∈ val.leaves) :
    ∃ sa sb, emit_instr_for_node sa (Node.call co cl func argv argc) bd = (true, sb) ∧
      s.code.length < sb.code.length ∧ sb.code.length ≤ s'.code.length ∧
      sb.code[sb.code.length - 1]? =
        some ⟨Opcode.OPCODE_CALL, [Operand.int argc, Operand.int 1], co, cl⟩ ∧
      s'.code[sb.code.length - 1]? =
        some ⟨Opcode.OPCODE_CALL, [Operand.int argc, Operand.int 1], co, cl⟩ := by
  have hflat := flatten_tuple_tree_eq val [] 32 s.error (by simp)
  simp only [List.length_nil, Nat.zero_add, List.nil_append, Nat.sub_zero] at hflat
  rw [emit_instr_for_node_eq] at h
  simp only [emit_body, hflat] at h
  by_cases hle : val.leaves.length ≤ 32
  · rw [if_pos hle] at h
    simp only [andThen_eq_true] at h
    obtain ⟨s1, h1, h2⟩ := h
    obtain ⟨sa, sb, d, ha, hlen, hd⟩ := each_emits_mem (emit_each_seq h1) hleaf
    have ha' := ha
    rw [emit_instr_for_node_eq] at ha'
    obtain ⟨t1, t2, he, hf, h3, -, -⟩ := emit_funccall_inv ha'
    have hsb : sb.code = t2.code ++
        [⟨Opcode.OPCODE_CALL, [Operand.int argc, Operand.int 1], co, cl⟩] := append_code_eq h3
    have hlast : sb.code[sb.code.length - 1]? =
        some ⟨Opcode.OPCODE_CALL, [Operand.int argc, Operand.int 1], co, cl⟩ := by
      rw [hsb]
      simp
    have hsa := (emit_instr_for_node_sound _ _ _ _ ha).code_length_le
    have hpos : sa.code.length < sb.code.length := by
      have e1 : sa.code.length ≤ t1.code.length := by
        rw [(each_emits_run he).2]
        simp
      have e2 := (emit_instr_for_node_sound _ _ _ _ hf).code_length_le
      rw [hsb, List.length_append, List.length_singleton]
      omega
    have hs' : s'.code = sb.code ++ (d ++
        [⟨Opcode.OPCODE_RETURN, [Operand.int val.leaves.length], offset, length⟩]) := by
      rw [append_code_eq h2, hd, List.append_assoc]
    refine ⟨sa, sb, ha, by omega, ?_, hlast, ?_⟩
    · rw [hs']
      simp
    · rw [hs']
      exact getElem?_append_of_some _ hlast
  · rw [if_neg hle] at h
    cases h

theorem return_call_requests_one_witness :
    ∃ s', emit_instr_for_node example_env example_return_calls none = (true, s') ∧
      ∃ sa sb, emit_instr_for_node sa (Node.call 12 3 (Node.ident 12 1 "g") [] 0) none
          = (true, sb) ∧
        example_env.code.length < sb.code.length ∧ sb.code.length ≤ s'.code.length ∧
        sb.code[sb.code.length - 1]? =
          some ⟨Opcode.OPCODE_CALL, [Operand.int 0, Operand.int 1], 12, 3⟩ ∧
        s'.code[sb.code.length - 1]? =
          some ⟨Opcode.OPCODE_CALL, [Operand.int 0, Operand.int 1], 12, 3⟩ :=
  ⟨_, rfl, return_call_requests_one example_env _ none 0 16
    (Node.pair 7 9 (Node.call 7 3 (Node.ident 7 1 "f") [] 0)
      (Node.call 12 3 (Node.ident 12 1 "g") [] 0)) 12 3 0 (Node.ident 12 1 "g") [] rfl
    (by simp [Node.leaves])⟩

/-- `return f(), g();` has `N = 2` flattened values, both calls, and lowers to
`PUSHVAR f`, `CALL 0 1`, `PUSHVAR g`, `CALL 0 1`, `RETURN 2`: the two `CALL`
instructions request 1 return value, none requests 2. -/
theorem return_call_count_counterexample :
    (Node.pair 7 9 (Node.call 7 3 (Node.ident 7 1 "f") [] 0)
      (Node.call 12 3 (Node.ident 12 1 "g") [] 0)).leaves.length = 2 ∧
    (emit_instr_for_node example_env example_return_calls none).1 = true ∧
    (emit_instr_for_node example_env example_return_calls none).2.code =
      [⟨Opcode.OPCODE_PUSHVAR, [Operand.string "f"], 7, 1⟩,
        ⟨Opcode.OPCODE_CALL, [Operand.int 0, Operand.int 1], 7, 3⟩,
        ⟨Opcode.OPCODE_PUSHVAR, [Operand.string "g"], 12, 1⟩,
        ⟨Opcode.OPCODE_CALL, [Operand.int 0, Operand.int 1], 12, 3⟩,
        ⟨Opcode.OPCODE_RETURN, [Operand.int 2], 0, 16⟩] ∧
    ∀ i ∈ (emit_instr_for_node example_env example_return_calls none).2.code,
      i.opcode = Opcode.OPCODE_CALL → i.ops = [Operand.int 0, Operand.int 1] ∧
        i.ops ≠ [Operand.int 0, Operand.int 2] := by
  refine ⟨rfl, rfl, rfl, ?_⟩
  have e : (emit_instr_for_node example_env example_return_calls none).2.code =
      [⟨Opcode.OPCODE_PUSHVAR, [Operand.string "f"], 7, 1⟩,
        ⟨Opcode.OPCODE_CALL, [Operand.int 0, Operand.int 1], 7, 3⟩,
        ⟨Opcode.OPCODE_PUSHVAR, [Operand.string "g"], 12, 1⟩,
        ⟨Opcode.OPCODE_CALL, [Operand.int 0, Operand.int 1], 12, 3⟩,
        ⟨Opcode.OPCODE_RETURN, [Operand.int 2], 0, 16⟩] := rfl
  rw [e]
  intro i hi hop
  simp only [List.mem_cons, List.mem_singleton, List.not_mem_nil, or_false] at hi
  rcases hi with rfl | rfl | rfl | rfl | rfl <;> first | exact ⟨rfl, by decide⟩ | cases hop

/-! ## C21, C27: the stores of an assignment -/

theorem emit_body_ass (rec : Emitter) (s : Env) (offset length : Int) (lop rop : Node)
    (bd : Option Nat) :
    emit_body rec s (Node.ass offset length lop rop) bd =
      if lop.leaves.length ≤ 32 then
        andThen (emit_rop rec s rop bd lop.leaves.length) fun s1 =>
          emit_stores rec bd offset lop.leaves.length lop.leaves.reverse 0 s1
      else
        (false, { s with error := Error.report false ErrorMessage.static_buffer_too_small }) := by
  have hflat := flatten_tuple_tree_eq lop [] 32 s.error (by simp)
  simp only [List.length_nil, Nat.zero_add, List.nil_append, Nat.sub_zero] at hflat
  simp only [emit_body, hflat]
  by_cases hle : lop.leaves.length ≤ 32
  · rw [if_pos hle, if_pos hle]
    rfl
  · rw [if_neg hle, if_neg hle]
    rfl

theorem emit_store_seq {bd : Option Nat} {s s' : Env} {item : Node}
    (h : emit_store emit_instr_for_node bd s item = (true, s')) :
    StoreEmits bd s item s' (emitted s s') := by
  cases item with
  | ident o l name =>
    simp only [emit_store] at h
    rw [emitted_of_code_eq (append_code_eq h)]
    exact StoreEmits.ident h
  | select o l set idx =>
    simp only [emit_store, andThen_eq_true] at h
    obtain ⟨s1, h1, s2, h2, h3⟩ := h
    have e : emitted s s' = emitted s s1 ++ emitted s1 s2 ++
        [⟨Opcode.OPCODE_INSERT2, [], o, l⟩] := by
      apply emitted_of_code_eq
      rw [append_code_eq h3, emit_code_eq h2, emit_code_eq h1]
      simp
    rw [e]
    exact StoreEmits.select h1 h2 h3
  | _ => simp [emit_store, fail] at h

theorem store_emits_run {bd : Option Nat} {s s' : Env} {item : Node} {code : List Instr}
    (h : StoreEmits bd s item s' code) :
    emit_store emit_instr_for_node bd s item = (true, s') ∧ s'.code = s.code ++ code := by
  cases h with
  | ident h1 => exact ⟨h1, append_code_eq h1⟩
  | select h1 h2 h3 =>
    refine ⟨?_, ?_⟩
    · simp only [emit_store, h1, h2, andThen]
      exact h3
    · rw [append_code_eq h3, emit_code_eq h2, emit_code_eq h1]
      simp

theorem emit_stores_seq {bd : Option Nat} {off : Int} {count : Nat} {items : List Node} :
    ∀ {i : Nat} {s s' : Env}, items ≠ [] → i + items.length = count →
      emit_stores emit_instr_for_node bd off count items i s = (true, s') →
      StoresEmit bd off s items s' (emitted s s') := by
  induction items with
  | nil => intro i s s' hne; exact absurd rfl hne
  | cons x rest ih =>
    intro i s s' _ hlen h
    simp only [emit_stores, andThen_eq_true] at h
    obtain ⟨s1, h1, s2, h2, h3⟩ := h
    cases rest with
    | nil =>
      simp only [List.length_cons, List.length_nil] at hlen
      rw [if_neg (by omega)] at h2
      simp only [emit_stores, Prod.mk.injEq, true_and] at h2 h3
      subst h2 h3
      exact StoresEmit.last (emit_store_seq h1)
    | cons y ys =>
      simp only [List.length_cons] at hlen
      rw [if_pos (by omega)] at h2
      have h3' := ih (by simp) (by simp only [List.length_cons]; omega) h3
      have hc3 := (emit_stores_ext emit_instr_for_node_sound h3).code_eq
      have e : emitted s s' = emitted s s1 ++
          [⟨Opcode.OPCODE_POP, [Operand.int 1], off, 0⟩] ++ emitted s2 s' := by
        apply emitted_of_code_eq
        rw [hc3, append_code_eq h2, (store_emits_run (emit_store_seq h1)).2]
        simp
      rw [e]
      exact StoresEmit.more (emit_store_seq h1) h2 h3'

theorem stores_emit_run {bd : Option Nat} {off : Int} {count : Nat} {items : List Node}
    {s s' : Env} {code : List Instr} (h : StoresEmit bd off s items s' code) :
    ∀ i, i + items.length = count →
      emit_stores emit_instr_for_node bd off count items i s = (true, s') ∧
        s'.code = s.code ++ code := by
  induction h with
  | last h1 =>
    intro i hlen
    simp only [List.length_cons, List.length_nil] at hlen
    refine ⟨?_, (store_emits_run h1).2⟩
    simp only [emit_stores, (store_emits_run h1).1, andThen]
    rw [if_neg (by omega)]
  | more h1 h2 _ ih =>
    intro i hlen
    simp only [List.length_cons] at hlen
    obtain ⟨hr, hc⟩ := ih (i + 1) (by simp only [List.length_cons]; omega)
    refine ⟨?_, ?_⟩
    · rw [emit_stores]
      simp only [(store_emits_run h1).1, andThen]
      rw [if_pos (by omega)]
      simp only [h2]
      exact hr
    · rw [hc, append_code_eq h2, (store_emits_run h1).2]
      simp

theorem leaves_ne_nil (node : Node) : node.leaves ≠ [] := by
  intro h
  have := leaves_length_pos node.size node (Nat.le_refl _)
  rw [h] at this
  simp at this

/-- Stores of identifiers succeed when memory allows: `ASS` for each and a
`POP` between two of them. -/
theorem stores_of_idents (bd : Option Nat) (off : Int) :
    ∀ (items : List Node) (s : Env), items ≠ [] →
      (∀ t ∈ items, ∃ o l name, t = Node.ident o l name) →
      2 * items.length ≤ s.mem + 1 →
      ∃ s' code, StoresEmit bd off s items s' code := by
  intro items
  induction items with
  | nil => intro s hne; exact absurd rfl hne
  | cons x rest ih =>
    intro s _ hid hmem
    obtain ⟨o, l, name, rfl⟩ := hid x (List.mem_cons_self _ _)
    rcases s with ⟨code, cells, mem, error⟩
    cases rest with
    | nil =>
      simp only [List.length_cons, List.length_nil] at hmem
      obtain ⟨m, rfl⟩ : ∃ m, mem = m + 1 := ⟨mem - 1, by omega⟩
      exact ⟨_, _, StoresEmit.last (StoreEmits.ident rfl)⟩
    | cons y ys =>
      simp only [List.length_cons] at hmem
      obtain ⟨m, rfl⟩ : ∃ m, mem = m + 2 := ⟨mem - 2, by omega⟩
      obtain ⟨s', code', h'⟩ := ih
        ⟨code ++ [⟨Opcode.OPCODE_ASS, [Operand.string name], o, l⟩] ++
          [⟨Opcode.OPCODE_POP, [Operand.int 1], off, 0⟩], cells, m, error⟩ (by simp)
        (fun t ht => hid t (List.mem_cons_of_mem _ ht))
        (by simp only [List.length_cons]; omega)
      exact ⟨s', _, StoresEmit.more (StoreEmits.ident rfl) rfl h'⟩

/-- C21 with the conditions it needs: an assignment of a call to the
`N >= 2` flattened targets of its left side lowers successfully exactly when
`N <= 32`, the arguments and the callee of the call lower, the `CALL` is
appended and the stores succeed, each target being an identifier or an
index-selection whose receiver and index lower.  The instructions emitted are
then exactly those of the arguments in order, those of the callee, `CALL argc N`
and the stores of the targets in reverse order, `tN` first, with a `POP 1`
after every store except the last, that of `t1` (`StoresEmit`): `ASS name` for
an identifier; the receiver, the index and `INSERT2` for an index-selection.
When all targets are identifiers, `N <= 32` and the call has lowered, the
stores succeed if `2 * N - 1` allocations do. -/
theorem tuple_assignment_layout (s s' : Env) (bd : Option Nat) (offset length co cl argc : Int)
    (lop func : Node) (argv : List Node) (hN : 2 ≤ lop.leaves.length) :
    (emit_instr_for_node s (Node.ass offset length lop (Node.call co cl func argv argc)) bd
        = (true, s') →
      lop.leaves.length ≤ 32 ∧
      ∃ sa sf s1, EachEmits bd s argv sa (emitted s sa) ∧
        emit_instr_for_node sa func bd = (true, sf) ∧
        ExeBuilder_Append sf Opcode.OPCODE_CALL
          [Operand.int argc, Operand.int lop.leaves.length] co cl = (true, s1) ∧
        StoresEmit bd offset s1 lop.leaves.reverse s' (emitted s1 s') ∧
        emitted s s' = emitted s sa ++ emitted sa sf ++
          [⟨Opcode.OPCODE_CALL, [Operand.int argc, Operand.int lop.leaves.length], co, cl⟩] ++
          emitted s1 s' ∧
        s'.code = s.code ++ emitted s s') ∧
    (lop.leaves.length ≤ 32 → ∀ (sa sf s1 : Env) (c1 c2 : List Instr),
      EachEmits bd s argv sa c1 →
      emit_instr_for_node sa func bd = (true, sf) →
      ExeBuilder_Append sf Opcode.OPCODE_CALL
        [Operand.int argc, Operand.int lop.leaves.length] co cl = (true, s1) →
      StoresEmit bd offset s1 lop.leaves.reverse s' c2 →
      emit_instr_for_node s (Node.ass offset length lop (Node.call co cl func argv argc)) bd
        = (true, s')) ∧
    (lop.leaves.length ≤ 32 → (∀ t ∈ lop.leaves, ∃ o l name, t = Node.ident o l name) →
      ∀ s1 : Env, emit_instr_for_funccall emit_instr_for_node s func argv argc co cl bd
          lop.leaves.length = (true, s1) →
        2 * lop.leaves.length ≤ s1.mem + 1 →
        ∃ s2, emit_instr_for_node s (Node.ass offset length lop
          (Node.call co cl func argv argc)) bd = (true, s2)) := by
  have hne : lop.leaves.length ≠ 1 := by omega
  have hrev : lop.leaves.reverse ≠ [] := by
    intro h
    exact leaves_ne_nil lop (List.reverse_eq_nil_iff.1 h)
  refine ⟨?_, ?_, ?_⟩
  · intro h
    have hpre := emit_code_eq h
    rw [emit_instr_for_node_eq, emit_body_ass] at h
    by_cases hle : lop.leaves.length ≤ 32
    · rw [if_pos hle] at h
      simp only [andThen_eq_true, emit_rop, if_neg hne] at h
      obtain ⟨s1, h1, h2⟩ := h
      obtain ⟨sa, sf, ha, hf, hcall, hem1, hc1⟩ := emit_funccall_inv h1
      have hst := emit_stores_seq hrev (by simp) h2
      refine ⟨hle, sa, sf, s1, ha, hf, hcall, hst, ?_, hpre⟩
      apply emitted_of_code_eq
      rw [(@stores_emit_run bd offset lop.leaves.length _ _ _ _ hst 0 (by simp)).2, hc1, hem1]
      simp
    · rw [if_neg hle] at h
      cases h
  · intro hle sa sf s1 c1 c2 ha hf hcall hst
    rw [emit_instr_for_node_eq, emit_body_ass, if_pos hle]
    simp only [emit_rop, if_neg hne, emit_instr_for_funccall, (each_emits_run ha).1, hf, hcall,
      andThen]
    exact (@stores_emit_run bd offset lop.leaves.length _ _ _ _ hst 0 (by simp)).1
  · intro hle hid s1 h1 hmem
    obtain ⟨s2, code, hst⟩ := stores_of_idents bd offset lop.leaves.reverse s1 hrev
      (fun t ht => hid t (List.mem_reverse.1 ht)) (by simpa using hmem)
    refine ⟨s2, ?_⟩
    rw [emit_instr_for_node_eq, emit_body_ass, if_pos hle]
    simp only [emit_rop, if_neg hne, h1, andThen]
    exact (@stores_emit_run bd offset lop.leaves.length _ _ _ _ hst 0 (by simp)).1

theorem tuple_assignment_layout_witness :
    ∃ s', emit_instr_for_node example_env example_tuple_assign none = (true, s') ∧
      s'.code = [⟨Opcode.OPCODE_PUSHVAR, [Operand.string "f"], 10, 1⟩,
        ⟨Opcode.OPCODE_CALL, [Operand.int 0, Operand.int 2], 10, 3⟩,
        ⟨Opcode.OPCODE_ASS, [Operand.string "b"], 6, 1⟩,
        ⟨Opcode.OPCODE_POP, [Operand.int 1], 0, 0⟩,
        ⟨Opcode.OPCODE_PUSHVAR, [Operand.string "a"], 0, 1⟩,
        ⟨Opcode.OPCODE_PUSHINT, [Operand.int 0], 2, 1⟩,
        ⟨Opcode.OPCODE_INSERT2, [], 0, 4⟩] ∧
      (Node.pair 0 7 (Node.select 0 4 (Node.ident 0 1 "a") (Node.int 2 1 0))
        (Node.ident 6 1 "b")).leaves.length ≤ 32 ∧
      ∃ sa sf s1, EachEmits none example_env [] sa (emitted example_env sa) ∧
        emit_instr_for_node sa (Node.ident 10 1 "f") none = (true, sf) ∧
        ExeBuilder_Append sf Opcode.OPCODE_CALL
          [Operand.int 0, Operand.int (Node.pair 0 7
            (Node.select 0 4 (Node.ident 0 1 "a") (Node.int 2 1 0))
            (Node.ident 6 1 "b")).leaves.length] 10 3 = (true, s1) ∧
        StoresEmit none 0 s1 (Node.pair 0 7
            (Node.select 0 4 (Node.ident 0 1 "a") (Node.int 2 1 0))
            (Node.ident 6 1 "b")).leaves.reverse s' (emitted s1 s') ∧
        emitted example_env s' = emitted example_env sa ++ emitted sa sf ++
          [⟨Opcode.OPCODE_CALL, [Operand.int 0, Operand.int (Node.pair 0 7
            (Node.select 0 4 (Node.ident 0 1 "a") (Node.int 2 1 0))
            (Node.ident 6 1 "b")).leaves.length], 10, 3⟩] ++
          emitted s1 s' ∧
        s'.code = example_env.code ++ emitted example_env s' :=
  ⟨_, rfl, rfl, (tuple_assignment_layout example_env _ none 0 13 10 3 0
    (Node.pair 0 7 (Node.select 0 4 (Node.ident 0 1 "a") (Node.int 2 1 0))
      (Node.ident 6 1 "b")) (Node.ident 10 1 "f") [] (by decide)).1 rfl⟩

/-- The assignment of `f()` to 33 identifiers: the left side flattens to
`N = 33 >= 2` targets, each an identifier, the right side is a call that
lowers successfully, and yet lowering fails, with the capacity error of the
tuple buffer, and appends nothing. -/
theorem tuple_assignment_cap_counterexample :
    (example_targets 32).leaves = List.replicate 33 (Node.ident 0 1 "t") ∧
    (emit_instr_for_node example_env (Node.call 0 3 (Node.ident 0 1 "f") [] 0) none).1 = true ∧
    emit_instr_for_node example_env example_wide_assign none =
      (false, { example_env with
        error := Error.report false ErrorMessage.static_buffer_too_small }) :=
  ⟨rfl, rfl, rfl⟩

/-- The body of the emitter fails on a tree with a stray pair when its
recursive calls do. -/
theorem emit_body_rejects_pair {rec : Emitter}
    (hrec : ∀ s node bd, StrayPair node → (rec s node bd).1 = false)
    (s : Env) (node : Node) (bd : Option Nat) (h : StrayPair node) :
    (emit_body rec s node bd).1 = false := by
  cases h with
  | pair => rfl
  | oper hx h' =>
    simp only [emit_body]
    exact andThen_fst_false (emit_each_fails hx (fun s1 => hrec s1 _ bd h') s)
  | @ass_target o l lop rop leaf hl hs =>
    rw [emit_body_ass]
    split
    · refine andThen_fst_false_of_rest (fun s1 =>
        emit_stores_fails (List.mem_reverse.2 hl) (fun s2 => ?_) 0 s1)
      cases hs with
      | select_set h'' =>
        simp only [emit_store]
        exact andThen_fst_false (hrec s2 _ bd h'')
      | select_idx h'' =>
        simp only [emit_store]
        exact andThen_fst_false_of_rest (fun s3 => andThen_fst_false (hrec s3 _ bd h''))
      | _ => rfl
    · rfl
  | @ass_rop o l lop rop h' =>
    rw [emit_body_ass]
    split
    · apply andThen_fst_false
      unfold emit_rop
      split
      · exact hrec s _ bd h'
      · cases h' with
        | call_func h'' =>
          exact emit_instr_for_funccall_fails (Or.inl (fun s1 => hrec s1 _ bd h'')) _ _ _ _ _
        | call_arg hx h'' =>
          exact emit_instr_for_funccall_fails
            (Or.inr ⟨_, hx, fun s1 => hrec s1 _ bd h''⟩) _ _ _ _ _
        | _ => rfl
    · rfl
  | list hx h' =>
    simp only [emit_body]
    exact andThen_fst_false_of_rest (fun s1 =>
      emit_list_items_fails hx (fun s2 => hrec s2 _ bd h') 0 s1)
  | map_key hx h' =>
    simp only [emit_body]
    exact andThen_fst_false_of_rest (fun s1 =>
      emit_map_items_fails hx (Or.inl (fun s2 => hrec s2 _ bd h')) s1)
  | map_item hx h' =>
    simp only [emit_body]
    exact andThen_fst_false_of_rest (fun s1 =>
      emit_map_items_fails hx (Or.inr (fun s2 => hrec s2 _ bd h')) s1)
  | call_func h' =>
    exact emit_instr_for_funccall_fails (Or.inl (fun s1 => hrec s1 _ bd h')) _ _ _ _ _
  | call_arg hx h' =>
    exact emit_instr_for_funccall_fails (Or.inr ⟨_, hx, fun s1 => hrec s1 _ bd h'⟩) _ _ _ _ _
  | select_set h' =>
    simp only [emit_body]
    exact andThen_fst_false (hrec s _ bd h')
  | select_idx h' =>
    simp only [emit_body]
    exact andThen_fst_false_of_rest (fun s1 => andThen_fst_false (hrec s1 _ bd h'))
  | @if_condition o l c t fb h' =>
    cases fb <;> simp only [emit_body] <;> exact andThen_fst_false (hrec s _ bd h')
  | @if_true o l c t fb h' =>
    cases fb with
    | none =>
      simp only [emit_body]
      refine andThen_fst_false_of_rest (fun s1 => ?_)
      split
      · exact andThen_fst_false_of_rest (fun s2 => andThen_fst_false (hrec s2 _ bd h'))
      · rfl
    | some f =>
      simp only [emit_body]
      refine andThen_fst_false_of_rest (fun s1 => ?_)
      split
      · exact andThen_fst_false_of_rest (fun s2 => andThen_fst_false (hrec s2 _ bd h'))
      · rfl
  | if_false h' =>
    simp only [emit_body]
    refine andThen_fst_false_of_rest (fun s1 => ?_)
    split
    · exact andThen_fst_false_of_rest (fun s2 => andThen_fst_false_of_rest (fun s3 =>
        andThen_fst_false_of_rest (fun s4 => andThen_fst_false_of_rest (fun s5 =>
          andThen_fst_false (hrec _ _ bd h')))))
    · rfl
  | while_condition h' =>
    simp only [emit_body]
    split
    · exact andThen_fst_false (hrec _ _ bd h')
    · rfl
  | while_body h' =>
    simp only [emit_body]
    split
    · exact andThen_fst_false_of_rest (fun s1 => andThen_fst_false_of_rest (fun s2 =>
        andThen_fst_false (hrec s2 _ _ h')))
    · rfl
  | dowhile_body h' =>
    simp only [emit_body]
    split
    · exact andThen_fst_false (hrec _ _ _ h')
    · rfl
  | dowhile_condition h' =>
    simp only [emit_body]
    split
    · exact andThen_fst_false_of_rest (fun s1 => andThen_fst_false_of_rest (fun s2 =>
        andThen_fst_false (hrec s2 _ bd h')))
    · rfl
  | comp hx h' =>
    simp only [emit_body]
    exact emit_stmts_fails hx (fun s1 => hrec s1 _ bd h') s
  | @ret_value o l val leaf hl hs =>
    simp only [emit_body]
    rw [flatten_tuple_tree_eq val [] 32 s.error (by simp)]
    by_cases hle : ([] : List Node).length + val.leaves.length ≤ 32
    · rw [if_pos hle]
      simp only [List.nil_append]
      exact andThen_fst_false (emit_each_fails hl (fun s1 => hrec s1 _ bd hs) s)
    · rw [if_neg hle]
  | func_body h' =>
    simp only [emit_body]
    split
    · exact andThen_fst_false_of_rest (fun s1 => andThen_fst_false_of_rest (fun s2 =>
        andThen_fst_false_of_rest (fun s3 => andThen_fst_false_of_rest (fun s4 =>
          andThen_fst_false_of_rest (fun s5 =>
            andThen_fst_false (hrec s5 _ none h'))))))
    · rfl

theorem emit_depth_rejects_pair (depth : Nat) : ∀ (s : Env) (node : Node) (bd : Option Nat),
    StrayPair node → (emit_depth depth s node bd).1 = false := by
  induction depth with
  | zero => intro s node bd _; rfl
  | succ d ih => exact emit_body_rejects_pair ih

/-- C26: `emit_instr_for_node` on a pair expression always reports the error
of a tuple outside of an assignment or return statement and appends nothing;
lowering fails on every tree in which the emitter meets a pair (`StrayPair`:
a pair anywhere but on the spine of pairs of the left side of an assignment
or of the value of a return statement, as an operand, an argument, an element,
a condition, a branch, a body or the right side of an assignment), with any
`break_dest`; and `compile` returns `NULL` on every such AST. -/
theorem pair_outside_assignment_fails :
    (∀ (s : Env) (bd : Option Nat) (offset length : Int) (left right : Node),
      emit_instr_for_node s (Node.pair offset length left right) bd =
        (false, { s with error := Error.report false ErrorMessage.tuple_outside })) ∧
    (∀ (s : Env) (node : Node) (bd : Option Nat), StrayPair node →
      (emit_instr_for_node s node bd).1 = false) ∧
    (∀ (ast : AST) (alloc : Option BPAlloc) (error : Error) (mem : Nat),
      StrayPair ast.root → (compile ast alloc error mem).1 = none) := by
  refine ⟨fun s bd o l x y => ?_, fun s node bd h =>
    emit_depth_rejects_pair node.size s node bd h, ?_⟩
  · rw [emit_instr_for_node_eq]
    rfl
  · intro ast alloc error mem h
    have hf := emit_depth_rejects_pair ast.root.size
    unfold compile
    split
    · rfl
    · split
      · rfl
      · rename_i exeb _
        have := hf exeb ast.root none h
        split
        · rfl
        · rename_i s1 h1
          change (emit_depth ast.root.size exeb ast.root none) = _ at h1
          rw [h1] at this
          cases this

theorem pair_outside_assignment_fails_witness :
    StrayPair example_stray_pair ∧
    (compile ⟨example_stray_pair, ⟨16⟩⟩ none Error.unset 64).1 = none ∧
    compile ⟨example_stray_pair, ⟨16⟩⟩ none Error.unset 64 =
      (none, Error.report false ErrorMessage.tuple_outside) :=
  have h : StrayPair example_stray_pair :=
    StrayPair.comp (List.mem_cons_self _ _) (StrayPair.ass_rop
      (StrayPair.call_arg (List.mem_cons_self _ _) StrayPair.pair))
  ⟨h, pair_outside_assignment_fails.2.2 ⟨example_stray_pair, ⟨16⟩⟩ none Error.unset 64 h, rfl⟩

/-! ## C28: lowering at another position -/

theorem emit_body_ret (rec : Emitter) (s : Env) (offset length : Int) (val : Node)
    (bd : Option Nat) :
    emit_body rec s (Node.ret offset length val) bd =
      if val.leaves.length ≤ 32 then
        andThen (emit_each rec bd val.leaves s) fun s1 =>
          ExeBuilder_Append s1 Opcode.OPCODE_RETURN [Operand.int val.leaves.length] offset length
      else
        (false, { s with error := Error.report false ErrorMessage.static_buffer_too_small }) := by
  have hflat := flatten_tuple_tree_eq val [] 32 s.error (by simp)
  simp only [List.length_nil, Nat.zero_add, List.nil_append, Nat.sub_zero] at hflat
  simp only [emit_body, hflat]
  by_cases hle : val.leaves.length ≤ 32
  · rw [if_pos hle, if_pos hle]
  · rw [if_neg hle, if_neg hle]
    rfl

theorem false_reloc (r : Runs) (s t : Env) : RelocatedResult r (false, s) (false, t) :=
  ⟨fun _ => rfl, fun h => Bool.noConfusion h, fun h => Bool.noConfusion h,
    fun _ h => Bool.noConfusion h⟩

theorem fail_reloc (r : Runs) (s t : Env) (internal internal' : Bool)
    (message message' : ErrorMessage) :
    RelocatedResult r (fail s internal message) (fail t internal' message') :=
  false_reloc r _ _

theorem true_reloc {r : Runs} {s t : Env} (h : Relocated r s t) :
    RelocatedResult r (true, s) (true, t) :=
  ⟨fun _ => rfl, fun _ _ => h, fun _ h => Bool.noConfusion h, fun h => Bool.noConfusion h⟩

/-- The first run ran out of memory where the second, with another budget,
may go on. -/
theorem reloc_of_oom_left {r : Runs} {x : Bool × Env} (y : Bool × Env) (hne : r.m0 ≠ r.n0)
    (hx : OutOfMemory x) : RelocatedResult r x y :=
  ⟨fun h => absurd h hne, fun h => (by rw [hx.1] at h; cases h),
    fun h => (by rw [hx.1] at h; cases h), fun _ _ => hx⟩

theorem reloc_of_oom_right {r : Runs} (x : Bool × Env) {y : Bool × Env} (hne : r.m0 ≠ r.n0)
    (hy : OutOfMemory y) : RelocatedResult r x y :=
  ⟨fun h => absurd h hne, fun _ h => (by rw [hy.1] at h; cases h), fun _ _ => hy,
    fun _ h => (by rw [hy.1] at h; cases h)⟩

theorem andThen_reloc {r : Runs} {x y : Bool × Env} {f g : Env → Bool × Env}
    (hxy : RelocatedResult r x y)
    (hfg : ∀ s t, Relocated r s t → RelocatedResult r (f s) (g t)) :
    RelocatedResult r (andThen x f) (andThen y g) := by
  rcases x with ⟨b, s⟩
  rcases y with ⟨b', t⟩
  obtain ⟨h1, h2, h3, h4⟩ := hxy
  cases b <;> cases b'
  · exact false_reloc r s t
  · have hx := h4 rfl rfl
    exact ⟨fun h => Bool.noConfusion (h1 h), fun h => Bool.noConfusion h,
      fun h => Bool.noConfusion h, fun _ _ => hx⟩
  · have hy := h3 rfl rfl
    exact ⟨fun h => Bool.noConfusion (h1 h), fun _ h => Bool.noConfusion h,
      fun _ _ => hy, fun _ h => Bool.noConfusion h⟩
  · exact hfg s t (h2 rfl rfl)

theorem forall₂_concat {α β : Type} {R : α → β → Prop} {l1 : List α} {l2 : List β}
    {a : α} {b : β} (h : List.Forall₂ R l1 l2) (hab : R a b) :
    List.Forall₂ R (l1 ++ [a]) (l2 ++ [b]) := by
  induction h with
  | nil => exact List.Forall₂.cons hab List.Forall₂.nil
  | cons h1 _ ih => exact List.Forall₂.cons h1 ih

/-- An append in the two runs, of an instruction and of the one in its place. -/
theorem append_reloc {r : Runs} {s t : Env} (h : Relocated r s t)
    (opcode : Opcode) (ops ops' : List Operand) (offset length : Int)
    (hi : InstrRelocated r ⟨opcode, ops, offset, length⟩ ⟨opcode, ops', offset, length⟩) :
    RelocatedResult r (ExeBuilder_Append s opcode ops offset length)
      (ExeBuilder_Append t opcode ops' offset length) := by
  obtain ⟨hmem, hks, hcells, hp, hlen, hcode, hcell⟩ := h
  rcases s with ⟨code, cells, mem, error⟩
  rcases t with ⟨code', cells', mem', error'⟩
  simp only at hmem hks hcells hp hlen hcode hcell
  cases mem with
  | zero =>
    cases mem' with
    | zero => exact fail_reloc r _ _ _ _ _ _
    | succ m' => exact reloc_of_oom_left _ (by omega) ⟨rfl, rfl⟩
  | succ m =>
    cases mem' with
    | zero => exact reloc_of_oom_right _ (by omega) ⟨rfl, rfl⟩
    | succ m' =>
      refine true_reloc ⟨?_, hks, hcells, ?_, ?_, ?_, hcell⟩
      · show m + r.n0 = m' + r.m0
        omega
      · show r.p0 ≤ (code ++ [_]).length
        rw [List.length_append]
        omega
      · show (code' ++ [_]).length + r.p0 = (code ++ [_]).length + r.q0
        simp only [List.length_append, List.length_singleton]
        omega
      · show List.Forall₂ _ ((code ++ [_]).drop r.p0) ((code' ++ [_]).drop r.q0)
        rw [List.drop_append_of_le_length hp, List.drop_append_of_le_length (by omega)]
        exact forall₂_concat hcode hi

theorem operands_refl (r : Runs) (ops : List Operand) (h : ∀ c, Operand.promise c ∉ ops) :
    List.Forall₂ (OperandRelocated r false) ops ops := by
  induction ops with
  | nil => exact List.Forall₂.nil
  | cons op rest ih =>
    refine List.Forall₂.cons ?_ (ih (fun c hc => h c (List.mem_cons_of_mem _ hc)))
    cases op with
    | promise c => exact absurd (List.mem_cons_self _ _) (h c)
    | _ => simp [OperandRelocated]

/-- An append of the same instruction, one without forward references and
not a `JUMPIFANDPOP`, in the two runs. -/
theorem append_same_reloc {r : Runs} {s t : Env} (h : Relocated r s t)
    (opcode : Opcode) (ops : List Operand) (offset length : Int)
    (hop : opcode ≠ Opcode.OPCODE_JUMPIFANDPOP) (hops : ∀ c, Operand.promise c ∉ ops) :
    RelocatedResult r (ExeBuilder_Append s opcode ops offset length)
      (ExeBuilder_Append t opcode ops offset length) := by
  refine append_reloc h opcode ops ops offset length ⟨rfl, rfl, rfl, ?_⟩
  have : decide (opcode = Opcode.OPCODE_JUMPIFANDPOP) = false := by simp [hop]
  simp only [this]
  exact operands_refl r ops hops

/-- An append of a jump to the same cell in the two runs. -/
theorem append_jump_reloc {r : Runs} {s t : Env} (h : Relocated r s t)
    (opcode : Opcode) (c d : Nat) (offset length : Int) (hcd : CellRelocated r c d) :
    RelocatedResult r (ExeBuilder_Append s opcode [Operand.promise c] offset length)
      (ExeBuilder_Append t opcode [Operand.promise d] offset length) :=
  append_reloc h opcode _ _ offset length
    ⟨rfl, rfl, rfl, List.Forall₂.cons hcd List.Forall₂.nil⟩

theorem promise_new_reloc {r : Runs} {s t : Env} (h : Relocated r s t) :
    (Promise_New s = (none, s) ∧ Promise_New t = (none, t)) ∨
    (Promise_New s = (none, s) ∧ r.m0 ≠ r.n0) ∨
    (Promise_New t = (none, t) ∧ r.m0 ≠ r.n0) ∨
    ∃ s1 t1, Promise_New s = (some s.cells.length, s1) ∧
      Promise_New t = (some t.cells.length, t1) ∧ Relocated r s1 t1 ∧
      r.ks ≤ s.cells.length ∧ t.cells.length + r.ks = s.cells.length + r.kt := by
  obtain ⟨hmem, hks, hcells, hp, hlen, hcode, hcell⟩ := h
  rcases s with ⟨code, cells, mem, error⟩
  rcases t with ⟨code', cells', mem', error'⟩
  simp only at hmem hks hcells hp hlen hcode hcell
  cases mem with
  | zero =>
    cases mem' with
    | zero => exact Or.inl ⟨rfl, rfl⟩
    | succ m' => exact Or.inr (Or.inl ⟨rfl, by omega⟩)
  | succ m =>
    cases mem' with
    | zero => exact Or.inr (Or.inr (Or.inl ⟨rfl, by omega⟩))
    | succ m' =>
      refine Or.inr (Or.inr (Or.inr ⟨⟨code, cells ++ [Promise.pending], m, error⟩,
        ⟨code', cells' ++ [Promise.pending], m', error'⟩, rfl, rfl,
        ⟨?_, ?_, ?_, hp, hlen, hcode, ?_⟩, hks, hcells⟩))
      · show m + r.n0 = m' + r.m0
        omega
      · show r.ks ≤ (cells ++ [_]).length
        rw [List.length_append]
        omega
      · show (cells' ++ [_]).length + r.ks = (cells ++ [_]).length + r.kt
        simp only [List.length_append, List.length_singleton]
        omega
      · intro j
        show (cells' ++ [Promise.pending])[r.kt + j]? =
          ((cells ++ [Promise.pending])[r.ks + j]?).map _
        rcases Nat.lt_trichotomy (r.ks + j) cells.length with hlt | heq | hgt
        · rw [List.getElem?_append_left (by omega), List.getElem?_append_left hlt]
          exact hcell j
        · have heq' : r.kt + j = cells'.length := by omega
          rw [heq, heq', List.getElem?_append_right (Nat.le_refl _),
            List.getElem?_append_right (Nat.le_refl _)]
          simp [Promise.shift]
        · rw [List.getElem?_eq_none (by simp; omega), List.getElem?_eq_none (by simp; omega)]
          rfl

theorem write_shift (delta v : Int) (cell : Promise) :
    Promise.write (v + delta) (Promise.shift delta cell) =
      Promise.shift delta (Promise.write v cell) := by
  cases cell <;> rfl

theorem count_reloc {r : Runs} {s t : Env} (h : Relocated r s t) :
    ExeBuilder_InstrCount t = ExeBuilder_InstrCount s + r.delta := by
  obtain ⟨-, -, -, -, hlen, -, -⟩ := h
  unfold ExeBuilder_InstrCount Runs.delta
  omega

/-- The resolution of the same own cell to the instruction count in the two
runs. -/
theorem resolve_reloc {r : Runs} {s t : Env} (h : Relocated r s t) (c d : Nat)
    (hd : d + r.ks = c + r.kt) :
    Relocated r (Promise_Resolve s c (ExeBuilder_InstrCount s))
      (Promise_Resolve t d (ExeBuilder_InstrCount t)) := by
  have hcount := count_reloc h
  obtain ⟨hmem, hks, hcells, hp0, hlen, hcode, hcell⟩ := h
  refine ⟨hmem, ?_, ?_, hp0, hlen, hcode, ?_⟩
  · rw [resolve_cells_length]
    exact hks
  · rw [resolve_cells_length, resolve_cells_length]
    exact hcells
  · intro j
    by_cases hj : c = r.ks + j
    · have hj' : d = r.kt + j := by omega
      rw [← hj, ← hj', resolve_get_eq, resolve_get_eq, hj', hcell j, ← hj, hcount]
      cases s.cells[c]? with
      | none => rfl
      | some cell =>
        simp only [Option.map_some']
        rw [write_shift]
    · rw [resolve_get_ne _ _ hj, resolve_get_ne _ _ (by omega)]
      exact hcell j

theorem pop_if_expr_reloc {r : Runs} {s t : Env} (h : Relocated r s t)
    (stmt : Node) (offset : Int) :
    RelocatedResult r (pop_if_expr s stmt offset) (pop_if_expr t stmt offset) := by
  unfold pop_if_expr
  split
  · exact append_same_reloc h _ _ _ _ (by decide) (by simp)
  · exact true_reloc h

theorem emit_each_reloc {rec : Emitter} (hrec : rec.Relocates) {r : Runs} {bs bt : Option Nat}
    (hbd : BreakRelocated r bs bt) (xs : List Node) :
    ∀ s t, Relocated r s t →
      RelocatedResult r (emit_each rec bs xs s) (emit_each rec bt xs t) := by
  induction xs with
  | nil => intro s t h; exact true_reloc h
  | cons x rest ih =>
    intro s t h
    simp only [emit_each]
    exact andThen_reloc (hrec _ _ _ _ _ _ h hbd) ih

theorem emit_instr_for_funccall_reloc {rec : Emitter} (hrec : rec.Relocates) {r : Runs}
    {bs bt : Option Nat} (hbd : BreakRelocated r bs bt) {s t : Env} (h : Relocated r s t)
    (func : Node) (argv : List Node) (argc offset length returns : Int) :
    RelocatedResult r
      (emit_instr_for_funccall rec s func argv argc offset length bs returns)
      (emit_instr_for_funccall rec t func argv argc offset length bt returns) := by
  simp only [emit_instr_for_funccall]
  refine andThen_reloc (emit_each_reloc hrec hbd argv s t h) (fun s1 t1 h1 => ?_)
  refine andThen_reloc (hrec _ _ _ _ _ _ h1 hbd) (fun s2 t2 h2 => ?_)
  exact append_same_reloc h2 _ _ _ _ (by decide) (by simp)

theorem emit_store_reloc {rec : Emitter} (hrec : rec.Relocates) {r : Runs}
    {bs bt : Option Nat} (hbd : BreakRelocated r bs bt) {s t : Env} (h : Relocated r s t)
    (item : Node) :
    RelocatedResult r (emit_store rec bs s item) (emit_store rec bt t item) := by
  cases item with
  | ident o l name => exact append_same_reloc h _ _ _ _ (by decide) (by simp)
  | select o l set idx =>
    simp only [emit_store]
    refine andThen_reloc (hrec _ _ _ _ _ _ h hbd) (fun s1 t1 h1 => ?_)
    refine andThen_reloc (hrec _ _ _ _ _ _ h1 hbd) (fun s2 t2 h2 => ?_)
    exact append_same_reloc h2 _ _ _ _ (by decide) (by simp)
  | _ => exact fail_reloc _ _ _ _ _ _ _

theorem emit_stores_reloc {rec : Emitter} (hrec : rec.Relocates) {r : Runs}
    {bs bt : Option Nat} (hbd : BreakRelocated r bs bt) (off : Int) (count : Nat)
    (items : List Node) :
    ∀ i s t, Relocated r s t →
      RelocatedResult r (emit_stores rec bs off count items i s)
        (emit_stores rec bt off count items i t) := by
  induction items with
  | nil => intro i s t h; exact true_reloc h
  | cons x rest ih =>
    intro i s t h
    simp only [emit_stores]
    refine andThen_reloc (emit_store_reloc hrec hbd h x) (fun s1 t1 h1 => ?_)
    refine andThen_reloc ?_ (fun s2 t2 h2 => ih (i + 1) s2 t2 h2)
    split
    · exact append_same_reloc h1 _ _ _ _ (by decide) (by simp)
    · exact true_reloc h1

theorem emit_list_items_reloc {rec : Emitter} (hrec : rec.Relocates) {r : Runs}
    {bs bt : Option Nat} (hbd : BreakRelocated r bs bt) (xs : List Node) :
    ∀ i s t, Relocated r s t →
      RelocatedResult r (emit_list_items rec bs xs i s) (emit_list_items rec bt xs i t) := by
  induction xs with
  | nil => intro i s t h; exact true_reloc h
  | cons x rest ih =>
    intro i s t h
    simp only [emit_list_items]
    refine andThen_reloc (append_same_reloc h _ _ _ _ (by decide) (by simp))
      (fun s1 t1 h1 => ?_)
    refine andThen_reloc (hrec _ _ _ _ _ _ h1 hbd) (fun s2 t2 h2 => ?_)
    refine andThen_reloc (append_same_reloc h2 _ _ _ _ (by decide) (by simp))
      (fun s3 t3 h3 => ?_)
    exact ih (i + 1) s3 t3 h3

theorem emit_map_items_reloc {rec : Emitter} (hrec : rec.Relocates) {r : Runs}
    {bs bt : Option Nat} (hbd : BreakRelocated r bs bt) (es : List (Node × Node)) :
    ∀ s t, Relocated r s t →
      RelocatedResult r (emit_map_items rec bs es s) (emit_map_items rec bt es t) := by
  induction es with
  | nil => intro s t h; exact true_reloc h
  | cons x rest ih =>
    intro s t h
    rcases x with ⟨key, item⟩
    simp only [emit_map_items]
    refine andThen_reloc (hrec _ _ _ _ _ _ h hbd) (fun s1 t1 h1 => ?_)
    refine andThen_reloc (hrec _ _ _ _ _ _ h1 hbd) (fun s2 t2 h2 => ?_)
    refine andThen_reloc (append_same_reloc h2 _ _ _ _ (by decide) (by simp))
      (fun s3 t3 h3 => ?_)
    exact ih s3 t3 h3

theorem emit_stmts_reloc {rec : Emitter} (hrec : rec.Relocates) {r : Runs}
    {bs bt : Option Nat} (hbd : BreakRelocated r bs bt) (xs : List Node) :
    ∀ s t, Relocated r s t →
      RelocatedResult r (emit_stmts rec bs xs s) (emit_stmts rec bt xs t) := by
  induction xs with
  | nil => intro s t h; exact true_reloc h
  | cons x rest ih =>
    intro s t h
    simp only [emit_stmts]
    refine andThen_reloc (hrec _ _ _ _ _ _ h hbd) (fun s1 t1 h1 => ?_)
    exact andThen_reloc (pop_if_expr_reloc h1 _ _) ih

theorem emit_args_reloc {r : Runs} (argv : List ArgumentNode) :
    ∀ s t, Relocated r s t →
      RelocatedResult r (emit_args argv s) (emit_args argv t) := by
  induction argv with
  | nil => intro s t h; exact true_reloc h
  | cons x rest ih =>
    intro s t h
    simp only [emit_args]
    refine andThen_reloc (append_same_reloc h _ _ _ _ (by decide) (by simp))
      (fun s1 t1 h1 => ?_)
    exact andThen_reloc (append_same_reloc h1 _ _ _ _ (by decide) (by simp)) ih

theorem emit_rop_reloc {rec : Emitter} (hrec : rec.Relocates) {r : Runs}
    {bs bt : Option Nat} (hbd : BreakRelocated r bs bt) {s t : Env} (h : Relocated r s t)
    (rop : Node) (count : Nat) :
    RelocatedResult r (emit_rop rec s rop bs count) (emit_rop rec t rop bt count) := by
  unfold emit_rop
  split
  · exact hrec _ _ _ _ _ _ h hbd
  · cases rop with
    | call co cl func argv argc => exact emit_instr_for_funccall_reloc hrec hbd h _ _ _ _ _ _
    | _ => exact fail_reloc _ _ _ _ _ _ _

theorem break_reloc_none (r : Runs) : BreakRelocated r none none :=
  trivial

theorem break_reloc_own {r : Runs} {c d : Nat} (hc : r.ks ≤ c) (hd : d + r.ks = c + r.kt) :
    BreakRelocated r (some c) (some d) :=
  Or.inl ⟨hc, hd⟩

/-- The body of the emitter relocates when its recursive calls do. -/
theorem emit_body_reloc {rec : Emitter} (hrec : rec.Relocates) : (emit_body rec).Relocates := by
  intro r s t node bs bt h hbd
  cases node with
  | pair o l x y => exact fail_reloc _ _ _ _ _ _ _
  | oper kind o l head =>
    simp only [emit_body]
    refine andThen_reloc (emit_each_reloc hrec hbd head s t h) (fun s1 t1 h1 => ?_)
    exact append_same_reloc h1 _ _ _ _ (by cases kind <;> decide) (by simp)
  | ass o l lop rop =>
    rw [emit_body_ass, emit_body_ass]
    split
    · exact andThen_reloc (emit_rop_reloc hrec hbd h rop _)
        (fun s1 t1 h1 => emit_stores_reloc hrec hbd o _ _ 0 s1 t1 h1)
    · exact false_reloc _ _ _
  | int o l v => exact append_same_reloc h _ _ _ _ (by decide) (by simp)
  | float o l v => exact append_same_reloc h _ _ _ _ (by decide) (by simp)
  | string o l v => exact append_same_reloc h _ _ _ _ (by decide) (by simp)
  | ident o l v => exact append_same_reloc h _ _ _ _ (by decide) (by simp)
  | list o l items itemc =>
    simp only [emit_body]
    exact andThen_reloc (append_same_reloc h _ _ _ _ (by decide) (by simp))
      (fun s1 t1 h1 => emit_list_items_reloc hrec hbd items 0 s1 t1 h1)
  | map o l entries itemc =>
    simp only [emit_body]
    exact andThen_reloc (append_same_reloc h _ _ _ _ (by decide) (by simp))
      (fun s1 t1 h1 => emit_map_items_reloc hrec hbd entries s1 t1 h1)
  | call o l func argv argc => exact emit_instr_for_funccall_reloc hrec hbd h _ _ _ _ _ _
  | select o l set idx =>
    simp only [emit_body]
    refine andThen_reloc (hrec _ _ _ _ _ _ h hbd) (fun s1 t1 h1 => ?_)
    refine andThen_reloc (hrec _ _ _ _ _ _ h1 hbd) (fun s2 t2 h2 => ?_)
    exact append_same_reloc h2 _ _ _ _ (by decide) (by simp)
  | none o l => exact append_same_reloc h _ _ _ _ (by decide) (by simp)
  | true o l => exact append_same_reloc h _ _ _ _ (by decide) (by simp)
  | false o l => exact append_same_reloc h _ _ _ _ (by decide) (by simp)
  | brk o l =>
    cases bs with
    | none =>
      cases bt with
      | none => exact fail_reloc _ _ _ _ _ _ _
      | some d => exact False.elim hbd
    | some c =>
      cases bt with
      | none => exact False.elim hbd
      | some d => exact append_jump_reloc h _ c d _ _ hbd
  | ifelse o l c tb fb =>
    cases fb with
    | none =>
      simp only [emit_body]
      refine andThen_reloc (hrec _ _ _ _ _ _ h hbd) (fun s1 t1 h1 => ?_)
      rcases promise_new_reloc h1 with ⟨hs, ht⟩ | ⟨hs, hne⟩ | ⟨ht, hne⟩ |
        ⟨a, b, hs, ht, h2, hk, hd⟩
      · rw [hs, ht]
        exact fail_reloc _ _ _ _ _ _ _
      · rw [hs]
        exact reloc_of_oom_left _ hne ⟨rfl, rfl⟩
      · rw [ht]
        exact reloc_of_oom_right _ hne ⟨rfl, rfl⟩
      · rw [hs, ht]
        simp only
        refine andThen_reloc (append_jump_reloc h2 _ _ _ _ _ (Or.inl ⟨hk, hd⟩))
          (fun s3 t3 h3 => ?_)
        refine andThen_reloc (hrec _ _ _ _ _ _ h3 hbd) (fun s4 t4 h4 => ?_)
        refine andThen_reloc (pop_if_expr_reloc h4 _ _) (fun s5 t5 h5 => ?_)
        exact true_reloc (resolve_reloc h5 _ _ hd)
    | some f =>
      simp only [emit_body]
      refine andThen_reloc (hrec _ _ _ _ _ _ h hbd) (fun s1 t1 h1 => ?_)
      rcases promise_new_reloc h1 with ⟨hs, ht⟩ | ⟨hs, hne⟩ | ⟨ht, hne⟩ |
        ⟨a1, b1, hs, ht, h2, hk, hd⟩
      · simp only [hs, ht]
        exact fail_reloc _ _ _ _ _ _ _
      · simp only [hs]
        exact reloc_of_oom_left _ hne ⟨rfl, rfl⟩
      · simp only [ht]
        exact reloc_of_oom_right _ hne ⟨rfl, rfl⟩
      · rcases promise_new_reloc h2 with ⟨hs2, ht2⟩ | ⟨hs2, hne⟩ | ⟨ht2, hne⟩ |
          ⟨a2, b2, hs2, ht2, h3, hk2, hd2⟩
        · simp only [hs, ht, hs2, ht2]
          exact fail_reloc _ _ _ _ _ _ _
        · simp only [hs, hs2]
          exact reloc_of_oom_left _ hne ⟨rfl, rfl⟩
        · simp only [ht, ht2]
          exact reloc_of_oom_right _ hne ⟨rfl, rfl⟩
        · simp only [hs, ht, hs2, ht2]
          refine andThen_reloc (append_jump_reloc h3 _ _ _ _ _ (Or.inl ⟨hk, hd⟩))
            (fun s4 t4 h4 => ?_)
          refine andThen_reloc (hrec _ _ _ _ _ _ h4 hbd) (fun s5 t5 h5 => ?_)
          refine andThen_reloc (pop_if_expr_reloc h5 _ _) (fun s6 t6 h6 => ?_)
          refine andThen_reloc (append_jump_reloc h6 _ _ _ _ _ (Or.inl ⟨hk2, hd2⟩))
            (fun s7 t7 h7 => ?_)
          refine andThen_reloc (hrec _ _ _ _ _ _ (resolve_reloc h7 _ _ hd) hbd)
            (fun s8 t8 h8 => ?_)
          refine andThen_reloc (pop_if_expr_reloc h8 _ _) (fun s9 t9 h9 => ?_)
          exact true_reloc (resolve_reloc h9 _ _ hd2)
  | «while» o l c body =>
    simp only [emit_body]
    rcases promise_new_reloc h with ⟨hs, ht⟩ | ⟨hs, hne⟩ | ⟨ht, hne⟩ |
      ⟨a1, b1, hs, ht, h2, hk, hd⟩
    · simp only [hs, ht]
      exact fail_reloc _ _ _ _ _ _ _
    · simp only [hs]
      exact reloc_of_oom_left _ hne ⟨rfl, rfl⟩
    · simp only [ht]
      exact reloc_of_oom_right _ hne ⟨rfl, rfl⟩
    · rcases promise_new_reloc h2 with ⟨hs2, ht2⟩ | ⟨hs2, hne⟩ | ⟨ht2, hne⟩ |
        ⟨a2, b2, hs2, ht2, h3, hk2, hd2⟩
      · simp only [hs, ht, hs2, ht2]
        exact fail_reloc _ _ _ _ _ _ _
      · simp only [hs, hs2]
        exact reloc_of_oom_left _ hne ⟨rfl, rfl⟩
      · simp only [ht, ht2]
        exact reloc_of_oom_right _ hne ⟨rfl, rfl⟩
      · simp only [hs, ht, hs2, ht2]
        refine andThen_reloc (hrec _ _ _ _ _ _ (resolve_reloc h3 _ _ hd) hbd)
          (fun s4 t4 h4 => ?_)
        refine andThen_reloc (append_jump_reloc h4 _ _ _ _ _ (Or.inl ⟨hk2, hd2⟩))
          (fun s5 t5 h5 => ?_)
        refine andThen_reloc (hrec _ _ _ _ _ _ h5 (break_reloc_own hk2 hd2))
          (fun s6 t6 h6 => ?_)
        refine andThen_reloc (pop_if_expr_reloc h6 _ _) (fun s7 t7 h7 => ?_)
        refine andThen_reloc (append_jump_reloc h7 _ _ _ _ _ (Or.inl ⟨hk, hd⟩))
          (fun s8 t8 h8 => ?_)
        exact true_reloc (resolve_reloc h8 _ _ hd2)
  | dowhile o l body c =>
    simp only [emit_body]
    rcases promise_new_reloc h with ⟨hs, ht⟩ | ⟨hs, hne⟩ | ⟨ht, hne⟩ |
      ⟨a, b, hs, ht, h2, hk, hd⟩
    · rw [hs, ht]
      exact fail_reloc _ _ _ _ _ _ _
    · rw [hs]
      exact reloc_of_oom_left _ hne ⟨rfl, rfl⟩
    · rw [ht]
      exact reloc_of_oom_right _ hne ⟨rfl, rfl⟩
    · rw [hs, ht]
      simp only
      have hcount := count_reloc h2
      refine andThen_reloc (hrec _ _ _ _ _ _ h2 (break_reloc_own hk hd)) (fun s3 t3 h3 => ?_)
      refine andThen_reloc (pop_if_expr_reloc h3 _ _) (fun s4 t4 h4 => ?_)
      refine andThen_reloc (hrec _ _ _ _ _ _ h4 hbd) (fun s5 t5 h5 => ?_)
      refine andThen_reloc (append_reloc h5 _ _ _ _ _ ⟨rfl, rfl, rfl,
        List.Forall₂.cons ?_ List.Forall₂.nil⟩) (fun s6 t6 h6 => ?_)
      · show ExeBuilder_InstrCount b = ExeBuilder_InstrCount a + r.delta
        exact hcount
      · exact true_reloc (resolve_reloc h6 _ _ hd)
  | comp o l head => exact emit_stmts_reloc hrec hbd head s t h
  | ret o l val =>
    rw [emit_body_ret, emit_body_ret]
    split
    · exact andThen_reloc (emit_each_reloc hrec hbd _ s t h)
        (fun s1 t1 h1 => append_same_reloc h1 _ _ _ _ (by decide) (by simp))
    · exact false_reloc _ _ _
  | func o l name argv argc body =>
    simp only [emit_body]
    rcases promise_new_reloc h with ⟨hs, ht⟩ | ⟨hs, hne⟩ | ⟨ht, hne⟩ |
      ⟨a1, b1, hs, ht, h2, hk, hd⟩
    · simp only [hs, ht]
      exact fail_reloc _ _ _ _ _ _ _
    · simp only [hs]
      exact reloc_of_oom_left _ hne ⟨rfl, rfl⟩
    · simp only [ht]
      exact reloc_of_oom_right _ hne ⟨rfl, rfl⟩
    · rcases promise_new_reloc h2 with ⟨hs2, ht2⟩ | ⟨hs2, hne⟩ | ⟨ht2, hne⟩ |
        ⟨a2, b2, hs2, ht2, h3, hk2, hd2⟩
      · simp only [hs, ht, hs2, ht2]
        exact fail_reloc _ _ _ _ _ _ _
      · simp only [hs, hs2]
        exact reloc_of_oom_left _ hne ⟨rfl, rfl⟩
      · simp only [ht, ht2]
        exact reloc_of_oom_right _ hne ⟨rfl, rfl⟩
      · simp only [hs, ht, hs2, ht2]
        refine andThen_reloc (append_reloc h3 _ _ _ _ _ ⟨rfl, rfl, rfl,
          List.Forall₂.cons (Or.inl ⟨hk, hd⟩)
            (List.Forall₂.cons ?_ List.Forall₂.nil)⟩) (fun s4 t4 h4 => ?_)
        · show argc = argc
          rfl
        refine andThen_reloc (append_same_reloc h4 _ _ _ _ (by decide) (by simp))
          (fun s5 t5 h5 => ?_)
        refine andThen_reloc (append_same_reloc h5 _ _ _ _ (by decide) (by simp))
          (fun s6 t6 h6 => ?_)
        refine andThen_reloc (append_jump_reloc h6 _ _ _ _ _ (Or.inl ⟨hk2, hd2⟩))
          (fun s7 t7 h7 => ?_)
        refine andThen_reloc (emit_args_reloc argv _ _ (resolve_reloc h7 _ _ hd))
          (fun s8 t8 h8 => ?_)
        refine andThen_reloc (hrec _ _ _ _ _ _ h8 (break_reloc_none r)) (fun s9 t9 h9 => ?_)
        refine andThen_reloc (pop_if_expr_reloc h9 _ _) (fun s10 t10 h10 => ?_)
        refine andThen_reloc (append_same_reloc h10 _ _ _ _ (by decide) (by simp))
          (fun s11 t11 h11 => ?_)
        exact true_reloc (resolve_reloc h11 _ _ hd2)

theorem emit_depth_reloc (depth : Nat) : (emit_depth depth).Relocates := by
  induction depth with
  | zero => intro r s t node bs bt h hbd; exact false_reloc _ _ _
  | succ d ih => exact emit_body_reloc ih

theorem emit_instr_for_node_reloc : emit_instr_for_node.Relocates :=
  fun r s t node bs bt h hbd => emit_depth_reloc node.size r s t node bs bt h hbd

theorem relocated_start (s t : Env) (bd : Option Nat) :
    Relocated ⟨s.code.length, t.code.length, s.cells.length, t.cells.length, s.mem, t.mem, bd⟩
      s t := by
  refine ⟨Nat.add_comm _ _, Nat.le_refl _, Nat.add_comm _ _, Nat.le_refl _, Nat.add_comm _ _,
    ?_, ?_⟩
  · show List.Forall₂ _ (s.code.drop s.code.length) (t.code.drop t.code.length)
    rw [List.drop_length, List.drop_length]
    exact List.Forall₂.nil
  · intro j
    show t.cells[t.cells.length + j]? = (s.cells[s.cells.length + j]?).map _
    rw [List.getElem?_eq_none (by omega), List.getElem?_eq_none (by omega)]
    rfl

theorem break_reloc_same (p0 q0 ks kt m0 n0 : Nat) (bd : Option Nat) :
    BreakRelocated ⟨p0, q0, ks, kt, m0, n0, bd⟩ bd bd := by
  cases bd with
  | none => trivial
  | some b => exact Or.inr ⟨rfl, rfl⟩

theorem forall₂_imp_mem {α β : Type} {R Q : α → β → Prop} {xs : List α} {ys : List β}
    (h : List.Forall₂ R xs ys) (himp : ∀ a b, a ∈ xs → b ∈ ys → R a b → Q a b) :
    List.Forall₂ Q xs ys := by
  induction h with
  | nil => exact List.Forall₂.nil
  | cons hab _ ih =>
    exact List.Forall₂.cons (himp _ _ (List.mem_cons_self _ _) (List.mem_cons_self _ _) hab)
      (ih (fun a b ha hb => himp a b (List.mem_cons_of_mem _ ha) (List.mem_cons_of_mem _ hb)))

/-- A forward reference in an instruction of an extension points to a cell
allocated meanwhile or to one the caller allows. -/
theorem Ext.operand_cell {A : Nat → Prop} {s s' : Env} (h : Ext A s s') {i : Instr}
    (hi : i ∈ emitted s s') {p : Nat} (hp : Operand.promise p ∈ i.ops) :
    (s.cells.length ≤ p ∧ p < s'.cells.length) ∨ A p := by
  obtain ⟨d, n, hc, hk, -, hok⟩ := h
  rw [emitted_of_code_eq hc] at hi
  rcases (hok i hi).1 p hp with x | x
  · exact Or.inl ⟨x.1, by rw [hk, List.length_append]; exact x.2⟩
  · exact Or.inr x

theorem operand_moved_of {s t s' t' : Env} {bd : Option Nat} {index : Bool} {a b : Operand}
    (hres : ∀ c, s.cells.length ≤ c → c < s'.cells.length →
      ∃ v : Nat, s'.cells[c]? = some (Promise.resolved v))
    (hlen : t'.cells.length + s.cells.length = s'.cells.length + t.cells.length)
    (hcell : ∀ j, t'.cells[t.cells.length + j]? =
      (s'.cells[s.cells.length + j]?).map (Promise.shift ((t.code.length : Int) - s.code.length)))
    (ha : ∀ p, a = Operand.promise p →
      (s.cells.length ≤ p ∧ p < s'.cells.length) ∨ bd = some p)
    (hb : ∀ p, b = Operand.promise p →
      (t.cells.length ≤ p ∧ p < t'.cells.length) ∨ bd = some p)
    (h : OperandRelocated
      ⟨s.code.length, t.code.length, s.cells.length, t.cells.length, s.mem, t.mem, bd⟩
      index a b) :
    OperandMoved s t s' t' bd index a b := by
  cases a <;> cases b <;> try exact h
  rename_i c d
  have own : s.cells.length ≤ c → c < s'.cells.length →
      d + s.cells.length = c + t.cells.length →
      OperandMoved s t s' t' bd index (Operand.promise c) (Operand.promise d) := by
    intro h1 h2 h3
    obtain ⟨v, hv⟩ := hres c h1 h2
    refine Or.inr ⟨h1, h2, h3, v, hv, ?_⟩
    have e := hcell (c - s.cells.length)
    have e1 : t.cells.length + (c - s.cells.length) = d := by omega
    have e2 : s.cells.length + (c - s.cells.length) = c := by omega
    rw [e1, e2, hv] at e
    exact e
  rcases h with ⟨h1, h3⟩ | ⟨h1, h2⟩
  · have h1' : s.cells.length ≤ c := h1
    have h3' : d + s.cells.length = c + t.cells.length := h3
    rcases hb d rfl with ⟨b1, b2⟩ | hbd
    · exact own h1' (by omega) h3'
    · rcases ha c rfl with ⟨a1, a2⟩ | hbc
      · exact own a1 a2 h3'
      · rw [hbd] at hbc
        cases hbc
        exact Or.inl ⟨rfl, hbd⟩
  · exact Or.inl ⟨h1, h2⟩

/-- C28: lowering is position-independent up to relocation.  For every node,
every `break_dest` and every two builders `s` and `t`, whatever their
instruction counts `p` and `q`, their arenas and their allocation budgets:
`emit_instr_for_node` succeeds from `s` if and only if it succeeds from `t`
when the two budgets are equal, and in any case a lowering that fails where
the other succeeds has run out of memory (its error is "No memory").  When
both succeed, the two emitted sequences have the same length and correspond
instruction by instruction (`InstrMoved`): the same opcode and source span,
the same integer, float and string operands, except that the literal start
index of a do-while `JUMPIFANDPOP` differs by exactly `q - p`; a forward
reference to `break_dest` is a reference to that same cell in both; every
other forward reference is to a cell that the call allocated, the same in
order of allocation in both, resolved in both, to indices (jump targets, the
`PUSHFUN` entry) that differ by exactly `q - p`.  The two lowerings allocate
the same number of cells and spend the same number of allocations, every cell
they allocate is resolved, to `v` from `s` and to `v + (q - p)` from `t`, and
the earlier cells of both arenas are unchanged. -/
theorem lowering_position_independent (s t : Env) (node : Node) (bd : Option Nat) :
    (s.mem = t.mem →
      (emit_instr_for_node s node bd).1 = (emit_instr_for_node t node bd).1) ∧
    ((emit_instr_for_node s node bd).1 = true → (emit_instr_for_node t node bd).1 = false →
      (emit_instr_for_node t node bd).2.error = Error.report true ErrorMessage.no_memory) ∧
    ((emit_instr_for_node s node bd).1 = false → (emit_instr_for_node t node bd).1 = true →
      (emit_instr_for_node s node bd).2.error = Error.report true ErrorMessage.no_memory) ∧
    ∀ s' t', emit_instr_for_node s node bd = (true, s') →
      emit_instr_for_node t node bd = (true, t') →
      (emitted t t').length = (emitted s s').length ∧
      List.Forall₂ (InstrMoved s t s' t' bd) (emitted s s') (emitted t t') ∧
      t'.cells.length + s.cells.length = s'.cells.length + t.cells.length ∧
      s'.mem + t.mem = t'.mem + s.mem ∧
      (∀ j, s.cells.length + j < s'.cells.length →
        ∃ v : Nat, s'.cells[s.cells.length + j]? = some (Promise.resolved v) ∧
          t'.cells[t.cells.length + j]? =
            some (Promise.resolved (v + ((t.code.length : Int) - s.code.length)))) ∧
      (∀ c, c < s.cells.length → s'.cells[c]? = s.cells[c]?) ∧
      (∀ c, c < t.cells.length → t'.cells[c]? = t.cells[c]?) := by
  obtain ⟨hflag, hboth, hleft, hright⟩ := emit_instr_for_node_reloc
    ⟨s.code.length, t.code.length, s.cells.length, t.cells.length, s.mem, t.mem, bd⟩
    s t node bd bd (relocated_start s t bd) (break_reloc_same _ _ _ _ _ _ bd)
  refine ⟨hflag, fun h1 h2 => (hleft h1 h2).2, fun h1 h2 => (hright h1 h2).2,
    fun s' t' hs ht => ?_⟩
  rw [hs, ht] at hboth
  obtain ⟨hmem, -, hlen, -, -, hinstr, hcell⟩ := hboth rfl rfl
  have hext := emit_instr_for_node_sound s node bd s' hs
  have hext' := emit_instr_for_node_sound t node bd t' ht
  have hres : ∀ c, s.cells.length ≤ c → c < s'.cells.length →
      ∃ v : Nat, s'.cells[c]? = some (Promise.resolved v) := by
    intro c h1 h2
    obtain ⟨v, hv, -⟩ := hext.cell_resolved h1 h2
    exact ⟨v, hv⟩
  refine ⟨(List.Forall₂.length_eq hinstr).symm, ?_, hlen, hmem, ?_,
    fun c hc => hext.cell_old hc, fun c hc => hext'.cell_old hc⟩
  · refine forall₂_imp_mem hinstr (fun i j hi hj hij => ?_)
    obtain ⟨ho, hoff, hl, hops⟩ := hij
    refine ⟨ho, hoff, hl, forall₂_imp_mem hops
      (fun a b ha hb hab => operand_moved_of hres hlen hcell ?_ ?_ hab)⟩
    · intro p hp
      rw [hp] at ha
      exact hext.operand_cell hi ha
    · intro p hp
      rw [hp] at hb
      exact hext'.operand_cell hj hb
  · intro j hj
    obtain ⟨v, hv⟩ := hres _ (Nat.le_add_right _ _) hj
    refine ⟨v, hv, ?_⟩
    have e := hcell j
    rw [show s'.cells[s.cells.length + j]? = some (Promise.resolved v) from hv] at e
    exact e

theorem lowering_position_independent_witness :
    (∃ s' t', emit_instr_for_node example_env example_dowhile none = (true, s') ∧
      emit_instr_for_node example_env_later example_dowhile none = (true, t') ∧
      s'.cells = [Promise.resolved 5, Promise.resolved 3] ∧
      t'.cells = [Promise.resolved 0, Promise.resolved 6, Promise.resolved 4] ∧
      s'.code[1]? = some ⟨Opcode.OPCODE_JUMPIFNOTANDPOP, [Operand.promise 1], 5, 13⟩ ∧
      t'.code[2]? = some ⟨Opcode.OPCODE_JUMPIFNOTANDPOP, [Operand.promise 2], 5, 13⟩ ∧
      s'.code[4]? = some ⟨Opcode.OPCODE_JUMPIFANDPOP, [Operand.int 0], 27, 4⟩ ∧
      t'.code[5]? = some ⟨Opcode.OPCODE_JUMPIFANDPOP, [Operand.int 1], 27, 4⟩ ∧
      List.Forall₂ (InstrMoved example_env example_env_later s' t' none)
        (emitted example_env s') (emitted example_env_later t')) ∧
    ∃ s' t', emit_instr_for_node example_env_loop example_if_break (some 0) = (true, s') ∧
      emit_instr_for_node example_env_loop_later example_if_break (some 0) = (true, t') ∧
      s'.cells = [Promise.pending, Promise.resolved 3] ∧
      t'.cells = [Promise.pending, Promise.resolved 0, Promise.resolved 4] ∧
      s'.code[1]? = some ⟨Opcode.OPCODE_JUMPIFNOTANDPOP, [Operand.promise 1], 0, 14⟩ ∧
      t'.code[2]? = some ⟨Opcode.OPCODE_JUMPIFNOTANDPOP, [Operand.promise 2], 0, 14⟩ ∧
      s'.code[2]? = some ⟨Opcode.OPCODE_JUMP, [Operand.promise 0], 7, 5⟩ ∧
      t'.code[3]? = some ⟨Opcode.OPCODE_JUMP, [Operand.promise 0], 7, 5⟩ ∧
      List.Forall₂ (InstrMoved example_env_loop example_env_loop_later s' t' (some 0))
        (emitted example_env_loop s') (emitted example_env_loop_later t') :=
  ⟨⟨_, _, rfl, rfl, rfl, rfl, rfl, rfl, rfl, rfl,
      ((lowering_position_independent example_env example_env_later example_dowhile none).2.2.2
        _ _ rfl rfl).2.1⟩,
    ⟨_, _, rfl, rfl, rfl, rfl, rfl, rfl, rfl, rfl,
      ((lowering_position_independent example_env_loop example_env_loop_later example_if_break
        (some 0)).2.2.2 _ _ rfl rfl).2.1⟩⟩

/-- The one difference in success that two lowerings of a node may show: with
no allocation left the literal `5` fails with "No memory", with room for one
it succeeds. -/
theorem lowering_out_of_memory_example :
    (emit_instr_for_node { example_env with mem := 0 } (Node.int 0 1 5) none).1 = false ∧
    (emit_instr_for_node { example_env with mem := 0 } (Node.int 0 1 5) none).2.error =
      Error.report true ErrorMessage.no_memory ∧
    (emit_instr_for_node example_env (Node.int 0 1 5) none).1 = true :=
  ⟨rfl, rfl, rfl⟩

end Noja
